import Mathlib

/-!
Verification of the proposal reconciliation and date-normalization subsystem
of the fastfoto_bside_ocr repository.

Python strings are embedded as lists of characters (`Str`), Python text
operations (`strip`, `startswith`, `in`, `split(sep, 1)`, `replace`,
`lower`/`upper`) as executable functions on such lists.  `pathlib.Path`
values are embedded as a parent string plus a file name, with `stem` and
`suffix` computed exactly as CPython's `PurePath` does (split at the last
dot, provided it is neither the first nor the last character of the name).

The one external collaborator inside the date parser, the third-party
`dateutil` fuzzy parser, is not code of this repository; it is embedded as
an opaque function parameter `du : Str → Option PyDatetime`, where `none`
stands for `dateutil_parser.parse` raising `ValueError`/`OverflowError`.
Every theorem about `DateParser.parse` is stated for the collaborator
behaviours it needs, and all repository-side logic (century fix, range
check, the custom format matchers) is translated from the source.
-/

namespace FFOcr

/-- Python `str`, embedded as a list of characters. -/
abbrev Str := List Char

/-- The whitespace characters stripped by Python `str.strip()` (ASCII part;
all strings handled by this code base are ASCII apart from a few fixed
literals that contain no whitespace). -/
def isPySpace (c : Char) : Bool :=
  c = ' ' || c = '\t' || c = '\n' || c = '\x0d' || c = '\x0b' || c = '\x0c'

/-- Python `str.strip()`: drop leading and trailing whitespace. -/
def pyStrip (s : Str) : Str :=
  ((s.dropWhile isPySpace).reverse.dropWhile isPySpace).reverse

/-- Python `s.startswith(p)`. -/
def pyStarts (s p : Str) : Bool :=
  p.isPrefixOf s

/-- Python `s.endswith(t)`. -/
def pyEnds (s t : Str) : Bool :=
  t.isSuffixOf s

/-- Python `p in s` (substring containment). -/
def pySub (p : Str) : Str → Bool
  | [] => p.isPrefixOf []
  | c :: r => p.isPrefixOf (c :: r) || pySub p r

/-- Python `s.split(c, 1)` when `c` occurs in `s`: the part before the first
occurrence of `c` and the part after it.  When `c` does not occur the whole
string is returned as the first component (the callers always guard with
`c in s`). -/
def splitFirst (c : Char) : Str → Str × Str
  | [] => ([], [])
  | d :: r =>
    if d = c then ([], r)
    else
      let p := splitFirst c r
      (d :: p.1, p.2)

/-- Python `s.split(sep, 1)` for a multi-character separator: the text
before and after the first occurrence of `sep`, or `none` when `sep` does
not occur. -/
def splitFirstStr (sep : Str) : Str → Option (Str × Str)
  | [] => if sep = [] then some ([], []) else none
  | c :: r =>
    if sep.isPrefixOf (c :: r) then some ([], (c :: r).drop sep.length)
    else
      match splitFirstStr sep r with
      | some (a, b) => some (c :: a, b)
      | none => none

/-- Fuel-indexed worker for `pyReplace`; the fuel is structural so that
the function reduces inside the kernel.  One unit of fuel is spent per
replaced occurrence, and every occurrence of a nonempty `old` consumes at
least one character, so `s.length` fuel is always enough. -/
def pyReplaceFuel : Nat → Str → Str → Str → Str
  | 0, s, _, _ => s
  | fuel + 1, s, old, new =>
    match splitFirstStr old s with
    | none => s
    | some (a, b) => a ++ new ++ pyReplaceFuel fuel b old new

/-- Python `s.replace(old, new)` for a nonempty `old`: replace every
non-overlapping occurrence, scanning left to right. -/
def pyReplace (s old new : Str) : Str :=
  pyReplaceFuel s.length s old new

/-- Python `s.strip(chars)`: drop leading and trailing characters belonging
to `chars`. -/
def pyStripChars (chars : List Char) (s : Str) : Str :=
  ((s.dropWhile (chars.contains ·)).reverse.dropWhile (chars.contains ·)).reverse

/-- ASCII lower-casing of one character (Python `str.lower` on the ASCII
range, which is all this code base feeds it). -/
def charLower (c : Char) : Char :=
  if 'A' ≤ c ∧ c ≤ 'Z' then Char.ofNat (c.toNat + 32) else c

/-- ASCII upper-casing of one character. -/
def charUpper (c : Char) : Char :=
  if 'a' ≤ c ∧ c ≤ 'z' then Char.ofNat (c.toNat - 32) else c

/-- Python `s.lower()`. -/
def pyLower (s : Str) : Str := s.map charLower

/-- Python `s.upper()`. -/
def pyUpper (s : Str) : Str := s.map charUpper

/-- ASCII decimal digit test (`\d` of the regexes in this code base). -/
def isDig (c : Char) : Bool := '0' ≤ c && c ≤ '9'

/-- Numeric value of a decimal digit character. -/
def digVal (c : Char) : Nat := c.toNat - '0'.toNat

/-- Numeric value of a two-digit string. -/
def twoDigVal (a b : Char) : Nat := 10 * digVal a + digVal b

/-- The `[a-z]` class. -/
def isLowerAZ (c : Char) : Bool :=
  'a' ≤ c && c ≤ 'z'

/-- Word characters for the `\b` boundaries of the year-only regex
(ASCII part of Python `\w`). -/
def isWordChar (c : Char) : Bool :=
  isDig c || isLowerAZ c || ('A' ≤ c && c ≤ 'Z') || c = '_'

/-- Ordinal (code point) order on strings, Python `str` comparison.  Used
only for `sorted(...)`; no claim depends on the particular order. -/
def strLt : Str → Str → Bool
  | [], [] => false
  | [], _ :: _ => true
  | _ :: _, [] => false
  | a :: s, b :: t =>
    if a.toNat < b.toNat then true
    else if b.toNat < a.toNat then false
    else strLt s t

/-- Non-strict version of `strLt`. -/
def strLe (s t : Str) : Bool := !strLt t s

end FFOcr

namespace FFOcr

/-- Python `datetime.datetime` restricted to the fields this code base
reads and writes (year, month, day, hour, minute). -/
structure PyDatetime where
  year : Nat
  month : Nat
  day : Nat
  hour : Nat
  minute : Nat
deriving DecidableEq

/-- Gregorian leap-year rule, as in Python's `datetime`. -/
def isLeap (y : Nat) : Bool :=
  y % 4 = 0 && (y % 100 ≠ 0 || y % 400 = 0)

/-- Days in a month, as validated by the `datetime.datetime` constructor. -/
def daysInMonth (y m : Nat) : Nat :=
  if m = 2 then (if isLeap y then 29 else 28)
  else if m = 4 || m = 6 || m = 9 || m = 11 then 30
  else 31

/-- The `datetime.datetime(year, month, day, hour, minute)` constructor:
`some` on valid field values, `none` when CPython would raise
`ValueError` (year outside 1..9999, month outside 1..12, day outside the
month, hour outside 0..23, minute outside 0..59). -/
def mkDatetime (y mo d h mi : Nat) : Option PyDatetime :=
  if 1 ≤ y ∧ y ≤ 9999 ∧ 1 ≤ mo ∧ mo ≤ 12 ∧ 1 ≤ d ∧ d ≤ daysInMonth y mo
      ∧ h ≤ 23 ∧ mi ≤ 59 then
    some ⟨y, mo, d, h, mi⟩
  else none

namespace DateParser

/-- `DateParser.SPANISH_MONTHS` together with the English month names the
normalizer substitutes, in the dictionary's (insertion) order. -/
def spanishMonths : List (Str × Str) :=
  [("enero".toList, "January".toList), ("febrero".toList, "February".toList),
   ("marzo".toList, "March".toList), ("abril".toList, "April".toList),
   ("mayo".toList, "May".toList), ("junio".toList, "June".toList),
   ("julio".toList, "July".toList), ("agosto".toList, "August".toList),
   ("septiembre".toList, "September".toList), ("octubre".toList, "October".toList),
   ("noviembre".toList, "November".toList), ("diciembre".toList, "December".toList)]

/-- `DateParser.MONTH_CODES`: the three-letter APS month codes. -/
def monthCodes : List (Str × Nat) :=
  [("JAN".toList, 1), ("FEB".toList, 2), ("MAR".toList, 3), ("APR".toList, 4),
   ("MAY".toList, 5), ("JUN".toList, 6), ("JUL".toList, 7), ("AUG".toList, 8),
   ("SEP".toList, 9), ("OCT".toList, 10), ("NOV".toList, 11), ("DEC".toList, 12)]

/-- `DateParser._two_digit_year_to_full`: the sliding-window century rule
`00–30 → 2000+yy`, `31–99 → 1900+yy`. -/
def twoDigitYearToFull (yy : Nat) : Nat :=
  if yy ≤ 30 then 2000 + yy else 1900 + yy

/-- `DateParser._fix_century`: rewrite a two-digit year through the
sliding-window rule, leave four-digit years alone. -/
def fixCentury (dt : PyDatetime) : PyDatetime :=
  if dt.year < 100 then { dt with year := twoDigitYearToFull dt.year } else dt

/-- `DateParser._normalize_spanish`: lower-case the string, then replace
each Spanish month name (in dictionary order) by its English equivalent. -/
def normalizeSpanish (s : Str) : Str :=
  spanishMonths.foldl
    (fun acc p => if pySub p.1 acc then pyReplace acc p.1 p.2 else acc)
    (pyLower s)

/-- Uppercase A–Z test (the `[A-Z]` class of the APS regex). -/
def isUpperAZ (c : Char) : Bool := 'A' ≤ c && c ≤ 'Z'

/-- Match of the tail of the APS pattern starting at the hour:
`(\d{1,2}):(\d{2})(AM|PM)`, with the regex engine's greedy-then-backtrack
choice for the one-or-two-digit hour.  Returns (hour, minute, am/pm). -/
def apsTime (s : Str) : Option (Nat × Nat × Str) :=
  match s with
  | a :: b :: ':' :: m1 :: m2 :: r =>
    if isDig a && isDig b && isDig m1 && isDig m2 then
      if pyStarts r "AM".toList then some (twoDigVal a b, twoDigVal m1 m2, "AM".toList)
      else if pyStarts r "PM".toList then some (twoDigVal a b, twoDigVal m1 m2, "PM".toList)
      else none
    else
      match s with
      | a :: ':' :: m1 :: m2 :: r =>
        if isDig a && isDig m1 && isDig m2 then
          if pyStarts r "AM".toList then some (digVal a, twoDigVal m1 m2, "AM".toList)
          else if pyStarts r "PM".toList then some (digVal a, twoDigVal m1 m2, "PM".toList)
          else none
        else none
      | _ => none
  | a :: ':' :: m1 :: m2 :: r =>
    if isDig a && isDig m1 && isDig m2 then
      if pyStarts r "AM".toList then some (digVal a, twoDigVal m1 m2, "AM".toList)
      else if pyStarts r "PM".toList then some (digVal a, twoDigVal m1 m2, "PM".toList)
      else none
    else none
  | _ => none

/-- Match of `\s+` followed by the APS time tail: consume at least one
whitespace character (whitespace is maximal-munched; the next token is a
digit, so this agrees with the backtracking engine). -/
def apsSpaceTime (s : Str) : Option (Nat × Nat × Str) :=
  match s with
  | c :: r => if isPySpace c then apsTime (r.dropWhile isPySpace) else none
  | [] => none

/-- Match of the day-and-time tail of the APS pattern:
`(\d{1,2})\s+ ...` with greedy-then-backtrack day length. -/
def apsDay (s : Str) : Option (Nat × Nat × Nat × Str) :=
  match s with
  | a :: b :: r =>
    if isDig a && isDig b then
      match apsSpaceTime r with
      | some (h, mi, ap) => some (twoDigVal a b, h, mi, ap)
      | none =>
        if isDig a then
          (apsSpaceTime (b :: r)).map (fun t => (digVal a, t))
        else none
    else if isDig a then
      (apsSpaceTime (b :: r)).map (fun t => (digVal a, t))
    else none
  | [a] => none
  | [] => none

/-- Attempt of the full APS pattern
`(\d{2})/([A-Z]{3})/(\d{1,2})\s+(\d{1,2}):(\d{2})(AM|PM)` anchored at the
start of `s`.  Returns (yy, month code, day, hour, minute, am/pm). -/
def apsAt (s : Str) : Option (Nat × Str × Nat × Nat × Nat × Str) :=
  match s with
  | y1 :: y2 :: '/' :: c1 :: c2 :: c3 :: '/' :: r =>
    if isDig y1 && isDig y2 && isUpperAZ c1 && isUpperAZ c2 && isUpperAZ c3 then
      (apsDay r).map (fun t => (twoDigVal y1 y2, [c1, c2, c3], t))
    else none
  | _ => none

/-- `re.search` of the APS pattern: leftmost match. -/
def apsSearch : Str → Option (Nat × Str × Nat × Nat × Nat × Str)
  | [] => apsAt []
  | c :: r =>
    match apsAt (c :: r) with
    | some g => some g
    | none => apsSearch r

/-- Attempt of the consumer pattern `(\d{2})[\./](\d{2})[\./](\d{2})`
anchored at the start of `s`.  Returns (yy, mm, dd). -/
def consumerAt (s : Str) : Option (Nat × Nat × Nat) :=
  match s with
  | a :: b :: s1 :: c :: d :: s2 :: e :: f :: _ =>
    if isDig a && isDig b && (s1 = '.' || s1 = '/') && isDig c && isDig d
        && (s2 = '.' || s2 = '/') && isDig e && isDig f then
      some (twoDigVal a b, twoDigVal c d, twoDigVal e f)
    else none
  | _ => none

/-- `re.search` of the consumer pattern: leftmost match. -/
def consumerSearch : Str → Option (Nat × Nat × Nat)
  | [] => none
  | c :: r =>
    match consumerAt (c :: r) with
    | some g => some g
    | none => consumerSearch r

/-- End-of-match word boundary of the year-only pattern: end of string or a
non-word character. -/
def yoBoundary (s : Str) : Bool :=
  match s with
  | [] => true
  | c :: _ => !isWordChar c

/-- Attempt of `\b(19\d{2}|20[0-2]\d)\b` at the start of `s`, where `prev`
is the character immediately before `s` (none at the start of the text). -/
def yearOnlyAt (prev : Option Char) (s : Str) : Option Nat :=
  let boundOk := match prev with
    | none => true
    | some c => !isWordChar c
  if !boundOk then none
  else
    match s with
    | '1' :: '9' :: a :: b :: r =>
      if isDig a && isDig b && yoBoundary r then
        some (1900 + twoDigVal a b)
      else none
    | '2' :: '0' :: a :: b :: r =>
      if ('0' ≤ a && a ≤ '2') && isDig b && yoBoundary r then
        some (2000 + twoDigVal a b)
      else none
    | _ => none

/-- `re.search` of the year-only pattern: leftmost match, threading the
previous character for the left word boundary. -/
def yearOnlySearchAux (prev : Option Char) : Str → Option Nat
  | [] => yearOnlyAt prev []
  | c :: r =>
    match yearOnlyAt prev (c :: r) with
    | some y => some y
    | none => yearOnlySearchAux (some c) r

/-- `re.search(r'\b(19\d{2}|20[0-2]\d)\b', s)`. -/
def yearOnlySearch (s : Str) : Option Nat :=
  yearOnlySearchAux none s

/-- The year-only fallback at the end of `DateParser._parse_custom`. -/
def yearOnlyFallback (s : Str) : Option PyDatetime :=
  match yearOnlySearch s with
  | some y => some ⟨y, 1, 1, 0, 0⟩
  | none => none

/-- The consumer-stamp fallback of `DateParser._parse_custom`: try
`datetime(year, mm, dd)`, on `ValueError` retry with day and month
swapped, then fall through to the year-only pattern. -/
def consumerFallback (s : Str) : Option PyDatetime :=
  match consumerSearch s with
  | some (yy, mm, dd) =>
    let year := twoDigitYearToFull yy
    match mkDatetime year mm dd 0 0 with
    | some dt => some dt
    | none =>
      match mkDatetime year dd mm 0 0 with
      | some dt => some dt
      | none => yearOnlyFallback s
  | none => yearOnlyFallback s

/-- `DateParser._parse_custom`: the APS stamp, then the consumer stamp,
then the year-only pattern, each falling through to the next on failure.
The APS pattern is searched on the upper-cased string, the other two on
the string as given, exactly as in the source. -/
def parseCustom (s : Str) : Option PyDatetime :=
  match apsSearch (pyUpper s) with
  | some (yy, mon, d, h, m, ampm) =>
    let year := twoDigitYearToFull yy
    match monthCodes.lookup mon with
    | some month =>
      let hour := if ampm = "PM".toList ∧ h ≠ 12 then h + 12
                  else if ampm = "AM".toList ∧ h = 12 then 0
                  else h
      match mkDatetime year month d hour m with
      | some dt => some dt
      | none => consumerFallback s
    | none => consumerFallback s
  | none => consumerFallback s

/-- `DateParser.parse` for a parser constructed with collection range
`(minYear, maxYear)`.  `du` is the external `dateutil` collaborator,
applied (as in the source) to the Spanish-normalized, lower-cased copy of
the stripped input; `du _ = none` stands for the library raising, which
sends the source to `_parse_custom` on the stripped original. -/
def parse (du : Str → Option PyDatetime) (minYear maxYear : Nat) (s : Str) :
    Option PyDatetime :=
  if s = [] then none
  else
    let t := pyStrip s
    let norm := normalizeSpanish t
    match du norm with
    | some dt0 =>
      let dt := if dt0.year < 100 then fixCentury dt0 else dt0
      if minYear ≤ dt.year ∧ dt.year ≤ maxYear + 50 then some dt else none
    | none => parseCustom t

/-- `DateParser.parse_multiple`. -/
def parseMultiple (du : Str → Option PyDatetime) (minYear maxYear : Nat)
    (strs : List Str) : List (Str × Option PyDatetime) :=
  strs.map (fun s => (s, parse du minYear maxYear s))

/-- The precision score of `DateParser.get_best_date`: +100 when the day
is not 1, +10 when the month is not 1, +1 when a time component is
present. -/
def dateScore (dt : PyDatetime) : Nat :=
  (if dt.day ≠ 1 then 100 else 0) + (if dt.month ≠ 1 then 10 else 0) +
    (if dt.hour ≠ 0 ∨ dt.minute ≠ 0 then 1 else 0)

/-- Python `max(xs, key=score)` over a nonempty list: keep the first
element, replace only on a strictly larger score (first maximum wins). -/
def maxByFirst (score : α → Nat) (x : α) : List α → α
  | [] => x
  | y :: ys => maxByFirst score (if score y > score x then y else x) ys

/-- `DateParser.get_best_date`: parse every candidate, drop failures, and
return the first highest-scoring survivor. -/
def getBestDate (du : Str → Option PyDatetime) (minYear maxYear : Nat)
    (strs : List Str) : Option PyDatetime :=
  let valid := (parseMultiple du minYear maxYear strs).filterMap
    (fun p => p.2.map (fun dt => (p.1, dt)))
  match valid with
  | [] => none
  | v :: vs => some (maxByFirst (fun p => dateScore p.2) v vs).2

end DateParser

end FFOcr

namespace FFOcr

/-- A `pathlib.Path`, embedded as the string of its parent directory plus
its final component (`name`).  `Path` equality (used as dictionary key) is
equality of both parts. -/
structure PyPath where
  parent : Str
  name : Str
deriving DecidableEq

/-- Index of the last occurrence of `c` in `s` (`str.rfind`). -/
def rfindIdx (c : Char) (s : Str) : Option Nat :=
  match s.reverse.findIdx? (· = c) with
  | some j => some (s.length - 1 - j)
  | none => none

/-- `PurePath.suffix`: the extension from the last dot of the name,
provided that dot is neither the first nor the last character; otherwise
the empty string.  This is exactly CPython's rule. -/
def pathSuffix (p : PyPath) : Str :=
  match rfindIdx '.' p.name with
  | some i => if 0 < i ∧ i < p.name.length - 1 then p.name.drop i else []
  | none => []

/-- `PurePath.stem`: the name without `pathSuffix`. -/
def pathStem (p : PyPath) : Str :=
  match rfindIdx '.' p.name with
  | some i => if 0 < i ∧ i < p.name.length - 1 then p.name.take i else p.name
  | none => p.name

/-- `parent / f"{stem}{ext}"`: a sibling path with the given name. -/
def pathSibling (p : PyPath) (nm : Str) : PyPath :=
  ⟨p.parent, nm⟩

/-- Path order used by `sorted(...)` over paths (parent first, then name).
No claim depends on the particular order, only on `sorted` being a
permutation. -/
def pathLe (a b : PyPath) : Prop :=
  (strLt a.parent b.parent || (a.parent = b.parent && strLe a.name b.name)) = true

instance : DecidableRel pathLe := fun a b => by
  unfold pathLe
  infer_instance

namespace FileDiscovery

/-- `FileDiscovery.DEFAULT_EXTENSIONS`. -/
def defaultExtensions : List Str :=
  [".jpg".toList, ".jpeg".toList, ".tif".toList, ".tiff".toList,
   ".JPG".toList, ".JPEG".toList, ".TIF".toList, ".TIFF".toList]

/-- `FileDiscovery.DEFAULT_BACK_SUFFIXES`. -/
def defaultBackSuffixes : List Str :=
  ["_b".toList, "_B".toList]

/-- `FileDiscovery.is_photo_file`: the path's suffix is one of the
configured extensions. -/
def isPhotoFile (exts : List Str) (p : PyPath) : Bool :=
  exts.contains (pathSuffix p)

/-- `FileDiscovery.is_back_file`: a photo file whose stem ends with one of
the configured back suffixes. -/
def isBackFile (exts sufs : List Str) (p : PyPath) : Bool :=
  isPhotoFile exts p && sufs.any (fun suf => pyEnds (pathStem p) suf)

/-- The chained `.replace` calls of patterns 3–5 of
`FileDiscovery.get_original_path`. -/
def stripMarker (stem marker : Str) : Str :=
  pyReplace (pyReplace (pyReplace stem ('_' :: marker) []) (marker ++ ['_']) [])
    marker []

/-- `FileDiscovery.get_original_path`: compute the expected original path
for a back scan.  Pattern 1 strips a configured `_b`/`_B` suffix; the
later patterns (FastFoto prefix, back/reverse/rear markers) are diagnostic
fallbacks, included for fidelity. -/
def getOriginalPath (sufs : List Str) (p : PyPath) : PyPath :=
  let stem := pathStem p
  let ext := pathSuffix p
  let nameLower := pyLower p.name
  match sufs.find? (fun suf => pyEnds stem suf) with
  | some suf => pathSibling p (stem.take (stem.length - suf.length) ++ ext)
  | none =>
    if pyStarts nameLower "fastfoto_".toList then p
    else if pySub "back".toList nameLower then
      let os := stripMarker stem "back".toList
      if os ≠ [] then pathSibling p (os ++ ext)
      else if pySub "reverse".toList nameLower then
        let os := stripMarker stem "reverse".toList
        if os ≠ [] then pathSibling p (os ++ ext) else backupRear p stem ext nameLower
      else backupRear p stem ext nameLower
    else if pySub "reverse".toList nameLower then
      let os := stripMarker stem "reverse".toList
      if os ≠ [] then pathSibling p (os ++ ext) else backupRear p stem ext nameLower
    else backupRear p stem ext nameLower
where
  /-- Pattern 5 (`rear`) and the final fallback of `get_original_path`. -/
  backupRear (p : PyPath) (stem ext nameLower : Str) : PyPath :=
    if pySub "rear".toList nameLower then
      let os := stripMarker stem "rear".toList
      if os ≠ [] then pathSibling p (os ++ ext) else p
    else p

/-- One `PhotoPair`. -/
structure PhotoPair where
  original : PyPath
  back : Option PyPath
deriving DecidableEq

/-- Association-list update with Python `dict` semantics: overwrite the
value of an existing key in place, else append. -/
def dictUpd (l : List (PyPath × PyPath)) (k v : PyPath) : List (PyPath × PyPath) :=
  match l with
  | [] => [(k, v)]
  | (k0, v0) :: r => if k0 = k then (k, v) :: r else (k0, v0) :: dictUpd r k v

/-- `dict.get`. -/
def dictGet (l : List (PyPath × PyPath)) (k : PyPath) : Option PyPath :=
  match l.find? (fun kv => kv.1 = k) with
  | some kv => some kv.2
  | none => none

/-- `FileDiscovery.discover_pairs` on an already-enumerated file list
(`all_files` is what the glob step produced): returns the emitted pairs
together with the orphan diagnostic list.  The orphan list is computed
exactly as the source computes it: all back files minus the *values* of
the back-file dictionary. -/
def discoverPairs (exts sufs : List Str) (allFiles : List PyPath) :
    List PhotoPair × List PyPath :=
  let part := partFold exts sufs allFiles
  let backFiles := part.1
  let originalFiles := part.2
  let pairs := (originalFiles.insertionSort pathLe).map
    (fun o => PhotoPair.mk o (dictGet backFiles o))
  let pairedBacks := backFiles.map (·.2)
  let allBacks := allFiles.filter (isBackFile exts sufs)
  let orphaned := allBacks.filter (fun b => !pairedBacks.contains b)
  (pairs, orphaned)
where
  /-- Forward fold matching the source's in-order `for` loop.  (The
  recursion in `partitionFiles` builds the same lists; this wrapper keeps
  the loop order explicit.) -/
  partFold (exts sufs : List Str) (files : List PyPath) :
      List (PyPath × PyPath) × List PyPath :=
    files.foldl
      (fun acc f =>
        if isBackFile exts sufs f then (dictUpd acc.1 (getOriginalPath sufs f) f, acc.2)
        else (acc.1, acc.2 ++ [f]))
      ([], [])

end FileDiscovery

end FFOcr

namespace FFOcr

/-- Join a list of lines with newline characters (`"\n".join`). -/
def joinNl (ls : List Str) : Str :=
  List.intercalate ['\n'] ls

/-- Python `"\n".split`-style line splitting: split a string at every
newline character, keeping empty segments (so the result always has one
more element than the string has newlines). -/
def splitLines : Str → List Str
  | [] => [[]]
  | c :: r =>
    if c = '\n' then [] :: splitLines r
    else
      match splitLines r with
      | l :: ls => (c :: l) :: ls
      | [] => [[c]]

/-- The character of a decimal digit. -/
def digitChar (n : Nat) : Char :=
  Char.ofNat ('0'.toNat + n)

/-- Fuel-indexed digit peeling for `natToStr` (structural, so it reduces
inside the kernel; `n` itself is always enough fuel). -/
def natToStrAux : Nat → Nat → Str
  | 0, n => [digitChar (n % 10)]
  | fuel + 1, n =>
    if n < 10 then [digitChar n]
    else natToStrAux fuel (n / 10) ++ [digitChar (n % 10)]

/-- Decimal rendering of a natural number. -/
def natToStr (n : Nat) : Str :=
  natToStrAux n n

/-- Python `f"{i:04d}"`: zero-pad to width four. -/
def fmt04 (n : Nat) : Str :=
  let s := natToStr n
  List.replicate (4 - s.length) '0' ++ s

/-- Exact rational addition through `mkRat` (definitionally transparent,
unlike the `@[irreducible]` field operations, so that concrete proposal
texts evaluate inside the kernel; the value agrees with `Rat.add`). -/
def qAdd (a b : ℚ) : ℚ :=
  mkRat (a.num * b.den + b.num * a.den) (a.den * b.den)

/-- Sum of a list of rationals (the `sum(...)` generator expressions). -/
def qSum (l : List ℚ) : ℚ :=
  l.foldl qAdd 0

/-- Exact division of a rational by a natural number (the float divisions
`sum(...)/total` of the generator). -/
def qDivNat (q : ℚ) (n : Nat) : ℚ :=
  mkRat q.num (q.den * n)

/-- `a >= threshold` on confidences, written through `Rat.blt` so that it
reduces: `threshold ≤ a` is `¬ a < threshold`. -/
def qGe (a b : ℚ) : Bool :=
  !Rat.blt a b

/-- `a < threshold` on confidences. -/
def qLt (a b : ℚ) : Bool :=
  Rat.blt a b

/-- Rendering of a rational with `d` decimal places, rounding half up.
This stands for Python's `%.*f` float formatting; the exact rounding of
the binary floats is irrelevant here because every line carrying such a
number is a statistics or `Confidence:`/`Files:` line that the proposal
parser discards and that no claim constrains. -/
def fmtFix (d : Nat) (q : ℚ) : Str :=
  let scale : Int := (10 : Int) ^ d
  let m : Int := (mkRat (q.num * scale * 2 + q.den) (2 * q.den)).floor
  let sign : Str := if m < 0 then ['-'] else []
  let a := m.natAbs
  let ip := natToStr (a / scale.natAbs)
  let fp := natToStr (a % scale.natAbs)
  if d = 0 then sign ++ ip
  else sign ++ ip ++ ['.'] ++ List.replicate (d - fp.length) '0' ++ fp

/-- Eighty equals signs (`'='*80`). -/
def eq80 : Str := List.replicate 80 '='

/-- Eighty dashes (`'-'*80`). -/
def dash80 : Str := List.replicate 80 '-'

namespace ProposalGenerator

/-- A value of `proposed_updates`: the source handles exactly the cases
`isinstance(value, list)` and strings (plus `str(value)` for anything
else, which the pipeline never produces for proposed updates). -/
inductive PValue where
  | s (v : Str)
  | l (vs : List Str)
deriving DecidableEq

/-- The extraction metadata dictionary of a `ProposalEntry`: the keys the
source reads (`confidence`, `warnings`, `source`, `language`,
`zones_found`), each optional exactly as a dictionary key is. -/
structure PMeta where
  confidence : Option ℚ
  warnings : Option (List Str)
  source : Option Str
  language : Option Str
  zones_found : Option (List Str)
deriving DecidableEq

/-- `proposal_generator.ProposalEntry`. -/
structure ProposalEntry where
  original_path : PyPath
  back_path : Option PyPath
  current_exif : List (Str × Str)
  proposed_updates : List (Str × PValue)
  metadata : PMeta
deriving DecidableEq

/-- `ProposalEntry.has_updates`. -/
def hasUpdates (e : ProposalEntry) : Bool :=
  e.proposed_updates.length > 0

/-- `ProposalEntry.confidence` (`metadata.get('confidence', 0.0)`). -/
def entryConf (e : ProposalEntry) : ℚ :=
  e.metadata.confidence.getD 0

/-- `ProposalEntry.warnings` (`metadata.get('warnings', [])`). -/
def entryWarnings (e : ProposalEntry) : List Str :=
  e.metadata.warnings.getD []

/-- The error message raised by `ProposalGenerator.add_entry` on a
back-scan filename. -/
def addEntryMsg (nm : Str) : Str :=
  "BUG DETECTED: Proposal references back scan filename '".toList ++ nm ++
    "' instead of front image. Remove back scan suffix (_a/_b) for front image filename.".toList

/-- `ProposalGenerator.add_entry`: reject (raise `ValueError`) when the
original filename ends in `_a.jpg`, `_a.jpeg`, `_b.jpg` or `_b.jpeg`;
otherwise append the entry. -/
def addEntry (entries : List ProposalEntry) (e : ProposalEntry) :
    Except Str (List ProposalEntry) :=
  if pyEnds e.original_path.name "_a.jpg".toList
      || pyEnds e.original_path.name "_a.jpeg".toList
      || pyEnds e.original_path.name "_b.jpg".toList
      || pyEnds e.original_path.name "_b.jpeg".toList then
    Except.error (addEntryMsg e.original_path.name)
  else
    Except.ok (entries ++ [e])

/-- `add_entry` over a whole batch, propagating the raised error exactly
as an uncaught Python exception would abort the run. -/
def addEntries (entries : List ProposalEntry) : Except Str (List ProposalEntry) :=
  entries.foldlM addEntry []

/-- `ProposalGenerator.generate_header`.  `now` is the formatted
`datetime.now()` timestamp and `outName` the proposal file's name.  (For
an empty entry list the source raises `ZeroDivisionError` in the
percentage f-string; the embedding is total and is only ever used with at
least one entry, as is the pipeline.) -/
def generateHeader (now outName : Str) (entries : List ProposalEntry) : Str :=
  let total := entries.length
  let withUpdates := (entries.filter hasUpdates).length
  let withoutUpdates := total - withUpdates
  let avgConfidence : ℚ :=
    if total > 0 then qDivNat (qSum (entries.map entryConf)) total else 0
  let highConf := (entries.filter (fun e => qGe (entryConf e) (mkRat 8 10))).length
  let medConf := (entries.filter (fun e =>
    qGe (entryConf e) (mkRat 6 10) && qLt (entryConf e) (mkRat 8 10))).length
  let lowConf := (entries.filter (fun e => qLt (entryConf e) (mkRat 6 10))).length
  eq80 ++ "\nFastFoto OCR - EXIF Update Proposal\nGenerated: ".toList ++ now ++
    ['\n'] ++ eq80 ++
    "\n\nSUMMARY:\n  Total files analyzed: ".toList ++ natToStr total ++
    "\n  Files with proposed updates: ".toList ++ natToStr withUpdates ++
    " (".toList ++ fmtFix 1 (qDivNat (mkRat (100 * withUpdates) 1) total) ++
    "%)\n  Files without updates: ".toList ++ natToStr withoutUpdates ++
    "\n\nCONFIDENCE DISTRIBUTION:\n  High (≥0.8): ".toList ++ natToStr highConf ++
    " files\n  Medium (0.6-0.8): ".toList ++ natToStr medConf ++
    " files\n  Low (<0.6): ".toList ++ natToStr lowConf ++
    " files\n  Average confidence: ".toList ++ fmtFix 2 avgConfidence ++
    "\n\nINSTRUCTIONS:\n  1. Review each proposed update below\n  2. Check for accuracy of extracted dates, locations, and text\n  3. To skip an update, add \"SKIP:\" at the start of that section\n  4. To modify a value, edit it directly in this file\n  5. Save and run with: fastfoto-ocr apply --proposal ".toList ++
    outName ++ ['\n', '\n'] ++ eq80 ++ ['\n', '\n']

/-- The `key_fields` list of `ProposalGenerator.format_entry`. -/
def keyFields : List Str :=
  ["DateTimeOriginal".toList, "GPSLatitude".toList, "GPSLongitude".toList,
   "LocationCreatedCity".toList, "LocationCreatedCountryName".toList,
   "Caption-Abstract".toList, "Keywords".toList, "ImageUniqueID".toList]

/-- The 60-character display truncation of `format_entry`
(`value[:57] + "..."` for strings longer than 60). -/
def trunc60 (v : Str) : Str :=
  if v.length > 60 then v.take 57 ++ "...".toList else v

/-- The rendering of one proposed value in `format_entry`: lists are
joined on `", "` limited to five items with a `(+N more)` marker, long
strings are elided, other strings pass through. -/
def renderValue : PValue → Str
  | PValue.l vs =>
    let joined := List.intercalate ", ".toList (vs.take 5)
    if vs.length > 5 then
      joined ++ " ... (+".toList ++ natToStr (vs.length - 5) ++ " more)".toList
    else joined
  | PValue.s v => trunc60 v

/-- Order on proposed-update pairs used by `sorted(items())`: by key in
ordinal string order (keys of a dictionary are distinct, so the value
never participates in the comparison). -/
def pairLe (a b : Str × PValue) : Prop :=
  strLe a.1 b.1 = true

instance : DecidableRel pairLe := fun a b => by
  unfold pairLe
  infer_instance

/-- The `CURRENT EXIF` block lines of `format_entry`: one line per key
field whose current value is truthy and not the `"<not set>"` default. -/
def currentExifLines (e : ProposalEntry) : List Str :=
  keyFields.filterMap (fun f =>
    let cv := match e.current_exif.find? (fun kv => kv.1 = f) with
      | some kv => kv.2
      | none => "<not set>".toList
    if cv ≠ [] ∧ cv ≠ "<not set>".toList then
      some ("    ".toList ++ f ++ ": ".toList ++ trunc60 cv)
    else none)

/-- The `PROPOSED UPDATES` block lines of `format_entry`. -/
def proposedLines (e : ProposalEntry) : List Str :=
  (e.proposed_updates.insertionSort pairLe).map
    (fun kv => "    ".toList ++ kv.1 ++ ": ".toList ++ renderValue kv.2)

/-- `ProposalGenerator.format_entry`: the exact string the source builds
(`"\n".join(output)`, plus a trailing newline on the two early-return
branches). -/
def formatEntry (i : Nat) (e : ProposalEntry) : Str :=
  let hdr := ['\n', '['] ++ fmt04 i ++ "] ".toList ++ e.original_path.name
  match e.back_path with
  | none => joinNl [hdr, "  No back scan found - skipped".toList] ++ ['\n']
  | some bp =>
    let backLine := "  Back scan: ".toList ++ bp.name
    let confLine := "  Confidence: ".toList ++ fmtFix 2 (entryConf e)
    if !hasUpdates e then
      joinNl [hdr, backLine, confLine, "  Status: No useful metadata extracted".toList]
        ++ ['\n']
    else
      let warnBlock :=
        if entryWarnings e ≠ [] then
          "\n  WARNINGS:".toList ::
            (entryWarnings e).map (fun w => "    ⚠ ".toList ++ w)
        else []
      let metaBlock :=
        (match e.metadata.source with
         | some s => ["    Source: ".toList ++ s]
         | none => []) ++
        (match e.metadata.language with
         | some l => ["    Language: ".toList ++ l]
         | none => []) ++
        (match e.metadata.zones_found with
         | some zs => ["    Zones with data: ".toList ++ List.intercalate ", ".toList zs]
         | none => [])
      joinNl ([hdr, backLine, confLine, "\n  CURRENT EXIF:".toList] ++
        currentExifLines e ++ ["\n  PROPOSED UPDATES:".toList] ++ proposedLines e ++
        warnBlock ++ ["\n  EXTRACTION METADATA:".toList] ++ metaBlock ++ [[]])

/-- `ProposalGenerator.generate_directory_summary`. -/
def directorySummary (directory : Str) (entries : List ProposalEntry) : Str :=
  let total := entries.length
  let withUpdates := (entries.filter hasUpdates).length
  let avgConf : ℚ := if total > 0 then qDivNat (qSum (entries.map entryConf)) total else 0
  ['\n'] ++ dash80 ++ "\nDirectory: ".toList ++ directory ++
    "\n  Files: ".toList ++ natToStr total ++ " | With updates: ".toList ++
    natToStr withUpdates ++ " | Average confidence: ".toList ++ fmtFix 2 avgConf ++
    ['\n'] ++ dash80 ++ ['\n']

/-- The sequential entry loop of `ProposalGenerator.write` (the
`group_by_directory=False` branch), with 1-based global indices. -/
def entriesBody (i : Nat) : List ProposalEntry → Str
  | [] => []
  | e :: r => formatEntry i e ++ entriesBody (i + 1) r

/-- Insertion-ordered grouping of entries by parent directory
(`by_directory` in `ProposalGenerator.write`). -/
def groupByDir : List ProposalEntry → List (Str × List ProposalEntry)
  | [] => []
  | e :: r =>
    let rest := groupByDir r
    addTo e rest
where
  /-- Append `e` to its directory's bucket, keeping first-seen key order. -/
  addTo (e : ProposalEntry) : List (Str × List ProposalEntry) → List (Str × List ProposalEntry)
    | [] => [(e.original_path.parent, [e])]
    | (d, es) :: r =>
      if d = e.original_path.parent then (d, es ++ [e]) :: r
      else (d, es) :: addTo e r

/-- Key order for `sorted(by_directory.keys())`. -/
def dirLe (a b : Str × List ProposalEntry) : Prop :=
  strLe a.1 b.1 = true

instance : DecidableRel dirLe := fun a b => by
  unfold dirLe
  infer_instance

/-- The grouped body of `ProposalGenerator.write`
(`group_by_directory=True`): directory summaries followed by the
directory's entries, global index threaded across directories. -/
def groupedBody (i : Nat) : List (Str × List ProposalEntry) → Str
  | [] => []
  | (d, es) :: r =>
    directorySummary d es ++ entriesBody i es ++ groupedBody (i + es.length) r

/-- The footer written at the end of `ProposalGenerator.write`. -/
def footerStr : Str :=
  ['\n'] ++ eq80 ++ ['\n'] ++ "END OF PROPOSAL\n".toList ++ eq80 ++ ['\n']

/-- `ProposalGenerator.write`: the full text written to the proposal file
(header, entries — grouped by directory or sequential — and footer). -/
def writeContent (groupdir : Bool) (now outName : Str)
    (entries : List ProposalEntry) : Str :=
  generateHeader now outName entries ++
    (if groupdir then
      groupedBody 1 ((groupByDir entries).insertionSort dirLe)
    else entriesBody 1 entries) ++
    footerStr

end ProposalGenerator

end FFOcr

namespace FFOcr

namespace InteractiveProcessor

/-- One entry produced by
`InteractiveProcessor._parse_proposal_content`: the dictionary with keys
`original_path`, `skip`, `proposed_updates`, `back_path`. -/
structure ParsedEntry where
  original_path : Str
  skip : Bool
  proposed_updates : List (Str × Str)
  back_path : Option Str
deriving DecidableEq

/-- Python `dict` update on string-keyed association lists: overwrite in
place, else append. -/
def dictUpdS (l : List (Str × Str)) (k v : Str) : List (Str × Str) :=
  match l with
  | [] => [(k, v)]
  | (k0, v0) :: r => if k0 = k then (k, v) :: r else (k0, v0) :: dictUpdS r k v

/-- The descriptive field labels skipped by the proposal parser. -/
def descriptiveFields : List Str :=
  ["Confidence".toList, "Source".toList, "Language".toList, "Note".toList,
   "Zones with data".toList]

/-- The parser state: the entry currently being filled (if any) and the
entries already flushed. -/
abbrev ParseState := Option ParsedEntry × List ParsedEntry

/-- One iteration of the line loop of
`InteractiveProcessor._parse_proposal_content`, in the source's exact
test order: strip; skip blank/rule/`SUMMARY:`/`INSTRUCTIONS:` lines; the
`SKIP:` marker; a `[NNNN] name` header (flushing the open entry); then —
only with an open entry — the `Back scan:` line and the `Field: Value`
shape with its descriptive-label and empty/`<not set>` exclusions. -/
def parseStep (st : ParseState) (rawLine : Str) : ParseState :=
  let line := pyStrip rawLine
  if line = [] || pyStarts line "=".toList || pyStarts line "SUMMARY:".toList
      || pyStarts line "INSTRUCTIONS:".toList then st
  else if pyStarts line "SKIP:".toList then
    match st.1 with
    | some cur => (some { cur with skip := true }, st.2)
    | none => st
  else if pyStarts line "[".toList && pySub "] ".toList line then
    let flushed := st.2 ++ (match st.1 with | some c => [c] | none => [])
    match splitFirstStr "] ".toList line with
    | some (_, after) => (some ⟨pyStrip after, false, [], none⟩, flushed)
    | none => (st.1, flushed)
  else
    match st.1 with
    | none => st
    | some cur =>
      if pyStarts line "Back scan:".toList then
        (some { cur with back_path := some (pyStrip (splitFirst ':' line).2) }, st.2)
      else if line.contains ':' && !pyStarts line "  ".toList
          && !pySub "EXIF".toList line && !pySub "METADATA".toList line then
        let field := pyStrip (splitFirst ':' line).1
        let value := pyStrip (splitFirst ':' line).2
        if descriptiveFields.contains field then st
        else if value ≠ [] ∧ value ≠ "<not set>".toList then
          (some { cur with proposed_updates := dictUpdS cur.proposed_updates field value },
            st.2)
        else st
      else st

/-- `InteractiveProcessor._parse_proposal_content`: split the file content
on newlines, run the line loop, and flush the final open entry. -/
def parseProposalContent (content : Str) : List ParsedEntry :=
  let final := (splitLines content).foldl parseStep (none, [])
  final.2 ++ (match final.1 with | some c => [c] | none => [])

end InteractiveProcessor

end FFOcr

namespace FFOcr

namespace InteractiveProcessor

/-- A zone-1/zone-2 sub-record of the analysis JSON: the keys
`extract_metadata_from_analysis` reads.  A missing string key is `none`;
Python truthiness of a present value is emptiness of the string. -/
structure ZoneMachine where
  found : Bool
  roll_id : Option Str
  frame : Option Str
  lab_code : Option Str
deriving DecidableEq

/-- The zone-4 (handwritten) sub-record: the keys the extractor reads.
List-valued keys use `[]` for both a missing key and an empty list (the
source only ever tests their truthiness, which identifies the two). -/
structure ZoneHand where
  locations : List Str
  people : List Str
  events : List Str
  descriptive_text : Option Str
  language : Option Str
deriving DecidableEq

/-- The analysis record handed to `extract_metadata_from_analysis`. -/
structure Analysis where
  all_dates_found : List Str
  zone_1_bottom_edge : Option ZoneMachine
  zone_2_center : Option ZoneMachine
  zone_4_handwritten : Option ZoneHand
  confidence : Option ℚ
deriving DecidableEq

/-- Truthiness of an optional string (`zone.get(key)`). -/
def truthy : Option Str → Bool
  | none => false
  | some s => !s.isEmpty

/-- The `roll_info` dictionary built from zones 1 and 2: zone 1 first,
then zone 2, each `if zone and zone.get('found')` guarded, later writes
overwriting earlier ones exactly as in the source. -/
structure RollInfo where
  roll_id : Option Str
  frame_number : Option Str
  lab_code : Option Str
deriving DecidableEq

/-- The flat metadata record produced by
`extract_metadata_from_analysis`; a `none` field is an absent key. -/
structure ExtractedMeta where
  date : Option PyDatetime
  location_name : Option Str
  keywords : Option (List Str)
  caption : Option Str
  user_comment : Option Str
  roll_id : Option Str
  frame_number : Option Str
  lab_code : Option Str
  confidence : ℚ
  language : Option Str
deriving DecidableEq

/-- The zone-1/zone-2 part of `extract_metadata_from_analysis` (lines
269–292 of `interactive_processor.py`): zone 1's truthy fields are
written first, then zone 2's truthy `roll_id`/`frame` are written into
the same dictionary. -/
def rollInfoOf (a : Analysis) : RollInfo :=
  let r0 : RollInfo := ⟨none, none, none⟩
  let r1 :=
    match a.zone_1_bottom_edge with
    | some z1 =>
      if z1.found then
        let ra := if truthy z1.roll_id then { r0 with roll_id := z1.roll_id } else r0
        let rb := if truthy z1.frame then { ra with frame_number := z1.frame } else ra
        if truthy z1.lab_code then { rb with lab_code := z1.lab_code } else rb
      else r0
    | none => r0
  match a.zone_2_center with
  | some z2 =>
    if z2.found then
      let ra := if truthy z2.roll_id then { r1 with roll_id := z2.roll_id } else r1
      if truthy z2.frame then { ra with frame_number := z2.frame } else ra
    else r1
  | none => r1

/-- `InteractiveProcessor.extract_metadata_from_analysis`, with the date
parser's external fuzzy collaborator `du` and the processor's configured
collection range passed in (the source constructs its `DateParser` with
config defaults `(1960, 2010)`). -/
def extractMetadataFromAnalysis (du : Str → Option PyDatetime)
    (minYear maxYear : Nat) (a : Analysis) : ExtractedMeta :=
  let date :=
    if a.all_dates_found ≠ [] then
      DateParser.getBestDate du minYear maxYear a.all_dates_found
    else none
  let z4 := a.zone_4_handwritten
  let location :=
    match z4 with
    | some z => if z.locations ≠ [] then some (z.locations.headI) else none
    | none => none
  let keywords :=
    match z4 with
    | some z =>
      let ks := (if z.people ≠ [] then z.people else []) ++
        (if z.events ≠ [] then z.events else [])
      if ks ≠ [] then some ks else none
    | none => none
  let captions :=
    match z4 with
    | some z =>
      match z.descriptive_text with
      | some d => if !d.isEmpty ∧ pyStrip d ≠ [] then some (d.take 1000, d.take 2000) else none
      | none => none
    | none => none
  let ri := rollInfoOf a
  let language :=
    match z4 with
    | some z => if truthy z.language then z.language else none
    | none => none
  { date := date
    location_name := location
    keywords := keywords
    caption := captions.map (·.1)
    user_comment := captions.map (·.2)
    roll_id := ri.roll_id
    frame_number := ri.frame_number
    lab_code := ri.lab_code
    confidence := a.confidence.getD 0
    language := language }

end InteractiveProcessor

namespace ApplyExif

/-- The `pollution_patterns` list of `extract_exif_mappings` in
`apply_fastfoto_exif.py`. -/
def pollutionPatterns : List Str :=
  ["none".toList, "none visible".toList, "none generated".toList,
   "none available".toList, "blank".toList, "blank - no text visible".toList,
   "blank - no handwritten text present".toList,
   "blank - no context available".toList,
   "blank - no aps codes clearly readable".toList, "blank - no aps data".toList,
   "blank - no aps data visible".toList, "no text".toList, "not visible".toList,
   "not available".toList, "no handwritten content visible".toList,
   "leave empty".toList, "leave empty - no context available".toList,
   "leave empty - no context available from back scan".toList,
   "empty - no event/location context from back scan".toList,
   "photo lab processing back scan".toList,
   "back scan with degraded processing data".toList,
   "no extractable metadata".toList, "not extractable".toList,
   "no context available".toList]

/-- The `startswith` tuple of the pollution check. -/
def pollutionStarts : List Str :=
  ["blank".toList, "none".toList, "no text".toList, "not visible".toList,
   "not available".toList, "leave empty".toList, "empty -".toList]

/-- The `is_pollution` predicate of `extract_exif_mappings`, for a value
that has already been stripped of whitespace and brackets: the
lower-cased value is in the exact pattern list, or starts with one of the
configured prefixes, or contains one of the hedging phrases. -/
def isPollution (value : Str) : Bool :=
  if value = [] then false
  else
    let vl := pyStrip (pyLower value)
    pollutionPatterns.contains vl ||
      (pollutionStarts.any (fun p => pyStarts vl p) ||
        pySub "no handwritten".toList vl || pySub "no aps".toList vl ||
        pySub "back scan".toList vl || pySub "no context".toList vl ||
        pySub "not extractable".toList vl)

/-- Python dict update on string-keyed association lists (same semantics
as `InteractiveProcessor.dictUpdS`; repeated here so each component's
namespace is self-contained). -/
def updMap (l : List (Str × Str)) (k v : Str) : List (Str × Str) :=
  match l with
  | [] => [(k, v)]
  | (k0, v0) :: r => if k0 = k then (k, v) :: r else (k0, v0) :: updMap r k v

/-- `dict.get`-style lookup. -/
def getMap (l : List (Str × Str)) (k : Str) : Option Str :=
  match l.find? (fun kv => kv.1 = k) with
  | some kv => some kv.2
  | none => none

/-- One iteration of the field loop of `extract_exif_mappings`: strip the
line, skip note/bullet comments, require a colon and no leading `#`,
strip a markdown bullet and the `**Field:**`/`Field: value` key syntax,
strip/bracket-clean the value, and store it unless empty or polluted. -/
def exifLineStep (mappings : List (Str × Str)) (rawLine : Str) : List (Str × Str) :=
  let line := pyStrip rawLine
  if pyStarts line "(Note:".toList ||
      (pyStarts line "*".toList && !pyStarts line "**".toList
        && !pySub ":**".toList line) then
    mappings
  else if line.contains ':' && !pyStarts line "#".toList then
    let line :=
      if pyStarts line "- **".toList && pySub ":**".toList line then
        pyStrip (line.drop 2)
      else line
    let kv :=
      if pyStarts line "**".toList && pySub ":**".toList line then
        match splitFirstStr ":**".toList line with
        | some (k, v) => (pyStrip (pyStripChars ['*'] k), v)
        | none => (line, [])
      else
        let p := splitFirst ':' line
        (pyStrip p.1, p.2)
    let value := pyStripChars ['[', ']'] (pyStrip kv.2)
    if value ≠ [] && !isPollution value then updMap mappings kv.1 value
    else mappings
  else mappings

end ApplyExif

end FFOcr

namespace FFOcr

namespace ApplyExif

/-- The match of `^[A-Za-z]+ handwritten text: (.+)$` used by the
verbatim-text promotion: a nonempty leading run of letters, the literal
marker, and a nonempty remainder (the analysis values contain no
newlines, so `.` and `$` behave plainly). -/
def verbatimMatch (s : Str) : Option Str :=
  let isAlpha := fun c => DateParser.isUpperAZ c || isLowerAZ c
  let run := s.takeWhile isAlpha
  let rest := s.dropWhile isAlpha
  if run ≠ [] && pyStarts rest " handwritten text: ".toList then
    let payload := rest.drop " handwritten text: ".toList.length
    if payload ≠ [] then some payload else none
  else none

/-- The `generic_patterns` list of the caption-replacement heuristic. -/
def genericPatterns : List Str :=
  ["mixed handwritten".toList, "handwritten content".toList,
   "multiple elements".toList, "various text".toList, "different text".toList,
   "text and writing".toList, "several elements".toList]

/-- The post-processing step of `extract_exif_mappings`: when
`UserComment` matches the verbatim pattern, its stripped payload replaces
a generic `Caption-Abstract` (or fills a missing one) and is always
copied into `ImageDescription`. -/
def promoteVerbatim (mappings : List (Str × Str)) : List (Str × Str) :=
  match getMap mappings "UserComment".toList with
  | some uc =>
    if uc ≠ [] then
      match verbatimMatch uc with
      | some payload =>
        let verbatim := pyStrip payload
        let m1 :=
          match getMap mappings "Caption-Abstract".toList with
          | some cap =>
            if genericPatterns.any (fun p => pySub p (pyLower cap)) then
              updMap mappings "Caption-Abstract".toList verbatim
            else mappings
          | none => updMap mappings "Caption-Abstract".toList verbatim
        updMap m1 "ImageDescription".toList verbatim
      | none => mappings
    else mappings
  | none => mappings

/-- `extract_exif_mappings` from the point where the `EXIF_MAPPINGS:`
section content is in hand (the preceding `re.search` merely locates that
section in the analysis file; `sectionLines` is its text split on
newlines): run the field loop with pollution filtering, then the
verbatim-text promotion. -/
def extractExifMappings (sectionLines : List Str) : List (Str × Str) :=
  promoteVerbatim (sectionLines.foldl exifLineStep [])

end ApplyExif

end FFOcr

namespace FFOcr

/-- No newline characters (the component strings of a proposal document;
a string containing a newline could not round-trip through a line-based
text file in any implementation). -/
def nlFree (s : Str) : Bool :=
  !s.contains '\n'

/-- The right-hand half of `pyStrip`: drop trailing whitespace. -/
def pyStripRight (s : Str) : Str :=
  (s.reverse.dropWhile isPySpace).reverse

theorem pySub_iff_infix {p s : Str} : pySub p s = true ↔ p <:+: s := by
  induction s with
  | nil =>
    simp only [pySub, List.isPrefixOf_iff_prefix]
    constructor
    · intro h
      exact h.isInfix
    · intro h
      rw [List.infix_nil] at h
      exact h ▸ List.nil_prefix
  | cons c r ih =>
    simp only [pySub, Bool.or_eq_true, List.isPrefixOf_iff_prefix, ih]
    exact (List.infix_cons_iff).symm

end FFOcr

namespace FFOcr

theorem dropWhile_length_le (p : Char → Bool) (l : Str) :
    (l.dropWhile p).length ≤ l.length := by
  induction l with
  | nil => simp
  | cons a l ih =>
    by_cases h : p a
    · rw [List.dropWhile_cons_of_pos h]
      simp
      omega
    · rw [List.dropWhile_cons_of_neg h]

theorem dropWhile_append_concat {p : Char → Bool} {A : Str} {c : Char}
    (hc : p c = false) : (A ++ [c]).dropWhile p = A.dropWhile p ++ [c] := by
  induction A with
  | nil => simp [List.dropWhile, hc]
  | cons a A ih =>
    by_cases ha : p a
    · simpa [List.dropWhile, ha] using ih
    · simp [List.dropWhile, ha]

theorem dropWhile_append_left {p : Char → Bool} {A B : Str}
    (h : A.dropWhile p ≠ []) : (A ++ B).dropWhile p = A.dropWhile p ++ B := by
  induction A with
  | nil => simp at h
  | cons a A ih =>
    by_cases ha : p a
    · simp only [List.dropWhile, ha] at h ⊢
      simpa [ha] using ih h
    · simp [List.dropWhile, ha]

theorem pyStrip_cons {c : Char} {s : Str} (hc : isPySpace c = false) :
    pyStrip (c :: s) = c :: pyStripRight s := by
  unfold pyStrip pyStripRight
  rw [List.dropWhile_cons_of_neg (by simp [hc]), List.reverse_cons,
    dropWhile_append_concat hc, List.reverse_append]
  rfl

theorem pyStripRight_append {A B : Str} (h : B.reverse.dropWhile isPySpace ≠ []) :
    pyStripRight (A ++ B) = A ++ pyStripRight B := by
  unfold pyStripRight
  rw [List.reverse_append, dropWhile_append_left h, List.reverse_append,
    List.reverse_reverse]

theorem dropWhile_eq_self_of_length {p : Char → Bool} {l : Str}
    (h : (l.dropWhile p).length = l.length) : l.dropWhile p = l := by
  induction l with
  | nil => rfl
  | cons a l ih =>
    by_cases ha : p a
    · exfalso
      rw [List.dropWhile_cons_of_pos ha] at h
      have := dropWhile_length_le p l
      simp at h
      omega
    · rw [List.dropWhile_cons_of_neg ha]

theorem pyStrip_length_le (s : Str) : (pyStrip s).length ≤ s.length := by
  unfold pyStrip
  have h1 := dropWhile_length_le isPySpace s
  have h2 := dropWhile_length_le isPySpace (s.dropWhile isPySpace).reverse
  simp only [List.length_reverse] at *
  omega

/-- A strip-invariant string neither starts nor ends with whitespace; in
particular dropping leading whitespace leaves it unchanged. -/
theorem stripInv_dropWhile {s : Str} (h : pyStrip s = s) :
    s.dropWhile isPySpace = s := by
  have hlen : (pyStrip s).length = s.length := by rw [h]
  unfold pyStrip at hlen
  have h1 := dropWhile_length_le isPySpace s
  have h2 := dropWhile_length_le isPySpace (s.dropWhile isPySpace).reverse
  simp only [List.length_reverse] at hlen h2
  exact dropWhile_eq_self_of_length (by omega)

theorem stripInv_stripRight {s : Str} (h : pyStrip s = s) :
    pyStripRight s = s := by
  have hd := stripInv_dropWhile h
  unfold pyStrip at h
  rw [hd] at h
  exact h

theorem stripInv_reverse_dropWhile {s : Str} (h : pyStrip s = s) :
    s.reverse.dropWhile isPySpace = s.reverse := by
  have := stripInv_stripRight h
  unfold pyStripRight at this
  have := congrArg List.reverse this
  simpa using this

theorem stripInv_head {c : Char} {s : Str} (h : pyStrip (c :: s) = c :: s) :
    isPySpace c = false := by
  have hd := stripInv_dropWhile h
  by_contra hc
  rw [List.dropWhile_cons_of_pos (by simpa using hc)] at hd
  have := dropWhile_length_le isPySpace s
  have := congrArg List.length hd
  simp at this
  omega

/-- Stripping a line of the shape `spaces ++ body` with a strip-invariant
nonempty `body` yields `body`. -/
theorem pyStrip_spaces_body {sp body : Str} (hsp : ∀ c ∈ sp, isPySpace c = true)
    (hb : pyStrip body = body) (hne : body ≠ []) :
    pyStrip (sp ++ body) = body := by
  unfold pyStrip
  have h1 : (sp ++ body).dropWhile isPySpace = body.dropWhile isPySpace := by
    induction sp with
    | nil => rfl
    | cons a sp ih =>
      rw [List.cons_append, List.dropWhile_cons_of_pos (hsp a (by simp))]
      exact ih (fun c hc => hsp c (by simp [hc]))
  rw [h1, stripInv_dropWhile hb]
  have := stripInv_reverse_dropWhile hb
  rw [this, List.reverse_reverse]

end FFOcr


namespace FFOcr

theorem nlFree_iff {s : Str} : nlFree s = true ↔ '\n' ∉ s := by
  unfold nlFree
  rw [Bool.not_eq_true', ← Bool.not_eq_true]
  exact not_congr List.elem_iff

theorem nlFree_cons {c : Char} {s : Str} (h : nlFree (c :: s) = true) :
    c ≠ '\n' ∧ nlFree s = true := by
  rw [nlFree_iff] at h
  simp only [List.mem_cons, not_or] at h
  exact ⟨fun hc => h.1 hc.symm, nlFree_iff.mpr h.2⟩

theorem nlFree_append {a b : Str} (ha : nlFree a = true) (hb : nlFree b = true) :
    nlFree (a ++ b) = true := by
  rw [nlFree_iff] at *
  simp only [List.mem_append, not_or]
  exact ⟨ha, hb⟩

theorem nlFree_of_forall {s : Str} (h : ∀ c ∈ s, c ≠ '\n') : nlFree s = true :=
  nlFree_iff.mpr (fun hmem => h _ hmem rfl)

theorem prefix_colon_iff {r : Str} :
    ∀ (t k : Str), ':' ∉ k → ':' ∉ t →
      (List.isPrefixOf (t ++ [':']) (k ++ ':' :: r) = true ↔ t = k)
  | [], [], _, _ => by simp [List.isPrefixOf]
  | [], c :: k, hk, _ => by
    have hc : ¬(':' = c) := fun h => hk (by simp [h.symm])
    simp only [List.nil_append, List.cons_append, List.isPrefixOf, Bool.and_eq_true,
      beq_iff_eq]
    constructor
    · rintro ⟨h, -⟩
      exact absurd h hc
    · intro h
      exact absurd h (by simp)
  | a :: t, [], _, ht => by
    have ha : ¬(a = ':') := fun h => ht (by simp [h])
    simp only [List.cons_append, List.nil_append, List.isPrefixOf, Bool.and_eq_true,
      beq_iff_eq]
    constructor
    · rintro ⟨h, -⟩
      exact absurd h ha
    · intro h
      exact absurd h (by simp)
  | a :: t, c :: k, hk, ht => by
    have hk2 : ':' ∉ k := fun h => hk (by simp [h])
    have ht2 : ':' ∉ t := fun h => ht (by simp [h])
    rw [List.cons_append, List.cons_append]
    simp only [List.isPrefixOf, Bool.and_eq_true, beq_iff_eq]
    rw [prefix_colon_iff t k hk2 ht2]
    simp [List.cons.injEq]

theorem splitFirst_colon {k v : Str} (hk : ':' ∉ k) :
    splitFirst ':' (k ++ ':' :: v) = (k, v) := by
  induction k with
  | nil => simp [splitFirst]
  | cons c k ih =>
    have hc : ¬(c = ':') := fun h => hk (by simp [h])
    have hk2 : ':' ∉ k := fun h => hk (by simp [h])
    simp [splitFirst, hc, ih hk2]

theorem contains_colon (k v : Str) : (k ++ ':' :: v).contains ':' = true := by
  rw [List.elem_iff]
  simp

theorem splitFirstStr_exact {sep B : Str} {h0 : Char} (hsep : sep.head? = some h0)
    (A : Str) (hA : h0 ∉ A) : splitFirstStr sep (A ++ (sep ++ B)) = some (A, B) := by
  induction A with
  | nil =>
    cases sep with
    | nil => simp at hsep
    | cons s0 sep =>
      simp only [List.nil_append, List.cons_append, splitFirstStr]
      rw [if_pos (List.isPrefixOf_iff_prefix.mpr ⟨B, by simp⟩)]
      simp
  | cons a A ih =>
    have hrec := ih (fun h => hA (by simp [h]))
    have hnp : sep.isPrefixOf (a :: (A ++ (sep ++ B))) = false := by
      rw [Bool.eq_false_iff]
      intro hpre
      rw [List.isPrefixOf_iff_prefix] at hpre
      cases sep with
      | nil => simp at hsep
      | cons s0 sep =>
        obtain ⟨u, hu⟩ := hpre
        simp only [List.cons_append] at hu
        have hs0 : s0 = a := ((List.cons.injEq _ _ _ _).mp hu).1
        simp only [List.head?] at hsep
        cases hsep
        exact hA (hs0 ▸ List.mem_cons_self _ _)
    rw [List.cons_append]
    show (if sep.isPrefixOf (a :: (A ++ (sep ++ B))) = true then
        some ([], (a :: (A ++ (sep ++ B))).drop sep.length)
      else
        match splitFirstStr sep (A ++ (sep ++ B)) with
        | some (x, b) => some (a :: x, b)
        | none => none) = some (a :: A, B)
    rw [hnp, hrec]
    simp

theorem splitLines_ne_nil (s : Str) : splitLines s ≠ [] := by
  induction s with
  | nil => simp [splitLines]
  | cons c r ih =>
    by_cases h : c = '\n'
    · simp [splitLines, h]
    · simp only [splitLines, if_neg h]
      cases hr : splitLines r with
      | nil => exact absurd hr ih
      | cons l ls => simp

/-- Peeling one newline-free line off the front of a split. -/
theorem splitLines_peel {a r : Str} (ha : nlFree a = true) :
    splitLines (a ++ '\n' :: r) = a :: splitLines r := by
  induction a with
  | nil => simp [splitLines]
  | cons c a ih =>
    obtain ⟨hc, ha2⟩ := nlFree_cons ha
    simp only [List.cons_append, splitLines, if_neg hc, List.append_eq, ih ha2]

/-- A newline-free string splits into itself. -/
theorem splitLines_nlFree {a : Str} (ha : nlFree a = true) : splitLines a = [a] := by
  induction a with
  | nil => rfl
  | cons c a ih =>
    obtain ⟨hc, ha2⟩ := nlFree_cons ha
    simp only [splitLines, if_neg hc, ih ha2]

end FFOcr

namespace FFOcr

theorem joinNl_nil : joinNl [] = [] := rfl

theorem joinNl_single (a : Str) : joinNl [a] = a := by
  simp [joinNl, List.intercalate]

theorem joinNl_cons_cons (a b : Str) (t : List Str) :
    joinNl (a :: b :: t) = a ++ '\n' :: joinNl (b :: t) := by
  simp only [joinNl, List.intercalate, List.intersperse, List.flatten]
  rfl

/-- Splitting a join of newline-free lines recovers the lines, with
anything appended after the last (empty) line picking up where it left
off.  This is the shape of every chunk the proposal writer emits: a block
of lines followed by a terminating newline. -/
theorem splitLines_joinNl_append {r : Str} :
    ∀ (ls : List Str), ls ≠ [] → (∀ l ∈ ls, nlFree l = true) →
      splitLines (joinNl (ls ++ [[]]) ++ r) = ls ++ splitLines r
  | [], h, _ => absurd rfl h
  | [a], _, hf => by
    rw [show ([a] ++ [([] : Str)]) = [a, []] from rfl, joinNl_cons_cons, joinNl_single]
    rw [List.append_assoc, List.cons_append, List.nil_append]
    exact splitLines_peel (hf a (by simp))
  | a :: b :: t, _, hf => by
    rw [show ((a :: b :: t) ++ [([] : Str)]) = a :: (b :: (t ++ [[]])) from by simp,
      joinNl_cons_cons, List.append_assoc, List.cons_append,
      splitLines_peel (hf a (by simp)),
      show (b :: (t ++ [[]])) = (b :: t) ++ [[]] from by simp,
      splitLines_joinNl_append (b :: t) (by simp) (fun l hl => hf l (by simp [hl]))]
    rfl

theorem splitLines_joinNl {ls : List Str} (h : ls ≠ [])
    (hf : ∀ l ∈ ls, nlFree l = true) : splitLines (joinNl ls) = ls := by
  induction ls with
  | nil => exact absurd rfl h
  | cons a t ih =>
    cases t with
    | nil =>
      rw [joinNl_single]
      exact splitLines_nlFree (hf a (by simp))
    | cons b t2 =>
      rw [joinNl_cons_cons, splitLines_peel (hf a (by simp))]
      rw [ih (by simp) (fun l hl => hf l (by simp [hl]))]

theorem digitChar_isDig {n : Nat} (h : n ≤ 9) : isDig (digitChar n) = true := by
  interval_cases n <;> decide

theorem natToStrAux_digits (fuel n : Nat) :
    ∀ c ∈ natToStrAux fuel n, isDig c = true := by
  induction fuel generalizing n with
  | zero =>
    intro c hc
    simp only [natToStrAux, List.mem_singleton] at hc
    exact hc ▸ digitChar_isDig (Nat.le_of_lt_succ (Nat.mod_lt n (by omega)))
  | succ fuel ih =>
    intro c hc
    simp only [natToStrAux] at hc
    by_cases hn : n < 10
    · rw [if_pos hn] at hc
      simp only [List.mem_singleton] at hc
      exact hc ▸ digitChar_isDig (by omega)
    · rw [if_neg hn] at hc
      rcases List.mem_append.mp hc with h | h
      · exact ih _ c h
      · simp only [List.mem_singleton] at h
        exact h ▸ digitChar_isDig (Nat.le_of_lt_succ (Nat.mod_lt n (by omega)))

theorem natToStr_digits (n : Nat) : ∀ c ∈ natToStr n, isDig c = true :=
  natToStrAux_digits n n

theorem isDig_props {c : Char} (h : isDig c = true) :
    c ≠ '\n' ∧ isPySpace c = false ∧ c ≠ '[' ∧ c ≠ ':' ∧ c ≠ '=' := by
  unfold isDig at h
  rw [Bool.and_eq_true, decide_eq_true_iff, decide_eq_true_iff] at h
  refine ⟨?_, ?_, ?_, ?_, ?_⟩
  · rintro rfl
    revert h
    decide
  · unfold isPySpace
    obtain ⟨h1, h2⟩ := h
    simp only [Bool.or_eq_false_iff, decide_eq_false_iff_not]
    refine ⟨⟨⟨⟨⟨?_, ?_⟩, ?_⟩, ?_⟩, ?_⟩, ?_⟩ <;> rintro rfl <;> revert h1 h2 <;> decide
  · rintro rfl
    revert h
    decide
  · rintro rfl
    revert h
    decide
  · rintro rfl
    revert h
    decide

theorem nlFree_natToStr (n : Nat) : nlFree (natToStr n) = true :=
  nlFree_of_forall (fun c hc => (isDig_props (natToStr_digits n c hc)).1)

theorem nlFree_fmt04 (n : Nat) : nlFree (fmt04 n) = true := by
  unfold fmt04
  refine nlFree_of_forall (fun c hc => ?_)
  rcases List.mem_append.mp hc with h | h
  · have := List.eq_of_mem_replicate h
    subst this
    decide
  · exact (isDig_props (natToStr_digits n c h)).1

/-- Every character of a `fmtFix` rendering is a digit, a dot, or a
minus sign. -/
theorem fmtFix_chars (d : Nat) (q : ℚ) :
    ∀ c ∈ fmtFix d q, isDig c = true ∨ c = '.' ∨ c = '-' := by
  unfold fmtFix
  intro c hc
  by_cases hd : d = 0 <;> simp only [hd, if_true, if_false, reduceIte] at hc
  · rcases List.mem_append.mp hc with h | h
    · split at h
      · simp only [List.mem_singleton] at h
        exact Or.inr (Or.inr h)
      · simp at h
    · exact Or.inl (natToStr_digits _ c h)
  · rcases List.mem_append.mp hc with h | h
    · rcases List.mem_append.mp h with h2 | h2
      · rcases List.mem_append.mp h2 with h3 | h3
        · rcases List.mem_append.mp h3 with h4 | h4
          · split at h4
            · simp only [List.mem_singleton] at h4
              exact Or.inr (Or.inr h4)
            · simp at h4
          · exact Or.inl (natToStr_digits _ c h4)
        · simp only [List.mem_singleton] at h3
          exact Or.inr (Or.inl h3)
      · have := List.eq_of_mem_replicate h2
        exact Or.inl (this ▸ by decide)
    · exact Or.inl (natToStr_digits _ c h)

theorem nlFree_fmtFix (d : Nat) (q : ℚ) : nlFree (fmtFix d q) = true := by
  refine nlFree_of_forall (fun c hc => ?_)
  rcases fmtFix_chars d q c hc with h | h | h
  · exact (isDig_props h).1
  · subst h
    decide
  · subst h
    decide

theorem nlFree_eq80 : nlFree eq80 = true := by decide

theorem nlFree_dash80 : nlFree dash80 = true := by decide

end FFOcr

namespace FFOcr

namespace FileDiscovery

theorem partFold_snd (exts sufs : List Str) (files : List PyPath)
    (acc : List (PyPath × PyPath) × List PyPath) :
    (files.foldl
      (fun acc f =>
        if isBackFile exts sufs f then (dictUpd acc.1 (getOriginalPath sufs f) f, acc.2)
        else (acc.1, acc.2 ++ [f]))
      acc).2 = acc.2 ++ files.filter (fun f => !isBackFile exts sufs f) := by
  induction files generalizing acc with
  | nil => simp
  | cons f r ih =>
    by_cases hf : isBackFile exts sufs f
    · rw [List.foldl_cons, if_pos hf]
      rw [ih]
      simp [List.filter, hf]
    · rw [List.foldl_cons, if_neg hf]
      rw [ih]
      simp [List.filter, hf]

/-- C2: every emitted pair's `original` is a non-back file, and the pair
count equals the count of discovered non-back files; on the
specification's example directory the result is exactly two pairs, one
with a back and one without, and the orphan list is empty. -/
theorem discoverPairs_invariant (exts sufs : List Str) (allFiles : List PyPath) :
    (discoverPairs exts sufs allFiles).1.length =
      (allFiles.filter (fun f => !isBackFile exts sufs f)).length ∧
    (∀ p ∈ (discoverPairs exts sufs allFiles).1, isBackFile exts sufs p.original = false) ∧
    discoverPairs defaultExtensions defaultBackSuffixes
      [⟨"photos".toList, "IMG_1.jpg".toList⟩, ⟨"photos".toList, "IMG_1_b.jpg".toList⟩,
       ⟨"photos".toList, "IMG_2.jpg".toList⟩] =
      ([⟨⟨"photos".toList, "IMG_1.jpg".toList⟩, some ⟨"photos".toList, "IMG_1_b.jpg".toList⟩⟩,
        ⟨⟨"photos".toList, "IMG_2.jpg".toList⟩, none⟩], []) := by
  refine ⟨?_, ?_, by decide⟩
  · unfold discoverPairs
    simp only [List.length_map]
    rw [(List.perm_insertionSort pathLe _).length_eq]
    rw [show discoverPairs.partFold exts sufs allFiles =
      allFiles.foldl
        (fun acc f =>
          if isBackFile exts sufs f then (dictUpd acc.1 (getOriginalPath sufs f) f, acc.2)
          else (acc.1, acc.2 ++ [f]))
        ([], []) from rfl]
    rw [partFold_snd]
    simp
  · intro p hp
    unfold discoverPairs at hp
    simp only [List.mem_map] at hp
    obtain ⟨o, ho, rfl⟩ := hp
    have ho2 : o ∈ (discoverPairs.partFold exts sufs allFiles).2 :=
      (List.perm_insertionSort pathLe _).mem_iff.mp ho
    rw [show discoverPairs.partFold exts sufs allFiles =
      allFiles.foldl
        (fun acc f =>
          if isBackFile exts sufs f then (dictUpd acc.1 (getOriginalPath sufs f) f, acc.2)
          else (acc.1, acc.2 ++ [f]))
        ([], []) from rfl, partFold_snd] at ho2
    simp only [List.nil_append, List.mem_filter, Bool.not_eq_true'] at ho2
    exact ho2.2

/-- C3 (code bug): for a directory holding `IMG_1.jpg` and an orphaned
back scan `IMG_9_b.jpg` whose computed original `IMG_9.jpg` is not among
the discovered files, the source's orphan diagnostic list comes out
empty — the set it subtracts (`back_files.values()`) already contains
every back file — although the back file is correctly classified, its
computed original is correct, and it is (as the claim also says) not any
emitted pair's back. -/
theorem discoverPairs_orphan_miss :
    (discoverPairs defaultExtensions defaultBackSuffixes
      [⟨"photos".toList, "IMG_1.jpg".toList⟩, ⟨"photos".toList, "IMG_9_b.jpg".toList⟩]).2
      = [] ∧
    isBackFile defaultExtensions defaultBackSuffixes
      ⟨"photos".toList, "IMG_9_b.jpg".toList⟩ = true ∧
    getOriginalPath defaultBackSuffixes ⟨"photos".toList, "IMG_9_b.jpg".toList⟩ =
      ⟨"photos".toList, "IMG_9.jpg".toList⟩ ∧
    (⟨"photos".toList, "IMG_9.jpg".toList⟩ : PyPath) ∉
      [⟨"photos".toList, "IMG_1.jpg".toList⟩, ⟨"photos".toList, "IMG_9_b.jpg".toList⟩] ∧
    (discoverPairs defaultExtensions defaultBackSuffixes
      [⟨"photos".toList, "IMG_1.jpg".toList⟩, ⟨"photos".toList, "IMG_9_b.jpg".toList⟩]).1
      = [⟨⟨"photos".toList, "IMG_1.jpg".toList⟩, none⟩] := by
  decide

end FileDiscovery

end FFOcr

namespace FFOcr

theorem suffix_eq_of_length {w s t : Str} (h : t <:+ w ++ s)
    (hl : t.length = s.length) : t = s := by
  obtain ⟨u, hu⟩ := h
  have hul : u.length = w.length := by
    have := congrArg List.length hu
    simp only [List.length_append] at this
    omega
  exact (List.append_inj hu hul).2

theorem suffix_absorb {w s t : Str} (h : t <:+ w ++ s)
    (hl : s.length ≤ t.length) : s <:+ t := by
  rw [← List.reverse_prefix] at h ⊢
  rw [List.reverse_append] at h
  refine List.prefix_of_prefix_length_le ?_ h (by simp [hl])
  exact List.prefix_append s.reverse w.reverse

theorem pyEnds_append_ne_of_length {w s t : Str} (hl : t.length = s.length)
    (hne : t ≠ s) : pyEnds (w ++ s) t = false := by
  rw [Bool.eq_false_iff]
  intro h
  unfold pyEnds at h
  rw [List.isSuffixOf_iff_suffix] at h
  exact hne (suffix_eq_of_length h hl)

theorem suffix_comparable {l t s : Str} (ht : t <:+ l) (hs : s <:+ l)
    (hl : t.length ≤ s.length) : t <:+ s := by
  rw [← List.reverse_prefix] at ht hs ⊢
  exact List.prefix_of_prefix_length_le ht hs (by simp [hl])

theorem pyEnds_append_ne_of_shorter {w s t : Str} (hl : t.length ≤ s.length)
    (hns : ¬ t <:+ s) : pyEnds (w ++ s) t = false := by
  rw [Bool.eq_false_iff]
  intro h
  unfold pyEnds at h
  rw [List.isSuffixOf_iff_suffix] at h
  exact hns (suffix_comparable h (List.suffix_append w s) hl)

theorem pyEnds_append_ne_of_longer {w s t : Str} (hl : s.length ≤ t.length)
    (hns : ¬ s <:+ t) : pyEnds (w ++ s) t = false := by
  rw [Bool.eq_false_iff]
  intro h
  unfold pyEnds at h
  rw [List.isSuffixOf_iff_suffix] at h
  exact hns (suffix_absorb h hl)

theorem findIdx_eq_append_aux {p : Char → Bool} {M : Str} {x : Char}
    (hx : p x = true) :
    ∀ (L : Str), (∀ c ∈ L, p c = false) → ∀ i,
      List.findIdx? p (L ++ x :: M) i = some (L.length + i)
  | [], _, i => by simp [List.findIdx?, hx]
  | a :: L, hL, i => by
    rw [List.cons_append]
    show (if p a = true then some i else List.findIdx? p (L ++ x :: M) (i + 1)) = _
    rw [hL a (by simp), if_neg (by simp)]
    rw [findIdx_eq_append_aux hx L (fun c hc => hL c (by simp [hc])) (i + 1)]
    congr 1
    simp only [List.length_cons]
    omega

theorem findIdx_eq_append {p : Char → Bool} {L M : Str} {x : Char}
    (hL : ∀ c ∈ L, p c = false) (hx : p x = true) :
    (L ++ x :: M).findIdx? p = some L.length := by
  rw [show (L ++ x :: M).findIdx? p = List.findIdx? p (L ++ x :: M) 0 from rfl]
  rw [findIdx_eq_append_aux hx L hL 0]
  rfl

theorem rfindIdx_dot {A y : Str} (hy : ∀ c ∈ y, ¬(c = '.')) :
    rfindIdx '.' (A ++ '.' :: y) = some A.length := by
  unfold rfindIdx
  rw [show (A ++ '.' :: y).reverse = y.reverse ++ '.' :: A.reverse from by simp]
  rw [findIdx_eq_append (p := (· = '.')) (fun c hc => by
    simp only [decide_eq_false_iff_not]
    exact hy c (List.mem_reverse.mp hc)) (by simp)]
  show some ((A ++ '.' :: y).length - 1 - y.reverse.length) = some A.length
  congr 1
  simp only [List.length_append, List.length_cons, List.length_reverse]
  omega

theorem pathSuffix_dot {par A y : Str} (hy : ∀ c ∈ y, ¬(c = '.'))
    (hA : A ≠ []) (hy0 : y ≠ []) :
    pathSuffix ⟨par, A ++ '.' :: y⟩ = '.' :: y ∧
      pathStem ⟨par, A ++ '.' :: y⟩ = A := by
  have hr : rfindIdx '.' (A ++ '.' :: y) = some A.length := rfindIdx_dot hy
  have hlen : (A ++ '.' :: y).length = A.length + 1 + y.length := by
    simp only [List.length_append, List.length_cons]
    omega
  have hcond : 0 < A.length ∧ A.length < (A ++ '.' :: y).length - 1 := by
    constructor
    · exact List.length_pos.mpr hA
    · rw [hlen]
      have : 0 < y.length := List.length_pos.mpr hy0
      omega
  constructor
  · unfold pathSuffix
    simp only [hr, if_pos hcond]
    exact List.drop_left A ('.' :: y)
  · unfold pathStem
    simp only [hr, if_pos hcond]
    exact List.take_left A ('.' :: y)

end FFOcr

namespace FFOcr

namespace ProposalGenerator

theorem addEntries_fail {e : ProposalEntry} {msg : Str}
    (he : ∀ acc, addEntry acc e = Except.error msg) :
    ∀ (batch : List ProposalEntry) (acc : List ProposalEntry), e ∈ batch →
      ∀ res, batch.foldlM addEntry acc ≠ Except.ok res
  | [], _, hmem, _ => absurd hmem (by simp)
  | b :: r, acc, hmem, res => by
    rw [List.foldlM_cons]
    rcases List.mem_cons.mp hmem with rfl | hmem2
    · rw [he acc]
      simp [Bind.bind, Except.bind]
    · cases hb : addEntry acc b with
      | error msg2 => simp [Bind.bind, Except.bind]
      | ok acc2 =>
        have hrec := addEntries_fail he r acc2 hmem2 res
        simpa [Bind.bind, Except.bind] using hrec

/-- C7: adding an entry whose original filename ends in `_b.jpg` raises
the corruption guard's `ValueError` immediately, leaving the serializer's
entry list unchanged, and no batch containing such an entry can ever
complete its `add_entry` calls — so the entry can never reach a written
proposal file. -/
theorem addEntry_back_scan_raises (entries : List ProposalEntry) (e : ProposalEntry)
    (h : pyEnds e.original_path.name "_b.jpg".toList = true) :
    addEntry entries e = Except.error (addEntryMsg e.original_path.name) ∧
    (∀ batch, e ∈ batch → ∀ res, addEntries batch ≠ Except.ok res) := by
  have herr : ∀ acc, addEntry acc e = Except.error (addEntryMsg e.original_path.name) := by
    intro acc
    unfold addEntry
    rw [if_pos]
    rw [h]
    simp
  refine ⟨herr entries, fun batch hmem res => ?_⟩
  exact addEntries_fail herr batch [] hmem res

/-- C7 witness: a concrete entry named `IMG_001_b.jpg` trips the guard. -/
theorem addEntry_back_scan_raises_witness :
    pyEnds ("IMG_001_b.jpg".toList : Str) "_b.jpg".toList = true ∧
    (addEntry []
        ⟨⟨"/t".toList, "IMG_001_b.jpg".toList⟩, none, [], [], ⟨none, none, none, none, none⟩⟩ =
      Except.error (addEntryMsg "IMG_001_b.jpg".toList) ∧
    (∀ batch,
      (⟨⟨"/t".toList, "IMG_001_b.jpg".toList⟩, none, [], [],
        ⟨none, none, none, none, none⟩⟩ : ProposalEntry) ∈ batch →
      ∀ res, addEntries batch ≠ Except.ok res)) :=
  ⟨by decide,
   addEntry_back_scan_raises []
     ⟨⟨"/t".toList, "IMG_001_b.jpg".toList⟩, none, [], [], ⟨none, none, none, none, none⟩⟩
     (by decide)⟩

/-- C10: the corruption guard raises exactly for the four literal
suffixes `_a.jpg`, `_a.jpeg`, `_b.jpg`, `_b.jpeg`; filenames ending in
`_B.jpg`, `_b.JPG`, `_b.tif` or `_b.tiff` are accepted (appended to the
entry list), even though the file-discovery predicate with its default
`_b`/`_B` suffixes and jpg/jpeg/tif/tiff extensions classifies every one
of them as a back scan. -/
theorem addEntry_guard_exact :
    (∀ (entries : List ProposalEntry) (e : ProposalEntry),
      (∃ msg, addEntry entries e = Except.error msg) ↔
        (pyEnds e.original_path.name "_a.jpg".toList = true ∨
         pyEnds e.original_path.name "_a.jpeg".toList = true ∨
         pyEnds e.original_path.name "_b.jpg".toList = true ∨
         pyEnds e.original_path.name "_b.jpeg".toList = true)) ∧
    (∀ (entries : List ProposalEntry) (e : ProposalEntry) (w : Str),
      e.original_path.name = w ++ "_B.jpg".toList →
        addEntry entries e = Except.ok (entries ++ [e]) ∧
        FileDiscovery.isBackFile FileDiscovery.defaultExtensions
          FileDiscovery.defaultBackSuffixes e.original_path = true) ∧
    (∀ (entries : List ProposalEntry) (e : ProposalEntry) (w : Str),
      e.original_path.name = w ++ "_b.JPG".toList →
        addEntry entries e = Except.ok (entries ++ [e]) ∧
        FileDiscovery.isBackFile FileDiscovery.defaultExtensions
          FileDiscovery.defaultBackSuffixes e.original_path = true) ∧
    (∀ (entries : List ProposalEntry) (e : ProposalEntry) (w : Str),
      e.original_path.name = w ++ "_b.tif".toList →
        addEntry entries e = Except.ok (entries ++ [e]) ∧
        FileDiscovery.isBackFile FileDiscovery.defaultExtensions
          FileDiscovery.defaultBackSuffixes e.original_path = true) ∧
    (∀ (entries : List ProposalEntry) (e : ProposalEntry) (w : Str),
      e.original_path.name = w ++ "_b.tiff".toList →
        addEntry entries e = Except.ok (entries ++ [e]) ∧
        FileDiscovery.isBackFile FileDiscovery.defaultExtensions
          FileDiscovery.defaultBackSuffixes e.original_path = true) := by
  have hiff : ∀ (entries : List ProposalEntry) (e : ProposalEntry),
      (∃ msg, addEntry entries e = Except.error msg) ↔
        (pyEnds e.original_path.name "_a.jpg".toList = true ∨
         pyEnds e.original_path.name "_a.jpeg".toList = true ∨
         pyEnds e.original_path.name "_b.jpg".toList = true ∨
         pyEnds e.original_path.name "_b.jpeg".toList = true) := by
    intro entries e
    unfold addEntry
    by_cases hc : (pyEnds e.original_path.name "_a.jpg".toList
        || pyEnds e.original_path.name "_a.jpeg".toList
        || pyEnds e.original_path.name "_b.jpg".toList
        || pyEnds e.original_path.name "_b.jpeg".toList) = true
    · rw [if_pos hc]
      simp only [Bool.or_eq_true] at hc
      constructor
      · intro
        tauto
      · intro
        exact ⟨_, rfl⟩
    · rw [if_neg hc]
      simp only [Bool.or_eq_true] at hc
      constructor
      · rintro ⟨msg, hmsg⟩
        cases hmsg
      · intro h
        exact absurd (by tauto) hc
  have hok : ∀ (nm : Str), pyEnds nm "_a.jpg".toList = false →
      pyEnds nm "_a.jpeg".toList = false → pyEnds nm "_b.jpg".toList = false →
      pyEnds nm "_b.jpeg".toList = false →
      ∀ (entries : List ProposalEntry) (e : ProposalEntry), e.original_path.name = nm →
        addEntry entries e = Except.ok (entries ++ [e]) := by
    intro nm h1 h2 h3 h4 entries e hnm
    unfold addEntry
    rw [hnm, h1, h2, h3, h4]
    simp
  refine ⟨hiff, ?_, ?_, ?_, ?_⟩
  · intro entries e w hnm
    refine ⟨hok _ ?_ ?_ ?_ ?_ entries e hnm, ?_⟩
    · exact pyEnds_append_ne_of_length (by decide) (by decide)
    · exact pyEnds_append_ne_of_longer (by decide) (by decide)
    · exact pyEnds_append_ne_of_length (by decide) (by decide)
    · exact pyEnds_append_ne_of_longer (by decide) (by decide)
    · have hps := @pathSuffix_dot e.original_path.parent
        (w ++ "_B".toList) ("jpg".toList) (by decide)
        (by simp) (by decide)
      have hshape : e.original_path =
          ⟨e.original_path.parent, (w ++ "_B".toList) ++ '.' :: "jpg".toList⟩ := by
        rw [List.append_assoc,
          show ("_B".toList ++ '.' :: "jpg".toList : Str) = "_B.jpg".toList from by decide,
          ← hnm]
      unfold FileDiscovery.isBackFile FileDiscovery.isPhotoFile
      rw [hshape, hps.1, hps.2]
      rw [Bool.and_eq_true]
      constructor
      · decide
      · apply List.any_eq_true.mpr
        refine ⟨"_B".toList, by decide, ?_⟩
        unfold pyEnds
        rw [List.isSuffixOf_iff_suffix]
        exact List.suffix_append w "_B".toList
  · intro entries e w hnm
    refine ⟨hok _ ?_ ?_ ?_ ?_ entries e hnm, ?_⟩
    · exact pyEnds_append_ne_of_length (by decide) (by decide)
    · exact pyEnds_append_ne_of_longer (by decide) (by decide)
    · exact pyEnds_append_ne_of_length (by decide) (by decide)
    · exact pyEnds_append_ne_of_longer (by decide) (by decide)
    · have hps := @pathSuffix_dot e.original_path.parent
        (w ++ "_b".toList) ("JPG".toList) (by decide)
        (by simp) (by decide)
      have hshape : e.original_path =
          ⟨e.original_path.parent, (w ++ "_b".toList) ++ '.' :: "JPG".toList⟩ := by
        rw [List.append_assoc,
          show ("_b".toList ++ '.' :: "JPG".toList : Str) = "_b.JPG".toList from by decide,
          ← hnm]
      unfold FileDiscovery.isBackFile FileDiscovery.isPhotoFile
      rw [hshape, hps.1, hps.2]
      rw [Bool.and_eq_true]
      constructor
      · decide
      · apply List.any_eq_true.mpr
        refine ⟨"_b".toList, by decide, ?_⟩
        unfold pyEnds
        rw [List.isSuffixOf_iff_suffix]
        exact List.suffix_append w "_b".toList
  · intro entries e w hnm
    refine ⟨hok _ ?_ ?_ ?_ ?_ entries e hnm, ?_⟩
    · exact pyEnds_append_ne_of_length (by decide) (by decide)
    · exact pyEnds_append_ne_of_longer (by decide) (by decide)
    · exact pyEnds_append_ne_of_length (by decide) (by decide)
    · exact pyEnds_append_ne_of_longer (by decide) (by decide)
    · have hps := @pathSuffix_dot e.original_path.parent
        (w ++ "_b".toList) ("tif".toList) (by decide)
        (by simp) (by decide)
      have hshape : e.original_path =
          ⟨e.original_path.parent, (w ++ "_b".toList) ++ '.' :: "tif".toList⟩ := by
        rw [List.append_assoc,
          show ("_b".toList ++ '.' :: "tif".toList : Str) = "_b.tif".toList from by decide,
          ← hnm]
      unfold FileDiscovery.isBackFile FileDiscovery.isPhotoFile
      rw [hshape, hps.1, hps.2]
      rw [Bool.and_eq_true]
      constructor
      · decide
      · apply List.any_eq_true.mpr
        refine ⟨"_b".toList, by decide, ?_⟩
        unfold pyEnds
        rw [List.isSuffixOf_iff_suffix]
        exact List.suffix_append w "_b".toList
  · intro entries e w hnm
    refine ⟨hok _ ?_ ?_ ?_ ?_ entries e hnm, ?_⟩
    · exact pyEnds_append_ne_of_shorter (by decide) (by decide)
    · exact pyEnds_append_ne_of_length (by decide) (by decide)
    · exact pyEnds_append_ne_of_shorter (by decide) (by decide)
    · exact pyEnds_append_ne_of_length (by decide) (by decide)
    · have hps := @pathSuffix_dot e.original_path.parent
        (w ++ "_b".toList) ("tiff".toList) (by decide)
        (by simp) (by decide)
      have hshape : e.original_path =
          ⟨e.original_path.parent, (w ++ "_b".toList) ++ '.' :: "tiff".toList⟩ := by
        rw [List.append_assoc,
          show ("_b".toList ++ '.' :: "tiff".toList : Str) = "_b.tiff".toList from by decide,
          ← hnm]
      unfold FileDiscovery.isBackFile FileDiscovery.isPhotoFile
      rw [hshape, hps.1, hps.2]
      rw [Bool.and_eq_true]
      constructor
      · decide
      · apply List.any_eq_true.mpr
        refine ⟨"_b".toList, by decide, ?_⟩
        unfold pyEnds
        rw [List.isSuffixOf_iff_suffix]
        exact List.suffix_append w "_b".toList

end ProposalGenerator

end FFOcr

namespace FFOcr

namespace ProposalGenerator

/-- C10 witness: concrete filenames `IMG_1_B.jpg`, `IMG_1_b.JPG`,
`IMG_1_b.tif`, `IMG_1_b.tiff` are all accepted by the guard yet
classified as back scans by file discovery. -/
theorem addEntry_guard_exact_witness :
    (addEntry []
        ⟨⟨"/t".toList, "IMG_1_B.jpg".toList⟩, none, [], [], ⟨none, none, none, none, none⟩⟩ =
      Except.ok [⟨⟨"/t".toList, "IMG_1_B.jpg".toList⟩, none, [], [],
        ⟨none, none, none, none, none⟩⟩] ∧
      FileDiscovery.isBackFile FileDiscovery.defaultExtensions
        FileDiscovery.defaultBackSuffixes ⟨"/t".toList, "IMG_1_B.jpg".toList⟩ = true) ∧
    (addEntry []
        ⟨⟨"/t".toList, "IMG_1_b.tiff".toList⟩, none, [], [], ⟨none, none, none, none, none⟩⟩ =
      Except.ok [⟨⟨"/t".toList, "IMG_1_b.tiff".toList⟩, none, [], [],
        ⟨none, none, none, none, none⟩⟩] ∧
      FileDiscovery.isBackFile FileDiscovery.defaultExtensions
        FileDiscovery.defaultBackSuffixes ⟨"/t".toList, "IMG_1_b.tiff".toList⟩ = true) :=
  ⟨addEntry_guard_exact.2.1 []
      ⟨⟨"/t".toList, "IMG_1_B.jpg".toList⟩, none, [], [], ⟨none, none, none, none, none⟩⟩
      "IMG_1".toList (by decide),
   addEntry_guard_exact.2.2.2.2 []
      ⟨⟨"/t".toList, "IMG_1_b.tiff".toList⟩, none, [], [], ⟨none, none, none, none, none⟩⟩
      "IMG_1".toList (by decide)⟩

end ProposalGenerator

end FFOcr

namespace FFOcr

theorem digVal_le {c : Char} (h : isDig c = true) : digVal c ≤ 9 := by
  unfold isDig at h
  rw [Bool.and_eq_true, decide_eq_true_iff, decide_eq_true_iff] at h
  have a1 : '0'.toNat ≤ c.toNat := h.1
  have a2 : c.toNat ≤ '9'.toNat := h.2
  have e1 : '0'.toNat = 48 := rfl
  have e2 : '9'.toNat = 57 := rfl
  unfold digVal
  omega

theorem twoDigVal_le {a b : Char} (ha : isDig a = true) (hb : isDig b = true) :
    twoDigVal a b ≤ 99 := by
  have h1 := digVal_le ha
  have h2 := digVal_le hb
  unfold twoDigVal
  omega

namespace DateParser

theorem twoDigitYearToFull_bounds {yy : Nat} (h : yy ≤ 99) :
    1900 ≤ twoDigitYearToFull yy ∧ twoDigitYearToFull yy ≤ 2030 := by
  unfold twoDigitYearToFull
  by_cases hc : yy ≤ 30 <;> simp [hc] <;> omega

theorem apsAt_yy_le {s : Str} {yy : Nat} {mon : Str} {d h m : Nat} {ap : Str}
    (hres : apsAt s = some (yy, mon, d, h, m, ap)) : yy ≤ 99 := by
  unfold apsAt at hres
  split at hres
  · rename_i y1 y2 c1 c2 c3 r
    split at hres
    · rename_i hdig
      rw [Option.map_eq_some'] at hres
      obtain ⟨t, -, ht⟩ := hres
      have hyy : yy = twoDigVal y1 y2 := by
        have := congrArg Prod.fst ht
        simpa using this.symm
      simp only [Bool.and_eq_true] at hdig
      exact hyy ▸ twoDigVal_le hdig.1.1.1.1 hdig.1.1.1.2
    · cases hres
  · cases hres

theorem apsSearch_yy_le {s : Str} {yy : Nat} {mon : Str} {d h m : Nat} {ap : Str}
    (hres : apsSearch s = some (yy, mon, d, h, m, ap)) : yy ≤ 99 := by
  induction s with
  | nil => exact apsAt_yy_le hres
  | cons c r ih =>
    unfold apsSearch at hres
    split at hres
    · rename_i g hg
      cases hres
      exact apsAt_yy_le hg
    · exact ih hres

theorem consumerAt_yy_le {s : Str} {yy mm dd : Nat}
    (hres : consumerAt s = some (yy, mm, dd)) : yy ≤ 99 := by
  unfold consumerAt at hres
  split at hres
  · rename_i a b s1 c d2 s2 e f rest
    split at hres
    · rename_i hdig
      have hyy : yy = twoDigVal a b := by
        have := congrArg (fun p => p.1) (Option.some.injEq .. ▸ hres)
        simp at this
        omega
      simp only [Bool.and_eq_true] at hdig
      exact hyy ▸ twoDigVal_le hdig.1.1.1.1.1.1.1 hdig.1.1.1.1.1.1.2
    · cases hres
  · cases hres

theorem consumerSearch_yy_le {s : Str} {yy mm dd : Nat}
    (hres : consumerSearch s = some (yy, mm, dd)) : yy ≤ 99 := by
  induction s with
  | nil => cases hres
  | cons c r ih =>
    unfold consumerSearch at hres
    split at hres
    · rename_i g hg
      cases hres
      exact consumerAt_yy_le hg
    · exact ih hres

theorem yearOnlyAt_bounds {prev : Option Char} {s : Str} {y : Nat}
    (hres : yearOnlyAt prev s = some y) : 1900 ≤ y ∧ y ≤ 2029 := by
  unfold yearOnlyAt at hres
  simp only [] at hres
  split at hres
  · cases hres
  · split at hres
    · rename_i a b r
      split at hres
      · rename_i hcond
        cases hres
        simp only [Bool.and_eq_true] at hcond
        have := twoDigVal_le hcond.1.1 hcond.1.2
        omega
      · cases hres
    · rename_i a b r
      split at hres
      · rename_i hcond
        cases hres
        simp only [Bool.and_eq_true, decide_eq_true_eq] at hcond
        obtain ⟨⟨⟨h0a, ha2⟩, hb⟩, -⟩ := hcond
        have h1 := digVal_le hb
        unfold digVal at h1
        have b1 : '0'.toNat ≤ a.toNat := h0a
        have b2 : a.toNat ≤ '2'.toNat := ha2
        have e1 : '0'.toNat = 48 := rfl
        have e2 : '2'.toNat = 50 := rfl
        unfold twoDigVal digVal
        omega
      · cases hres
    · cases hres

theorem yearOnlySearchAux_bounds {s : Str} {y : Nat} :
    ∀ {prev : Option Char}, yearOnlySearchAux prev s = some y → 1900 ≤ y ∧ y ≤ 2029 := by
  induction s with
  | nil =>
    intro prev hres
    exact yearOnlyAt_bounds hres
  | cons c r ih =>
    intro prev hres
    unfold yearOnlySearchAux at hres
    split at hres
    · rename_i y2 hy
      cases hres
      exact yearOnlyAt_bounds hy
    · exact ih hres

theorem yearOnlyFallback_bounds {s : Str} {dt : PyDatetime}
    (hres : yearOnlyFallback s = some dt) : 1900 ≤ dt.year ∧ dt.year ≤ 2029 := by
  unfold yearOnlyFallback yearOnlySearch at hres
  split at hres
  · rename_i y hy
    cases hres
    exact yearOnlySearchAux_bounds hy
  · cases hres

theorem mkDatetime_year {y mo d h mi : Nat} {dt : PyDatetime}
    (hres : mkDatetime y mo d h mi = some dt) : dt.year = y := by
  unfold mkDatetime at hres
  split at hres
  · cases hres
    rfl
  · cases hres

theorem consumerFallback_bounds {s : Str} {dt : PyDatetime}
    (hres : consumerFallback s = some dt) : 1900 ≤ dt.year ∧ dt.year ≤ 2030 := by
  unfold consumerFallback at hres
  simp only [] at hres
  split at hres
  · rename_i yy mm dd hsearch
    have hyy := consumerSearch_yy_le hsearch
    have hb := twoDigitYearToFull_bounds hyy
    split at hres
    · rename_i dt2 hmk
      cases hres
      rw [mkDatetime_year hmk]
      exact hb
    · split at hres
      · rename_i dt2 hmk
        cases hres
        rw [mkDatetime_year hmk]
        exact hb
      · have := yearOnlyFallback_bounds hres
        omega
  · have := yearOnlyFallback_bounds hres
    omega

/-- Every date the custom format matchers of `_parse_custom` can produce
has a year between 1900 and 2030: two-digit years resolve through the
sliding window into 1931–2030, and the year-only pattern only matches
1900–2029.  No range check against the collection bounds happens here. -/
theorem parseCustom_year_bounds {s : Str} {dt : PyDatetime}
    (hres : parseCustom s = some dt) : 1900 ≤ dt.year ∧ dt.year ≤ 2030 := by
  unfold parseCustom at hres
  simp only [] at hres
  split at hres
  · rename_i yy mon d h m ampm hsearch
    have hyy := apsSearch_yy_le hsearch
    have hb := twoDigitYearToFull_bounds hyy
    split at hres
    · split at hres
      · rename_i dt2 hmk
        cases hres
        rw [mkDatetime_year hmk]
        exact hb
      · have := consumerFallback_bounds hres
        omega
    · have := consumerFallback_bounds hres
      omega
  · have := consumerFallback_bounds hres
    omega

end DateParser

end FFOcr

namespace FFOcr

namespace DateParser

/-- C4 (amended): the collection-range check `[min_year, max_year + 50]`
is enforced on the general fuzzy-parse path (whatever the external parser
returns), while the fallback matchers apply no range check at all — but
they can only produce years 1900–2030, so with the default bounds
(1966, 2002) every date `parse` returns has a year in `[1900, 2052]`; in
particular years 1850 and 2200 are impossible, as the claim's examples
state. -/
theorem parse_year_range :
    (∀ (du : Str → Option PyDatetime) (s : Str) (dt : PyDatetime),
      parse du 1966 2002 s = some dt →
        1900 ≤ dt.year ∧ dt.year ≤ 2052 ∧ dt.year ≠ 1850 ∧ dt.year ≠ 2200) ∧
    (∀ (du : Str → Option PyDatetime) (s : Str) (dt0 dt : PyDatetime),
      parse du 1966 2002 s = some dt →
        du (normalizeSpanish (pyStrip s)) = some dt0 →
          1966 ≤ dt.year ∧ dt.year ≤ 2052) := by
  have hds : ∀ (du : Str → Option PyDatetime) (mn mx : Nat) (s : Str)
      (dt0 : PyDatetime), s ≠ [] → du (normalizeSpanish (pyStrip s)) = some dt0 →
      parse du mn mx s =
        (if mn ≤ (if dt0.year < 100 then fixCentury dt0 else dt0).year ∧
            (if dt0.year < 100 then fixCentury dt0 else dt0).year ≤ mx + 50
         then some (if dt0.year < 100 then fixCentury dt0 else dt0) else none) := by
    intro du mn mx s dt0 hne hdu
    unfold parse
    rw [if_neg hne]
    simp only []
    rw [hdu]
  have hdn : ∀ (du : Str → Option PyDatetime) (mn mx : Nat) (s : Str),
      s ≠ [] → du (normalizeSpanish (pyStrip s)) = none →
      parse du mn mx s = parseCustom (pyStrip s) := by
    intro du mn mx s hne hdu
    unfold parse
    rw [if_neg hne]
    simp only []
    rw [hdu]
  have hgen : ∀ (du : Str → Option PyDatetime) (s : Str) (dt0 dt : PyDatetime),
      parse du 1966 2002 s = some dt →
        du (normalizeSpanish (pyStrip s)) = some dt0 →
          1966 ≤ dt.year ∧ dt.year ≤ 2052 := by
    intro du s dt0 dt hres hdu
    by_cases hne : s = []
    · rw [hne] at hres
      cases hres
    · rw [hds du 1966 2002 s dt0 hne hdu] at hres
      by_cases hrange : 1966 ≤ (if dt0.year < 100 then fixCentury dt0 else dt0).year ∧
          (if dt0.year < 100 then fixCentury dt0 else dt0).year ≤ 2002 + 50
      · rw [if_pos hrange] at hres
        cases hres
        omega
      · rw [if_neg hrange] at hres
        cases hres
  constructor
  · intro du s dt hres
    cases hdu : du (normalizeSpanish (pyStrip s)) with
    | some dt0 =>
      have := hgen du s dt0 dt hres hdu
      omega
    | none =>
      by_cases hne : s = []
      · rw [hne] at hres
        cases hres
      · rw [hdn du 1966 2002 s hne hdu] at hres
        have := parseCustom_year_bounds hres
        omega
  · exact hgen

/-- C4 witness: the year-range theorem applied to the concrete APS input
`99/JUN/7 11:32AM` with a declining fuzzy collaborator. -/
theorem parse_year_range_witness :
    parse (fun _ => none) 1966 2002 "99/JUN/7 11:32AM".toList =
      some ⟨1999, 6, 7, 11, 32⟩ ∧
    (1900 ≤ (1999 : Nat) ∧ (1999 : Nat) ≤ 2052 ∧ (1999 : Nat) ≠ 1850 ∧
      (1999 : Nat) ≠ 2200) :=
  ⟨by decide,
   parse_year_range.1 (fun _ => none) "99/JUN/7 11:32AM".toList
     ⟨1999, 6, 7, 11, 32⟩ (by decide)⟩

/-- C4 counterexample: the claim as stated is false — on the fallback
path (`_parse_custom`, reached when the general fuzzy parse declines) the
APS matcher returns 1945-06-07 for `45/JUN/7 11:32AM` without any range
check, although 1945 lies outside the default collection range
`[1966, 2052]`. -/
theorem parse_custom_no_range_check :
    parseCustom "45/JUN/7 11:32AM".toList = some ⟨1945, 6, 7, 11, 32⟩ ∧
    parse (fun _ => none) 1966 2002 "45/JUN/7 11:32AM".toList =
      some ⟨1945, 6, 7, 11, 32⟩ ∧
    (1945 : Nat) < 1966 := by
  decide

/-- C5 (amended): every two-digit year the repository code itself
resolves goes through the sliding window `00–30 → 2000+yy`,
`31–99 → 1900+yy` — both in the century fix applied to the general
parse's result and in the format matchers — and the claim's dotted
examples parse as stated whenever the external fuzzy parser declines the
string (for `85.01.31` also when it returns the day-first reading, which
has the same value); but when the external parser itself resolves
`02.11.17` the code returns that result unchanged (see the
counterexample). -/
theorem two_digit_year_window :
    (∀ yy, yy ≤ 30 → twoDigitYearToFull yy = 2000 + yy) ∧
    (∀ yy, 31 ≤ yy → twoDigitYearToFull yy = 1900 + yy) ∧
    (∀ dt : PyDatetime, dt.year < 100 →
      fixCentury dt = { dt with year := twoDigitYearToFull dt.year }) ∧
    (∀ du : Str → Option PyDatetime,
      (du "85.01.31".toList = none ∨ du "85.01.31".toList = some ⟨1985, 1, 31, 0, 0⟩) →
      parse du 1966 2002 "85.01.31".toList = some ⟨1985, 1, 31, 0, 0⟩) ∧
    (∀ du : Str → Option PyDatetime, du "02.11.17".toList = none →
      parse du 1966 2002 "02.11.17".toList = some ⟨2002, 11, 17, 0, 0⟩) := by
  refine ⟨?_, ?_, ?_, ?_, ?_⟩
  · intro yy h
    unfold twoDigitYearToFull
    rw [if_pos h]
  · intro yy h
    unfold twoDigitYearToFull
    rw [if_neg (by omega)]
  · intro dt h
    unfold fixCentury
    rw [if_pos h]
  · intro du hdu
    show (if ("85.01.31".toList : Str) = [] then none else _) = _
    rw [if_neg (by decide)]
    simp only []
    rw [show normalizeSpanish (pyStrip "85.01.31".toList) = "85.01.31".toList from by decide]
    rcases hdu with hdu | hdu <;> rw [hdu]
    · decide
    · decide
  · intro du hdu
    show (if ("02.11.17".toList : Str) = [] then none else _) = _
    rw [if_neg (by decide)]
    simp only []
    rw [show normalizeSpanish (pyStrip "02.11.17".toList) = "02.11.17".toList from by decide]
    rw [hdu]
    decide

/-- C5 witness: the window theorem applied at `yy = 2`, `yy = 85`, a
concrete two-digit datetime, and both dotted examples with a declining
collaborator. -/
theorem two_digit_year_window_witness :
    twoDigitYearToFull 2 = 2002 ∧ twoDigitYearToFull 85 = 1985 ∧
    fixCentury ⟨85, 1, 31, 0, 0⟩ = ⟨1985, 1, 31, 0, 0⟩ ∧
    parse (fun _ => none) 1966 2002 "85.01.31".toList = some ⟨1985, 1, 31, 0, 0⟩ ∧
    parse (fun _ => none) 1966 2002 "02.11.17".toList = some ⟨2002, 11, 17, 0, 0⟩ :=
  ⟨two_digit_year_window.1 2 (by decide),
   two_digit_year_window.2.1 85 (by decide),
   by
     have h5 := two_digit_year_window.2.2.1 ⟨85, 1, 31, 0, 0⟩ (by decide)
     rw [h5]
     rfl,
   two_digit_year_window.2.2.2.1 (fun _ => none) (Or.inl rfl),
   two_digit_year_window.2.2.2.2 (fun _ => none) rfl⟩

/-- C5 counterexample: under the fuzzy collaborator's actual behaviour on
`02.11.17` (python-dateutil with `dayfirst=True` resolves it to
2017-11-02 with a four-digit year), `parse` returns year 2017, not the
year 2002 the claim asserts. -/
theorem parse_dotted_general_path :
    parse
      (fun s => if s = "02.11.17".toList then some ⟨2017, 11, 2, 0, 0⟩ else none)
      1966 2002 "02.11.17".toList = some ⟨2017, 11, 2, 0, 0⟩ ∧
    (2017 : Nat) ≠ 2002 := by
  decide

end DateParser

end FFOcr

namespace FFOcr

namespace DateParser

/-- The survivors of best-of-many selection: every candidate parsed, the
failures dropped, order preserved. -/
def survivors (du : Str → Option PyDatetime) (minYear maxYear : Nat)
    (strs : List Str) : List PyDatetime :=
  strs.filterMap (parse du minYear maxYear)

/-- `m` is the first maximum of `l` under the score `f`: it occurs at an
index before which every element scores strictly less, and no element of
`l` scores more. -/
def FirstMax (f : α → Nat) (l : List α) (m : α) : Prop :=
  ∃ i, ∃ h : i < l.length, l.get ⟨i, h⟩ = m ∧
    (∀ x ∈ l, f x ≤ f m) ∧
    ∀ j (hj : j < i), f (l.get ⟨j, Nat.lt_trans hj h⟩) < f m

theorem maxByFirst_spec (f : α → Nat) :
    ∀ (l : List α) (x : α), FirstMax f (x :: l) (maxByFirst f x l)
  | [], x => by
    refine ⟨0, by simp, rfl, ?_, ?_⟩
    · intro z hz
      simp only [maxByFirst]
      rcases List.mem_singleton.mp hz with rfl
      exact le_refl _
    · intro j hj
      omega
  | y :: ys, x => by
    by_cases hc : f y > f x
    · obtain ⟨i, h, hget, hmax, hfirst⟩ := maxByFirst_spec f ys y
      have hM : maxByFirst f x (y :: ys) = maxByFirst f y ys := by
        show maxByFirst f (if f y > f x then y else x) ys = _
        rw [if_pos hc]
      rw [hM]
      refine ⟨i + 1, by simpa using h, ?_, ?_, ?_⟩
      · simpa using hget
      · intro z hz
        rcases List.mem_cons.mp hz with rfl | hz2
        · have hy := hmax y (by simp)
          omega
        · exact hmax z hz2
      · intro j hj
        cases j with
        | zero =>
          simp only [List.get]
          have hy := hmax y (by simp)
          omega
        | succ j2 =>
          have hj2 : j2 < i := by omega
          have := hfirst j2 hj2
          simpa using this
    · obtain ⟨i, h, hget, hmax, hfirst⟩ := maxByFirst_spec f ys x
      have hM : maxByFirst f x (y :: ys) = maxByFirst f x ys := by
        show maxByFirst f (if f y > f x then y else x) ys = _
        rw [if_neg hc]
      rw [hM]
      cases i with
      | zero =>
        refine ⟨0, by simp, ?_, ?_, ?_⟩
        · simpa using hget
        · intro z hz
          rcases List.mem_cons.mp hz with rfl | hz2
          · exact hmax z (by simp)
          · rcases List.mem_cons.mp hz2 with rfl | hz3
            · have hx := hmax x (by simp)
              omega
            · exact hmax z (by simp [hz3])
        · intro j hj
          omega
      | succ i2 =>
        have hi2 : i2 < ys.length := by simpa using h
        refine ⟨i2 + 2, by simpa using hi2, ?_, ?_, ?_⟩
        · simpa using hget
        · intro z hz
          rcases List.mem_cons.mp hz with rfl | hz2
          · exact hmax z (by simp)
          · rcases List.mem_cons.mp hz2 with rfl | hz3
            · have hx := hmax x (by simp)
              omega
            · exact hmax z (by simp [hz3])
        · intro j hj
          cases j with
          | zero =>
            simp only [List.get]
            have := hfirst 0 (by omega)
            simpa using this
          | succ j2 =>
            cases j2 with
            | zero =>
              simp only [List.get]
              have h0 := hfirst 0 (by omega)
              simp only [List.get] at h0
              omega
            | succ j3 =>
              have hj3 : j3 + 1 < i2 + 1 := by omega
              have := hfirst (j3 + 1) hj3
              simpa using this

theorem maxByFirst_map (g : β → α) (f : α → Nat) :
    ∀ (l : List β) (x : β),
      g (maxByFirst (fun p => f (g p)) x l) = maxByFirst f (g x) (l.map g)
  | [], x => rfl
  | y :: ys, x => by
    show g (maxByFirst (fun p => f (g p)) (if f (g y) > f (g x) then y else x) ys) = _
    rw [maxByFirst_map g f ys (if f (g y) > f (g x) then y else x)]
    rw [apply_ite g]
    rfl

theorem map_filterMap_snd (f : Str → Option PyDatetime) :
    ∀ l : List Str,
      ((l.map (fun s => (s, f s))).filterMap
        (fun p => p.2.map (fun dt => (p.1, dt)))).map Prod.snd = l.filterMap f
  | [] => rfl
  | s :: r => by
    rw [List.map_cons, List.filterMap_cons, List.filterMap_cons]
    cases hp : f s with
    | none =>
      simpa [hp] using map_filterMap_snd f r
    | some d =>
      simp only [hp, Option.map_some', List.map_cons]
      rw [map_filterMap_snd f r]

theorem valid_map_snd (du : Str → Option PyDatetime) (mn mx : Nat) (strs : List Str) :
    ((parseMultiple du mn mx strs).filterMap
      (fun p => p.2.map (fun dt => (p.1, dt)))).map Prod.snd = survivors du mn mx strs := by
  unfold parseMultiple survivors
  exact map_filterMap_snd (parse du mn mx) strs

theorem fixCentury_time (dt : PyDatetime) :
    (fixCentury dt).hour = dt.hour ∧ (fixCentury dt).minute = dt.minute ∧
    (fixCentury dt).day = dt.day ∧ (fixCentury dt).month = dt.month := by
  unfold fixCentury
  by_cases h : dt.year < 100 <;> simp [h]

theorem dateScore_no_time {dt : PyDatetime} (hh : dt.hour = 0) (hm : dt.minute = 0) :
    dateScore dt ≤ 110 := by
  unfold dateScore
  rw [hh, hm]
  split_ifs <;> omega

theorem parse_eq (du : Str → Option PyDatetime) (mn mx : Nat) (s : Str)
    (hs : ¬ s = []) :
    parse du mn mx s =
      match du (normalizeSpanish (pyStrip s)) with
      | some dt0 =>
        let dt := if dt0.year < 100 then fixCentury dt0 else dt0
        if mn ≤ dt.year ∧ dt.year ≤ mx + 50 then some dt else none
      | none => parseCustom (pyStrip s) := by
  unfold parse
  rw [if_neg hs]

theorem parse_score_le (du : Str → Option PyDatetime) (mn mx : Nat) (s : Str)
    (hdu : ∀ dt, du (normalizeSpanish (pyStrip s)) = some dt →
      dt.hour = 0 ∧ dt.minute = 0)
    (hpc : ∀ dt, parseCustom (pyStrip s) = some dt → dateScore dt ≤ 110) :
    ∀ dt, parse du mn mx s = some dt → dateScore dt ≤ 110 := by
  intro dt hp
  by_cases hse : s = []
  · rw [show parse du mn mx s = none by unfold parse; rw [if_pos hse]] at hp
    cases hp
  · rw [parse_eq du mn mx s hse] at hp
    cases hd : du (normalizeSpanish (pyStrip s)) with
    | none =>
      rw [hd] at hp
      exact hpc dt hp
    | some dt0 =>
      rw [hd] at hp
      simp only [] at hp
      by_cases hr : mn ≤ (if dt0.year < 100 then fixCentury dt0 else dt0).year ∧
          (if dt0.year < 100 then fixCentury dt0 else dt0).year ≤ mx + 50
      · rw [if_pos hr] at hp
        have hdt0 := hdu dt0 hd
        have hin : dt = if dt0.year < 100 then fixCentury dt0 else dt0 :=
          (Option.some.inj hp).symm
        have hhm : dt.hour = 0 ∧ dt.minute = 0 := by
          rw [hin]
          by_cases hy : dt0.year < 100
          · rw [if_pos hy]
            exact ⟨(fixCentury_time dt0).1.trans hdt0.1,
              (fixCentury_time dt0).2.1.trans hdt0.2⟩
          · rw [if_neg hy]
            exact hdt0
        exact dateScore_no_time hhm.1 hhm.2
      · rw [if_neg hr] at hp
        cases hp

theorem maxByFirst_last_big (f : α → Nat) (c : α) :
    ∀ (l : List α) (x : α), (∀ z ∈ x :: l, f z < f c) →
      maxByFirst f x (l ++ [c]) = c
  | [], x, h => by
    show (if f c > f x then c else x) = c
    rw [if_pos (h x (by simp))]
  | y :: ys, x, h => by
    show maxByFirst f (if f y > f x then y else x) (ys ++ [c]) = c
    apply maxByFirst_last_big f c ys
    intro z hz
    rcases List.mem_cons.mp hz with rfl | hz2
    · split_ifs with hc
      · exact h y (by simp)
      · exact h x (by simp)
    · exact h z (by simp [hz2])

/-- C6: `get_best_date` parses every candidate independently, drops
failures, and returns the surviving candidate with the highest score
(+100 for day ≠ 1, +10 for month ≠ 1, +1 for a time component), first
maximum winning ties: a `none` result means no candidate survived, a
`some` result is the first maximum of the survivors under `dateScore`,
and on `["1999", "Junio 1999", "99/JUN/7 11:32AM"]` the APS candidate
(day 7, time 11:32) wins over the year-only and month-only candidates
for every behaviour of the fuzzy collaborator that returns no
time-of-day for the two time-less candidates and either declines the APS
string or reads it as 7 June (19)99 11:32. -/
theorem getBestDate_spec :
    (∀ (du : Str → Option PyDatetime) (mn mx : Nat) (strs : List Str),
      (getBestDate du mn mx strs = none ↔ survivors du mn mx strs = []) ∧
      ∀ dt, getBestDate du mn mx strs = some dt →
        FirstMax dateScore (survivors du mn mx strs) dt) ∧
    (∀ du : Str → Option PyDatetime,
      (∀ dt, du "1999".toList = some dt → dt.hour = 0 ∧ dt.minute = 0) →
      (∀ dt, du "June 1999".toList = some dt → dt.hour = 0 ∧ dt.minute = 0) →
      (du "99/jun/7 11:32am".toList = none ∨
        du "99/jun/7 11:32am".toList = some ⟨99, 6, 7, 11, 32⟩ ∨
        du "99/jun/7 11:32am".toList = some ⟨1999, 6, 7, 11, 32⟩) →
      getBestDate du 1966 2002
          ["1999".toList, "Junio 1999".toList, "99/JUN/7 11:32AM".toList]
        = some ⟨1999, 6, 7, 11, 32⟩) := by
  constructor
  · intro du mn mx strs
    constructor
    · unfold getBestDate
      cases hV : (parseMultiple du mn mx strs).filterMap
          (fun p => p.2.map (fun dt => (p.1, dt))) with
      | nil =>
        simp only [hV]
        constructor
        · intro _
          rw [← valid_map_snd du mn mx strs, hV]
          rfl
        · intro _
          trivial
      | cons v vs =>
        simp only [hV]
        constructor
        · intro h
          cases h
        · intro h
          have := valid_map_snd du mn mx strs
          rw [hV] at this
          simp only [List.map_cons] at this
          rw [← this] at h
          cases h
    · intro dt h
      unfold getBestDate at h
      cases hV : (parseMultiple du mn mx strs).filterMap
          (fun p => p.2.map (fun dt => (p.1, dt))) with
      | nil =>
        rw [hV] at h
        cases h
      | cons v vs =>
        rw [hV] at h
        simp only [] at h
        have hdt : (maxByFirst (fun p => dateScore p.2) v vs).2 = dt :=
          Option.some.inj h
        have hsur : survivors du mn mx strs = v.2 :: vs.map Prod.snd := by
          rw [← valid_map_snd du mn mx strs, hV]
          simp
        rw [hsur, ← hdt]
        have hmap := maxByFirst_map (Prod.snd (α := Str) (β := PyDatetime))
          dateScore vs v
        rw [show (fun p : Str × PyDatetime => dateScore p.2) =
          (fun p : Str × PyDatetime => dateScore (Prod.snd p)) from rfl, hmap]
        exact maxByFirst_spec dateScore (vs.map Prod.snd) v.2
  · intro du h1 h2 h3
    have hA : ∀ dt, parse du 1966 2002 "1999".toList = some dt →
        dateScore dt ≤ 110 := by
      refine parse_score_le du 1966 2002 _ ?_ ?_
      · rw [show normalizeSpanish (pyStrip ("1999".toList)) = "1999".toList
          from by decide]
        exact h1
      · intro dt h
        rw [show parseCustom (pyStrip ("1999".toList)) =
          some (⟨1999, 1, 1, 0, 0⟩ : PyDatetime) from by decide] at h
        injection h with h
        subst h
        decide
    have hB : ∀ dt, parse du 1966 2002 "Junio 1999".toList = some dt →
        dateScore dt ≤ 110 := by
      refine parse_score_le du 1966 2002 _ ?_ ?_
      · rw [show normalizeSpanish (pyStrip ("Junio 1999".toList)) =
          "June 1999".toList from by decide]
        exact h2
      · intro dt h
        rw [show parseCustom (pyStrip ("Junio 1999".toList)) =
          some (⟨1999, 1, 1, 0, 0⟩ : PyDatetime) from by decide] at h
        injection h with h
        subst h
        decide
    have hC : parse du 1966 2002 "99/JUN/7 11:32AM".toList =
        some ⟨1999, 6, 7, 11, 32⟩ := by
      rw [parse_eq du 1966 2002 _ (by decide),
        show normalizeSpanish (pyStrip ("99/JUN/7 11:32AM".toList)) =
          "99/jun/7 11:32am".toList from by decide]
      rcases h3 with h | h | h <;> rw [h] <;> decide
    cases ho1 : parse du 1966 2002 "1999".toList with
    | some d1 =>
      cases ho2 : parse du 1966 2002 "Junio 1999".toList with
      | some d2 =>
        simp only [getBestDate, parseMultiple, List.map_cons, List.map_nil,
          List.filterMap_cons, List.filterMap_nil, ho1, ho2, hC,
          Option.map_some']
        rw [show ([("Junio 1999".toList, d2),
            ("99/JUN/7 11:32AM".toList, (⟨1999, 6, 7, 11, 32⟩ : PyDatetime))] :
              List (Str × PyDatetime)) =
          [("Junio 1999".toList, d2)] ++
            [("99/JUN/7 11:32AM".toList, (⟨1999, 6, 7, 11, 32⟩ : PyDatetime))]
          from rfl]
        rw [maxByFirst_last_big (fun p : Str × PyDatetime => dateScore p.2)
          ("99/JUN/7 11:32AM".toList, (⟨1999, 6, 7, 11, 32⟩ : PyDatetime))
          [("Junio 1999".toList, d2)] ("1999".toList, d1) ?_]
        intro z hz
        have h111 : dateScore ⟨1999, 6, 7, 11, 32⟩ = 111 := by decide
        rcases List.mem_cons.mp hz with rfl | hz2
        · have := hA d1 ho1
          show dateScore d1 < dateScore (⟨1999, 6, 7, 11, 32⟩ : PyDatetime)
          omega
        · rcases List.mem_singleton.mp hz2 with rfl
          have := hB d2 ho2
          show dateScore d2 < dateScore (⟨1999, 6, 7, 11, 32⟩ : PyDatetime)
          omega
      | none =>
        simp only [getBestDate, parseMultiple, List.map_cons, List.map_nil,
          List.filterMap_cons, List.filterMap_nil, ho1, ho2, hC,
          Option.map_some', Option.map_none']
        rw [show ([("99/JUN/7 11:32AM".toList,
            (⟨1999, 6, 7, 11, 32⟩ : PyDatetime))] : List (Str × PyDatetime)) =
          [] ++ [("99/JUN/7 11:32AM".toList,
            (⟨1999, 6, 7, 11, 32⟩ : PyDatetime))] from rfl]
        rw [maxByFirst_last_big (fun p : Str × PyDatetime => dateScore p.2)
          ("99/JUN/7 11:32AM".toList, (⟨1999, 6, 7, 11, 32⟩ : PyDatetime))
          [] ("1999".toList, d1) ?_]
        intro z hz
        have h111 : dateScore ⟨1999, 6, 7, 11, 32⟩ = 111 := by decide
        rcases List.mem_singleton.mp hz with rfl
        have := hA d1 ho1
        show dateScore d1 < dateScore (⟨1999, 6, 7, 11, 32⟩ : PyDatetime)
        omega
    | none =>
      cases ho2 : parse du 1966 2002 "Junio 1999".toList with
      | some d2 =>
        simp only [getBestDate, parseMultiple, List.map_cons, List.map_nil,
          List.filterMap_cons, List.filterMap_nil, ho1, ho2, hC,
          Option.map_some', Option.map_none']
        rw [show ([("99/JUN/7 11:32AM".toList,
            (⟨1999, 6, 7, 11, 32⟩ : PyDatetime))] : List (Str × PyDatetime)) =
          [] ++ [("99/JUN/7 11:32AM".toList,
            (⟨1999, 6, 7, 11, 32⟩ : PyDatetime))] from rfl]
        rw [maxByFirst_last_big (fun p : Str × PyDatetime => dateScore p.2)
          ("99/JUN/7 11:32AM".toList, (⟨1999, 6, 7, 11, 32⟩ : PyDatetime))
          [] ("Junio 1999".toList, d2) ?_]
        intro z hz
        have h111 : dateScore ⟨1999, 6, 7, 11, 32⟩ = 111 := by decide
        rcases List.mem_singleton.mp hz with rfl
        have := hB d2 ho2
        show dateScore d2 < dateScore (⟨1999, 6, 7, 11, 32⟩ : PyDatetime)
        omega
      | none =>
        simp only [getBestDate, parseMultiple, List.map_cons, List.map_nil,
          List.filterMap_cons, List.filterMap_nil, ho1, ho2, hC,
          Option.map_some', Option.map_none']
        rfl

theorem getBestDate_spec_witness :
    getBestDate (fun _ => none) 1966 2002
        ["1999".toList, "Junio 1999".toList, "99/JUN/7 11:32AM".toList]
      = some ⟨1999, 6, 7, 11, 32⟩ ∧
    FirstMax dateScore
      (survivors (fun _ => none) 1966 2002
        ["1999".toList, "Junio 1999".toList, "99/JUN/7 11:32AM".toList])
      ⟨1999, 6, 7, 11, 32⟩ :=
  ⟨getBestDate_spec.2 (fun _ => none)
      (fun _ h => by cases h) (fun _ h => by cases h) (Or.inl rfl),
    (getBestDate_spec.1 (fun _ => none) 1966 2002
        ["1999".toList, "Junio 1999".toList, "99/JUN/7 11:32AM".toList]).2
      ⟨1999, 6, 7, 11, 32⟩
      (getBestDate_spec.2 (fun _ => none)
        (fun _ h => by cases h) (fun _ h => by cases h) (Or.inl rfl))⟩

end DateParser

end FFOcr

namespace FFOcr

namespace InteractiveProcessor

/-- Zone-1 record of the C9 example: machine text found, roll `A`,
frame `F1`. -/
def z1Ex : ZoneMachine := ⟨true, some "A".toList, some "F1".toList, none⟩

/-- Zone-2 record of the C9 example: APS data found, roll `B`,
frame `F2`. -/
def z2Ex : ZoneMachine := ⟨true, some "B".toList, some "F2".toList, none⟩

/-- The C9 example analysis: both zones supply a roll id and a frame. -/
def analysisEx : Analysis := ⟨[], some z1Ex, some z2Ex, none, none⟩

/-- C9 counterexample: on an analysis where zone 1 and zone 2 both supply
truthy `roll_id` and `frame`, the extracted values are zone 2\'s `B`/`F2`,
not zone 1\'s `A`/`F1` as the claim demands. -/
theorem zone_precedence_counterexample :
    (z1Ex.found = true ∧ z2Ex.found = true ∧
      truthy z1Ex.roll_id = true ∧ truthy z2Ex.roll_id = true ∧
      truthy z1Ex.frame = true ∧ truthy z2Ex.frame = true) ∧
    (extractMetadataFromAnalysis (fun _ => none) 1960 2010 analysisEx).roll_id
        = some "B".toList ∧
    (extractMetadataFromAnalysis (fun _ => none) 1960 2010
        analysisEx).frame_number = some "F2".toList ∧
    ¬ (extractMetadataFromAnalysis (fun _ => none) 1960 2010
        analysisEx).roll_id = z1Ex.roll_id ∧
    ¬ (extractMetadataFromAnalysis (fun _ => none) 1960 2010
        analysisEx).frame_number = z1Ex.frame := by
  decide

/-- C9 (amended): when both zones are present and found, zone 2\'s truthy
`roll_id`/`frame` values override zone 1\'s in the extracted metadata;
zone 1\'s value is used only when zone 2\'s corresponding field is absent
or empty (the source writes zone 1 first and lets zone 2 overwrite). -/
theorem zone2_overrides_zone1 (du : Str → Option PyDatetime)
    (mn mx : Nat) (a : Analysis) (z1 z2 : ZoneMachine)
    (h1 : a.zone_1_bottom_edge = some z1) (h2 : a.zone_2_center = some z2)
    (hf1 : z1.found = true) (hf2 : z2.found = true) :
    (extractMetadataFromAnalysis du mn mx a).roll_id =
      (if truthy z2.roll_id then z2.roll_id
       else if truthy z1.roll_id then z1.roll_id else none) ∧
    (extractMetadataFromAnalysis du mn mx a).frame_number =
      (if truthy z2.frame then z2.frame
       else if truthy z1.frame then z1.frame else none) := by
  unfold extractMetadataFromAnalysis rollInfoOf
  rw [h1, h2]
  simp only [hf1, hf2, if_true]
  by_cases c1 : truthy z1.roll_id <;> by_cases c2 : truthy z2.roll_id <;>
    by_cases c3 : truthy z1.frame <;> by_cases c4 : truthy z2.frame <;>
    by_cases c5 : truthy z1.lab_code <;>
    simp [c1, c2, c3, c4, c5]

theorem zone2_overrides_zone1_witness :
    (extractMetadataFromAnalysis (fun _ => none) 1960 2010 analysisEx).roll_id =
      (if truthy z2Ex.roll_id then z2Ex.roll_id
       else if truthy z1Ex.roll_id then z1Ex.roll_id else none) ∧
    (extractMetadataFromAnalysis (fun _ => none) 1960 2010
        analysisEx).frame_number =
      (if truthy z2Ex.frame then z2Ex.frame
       else if truthy z1Ex.frame then z1Ex.frame else none) :=
  zone2_overrides_zone1 (fun _ => none) 1960 2010 analysisEx z1Ex z2Ex
    rfl rfl rfl rfl

end InteractiveProcessor

end FFOcr

namespace FFOcr

namespace ApplyExif

theorem updMap_mem (k v : Str) :
    ∀ (l : List (Str × Str)), ∀ kv ∈ updMap l k v, kv ∈ l ∨ kv = (k, v)
  | [] => by
    intro kv hkv
    rcases List.mem_singleton.mp hkv with rfl
    exact Or.inr rfl
  | (k0, v0) :: r => by
    intro kv hkv
    rw [show updMap ((k0, v0) :: r) k v =
      if k0 = k then (k, v) :: r else (k0, v0) :: updMap r k v from rfl] at hkv
    by_cases h0 : k0 = k
    · rw [if_pos h0] at hkv
      rcases List.mem_cons.mp hkv with rfl | h2
      · exact Or.inr rfl
      · exact Or.inl (List.mem_cons_of_mem _ h2)
    · rw [if_neg h0] at hkv
      rcases List.mem_cons.mp hkv with rfl | h2
      · exact Or.inl (List.mem_cons_self _ _)
      · rcases updMap_mem k v r kv h2 with h3 | h3
        · exact Or.inl (List.mem_cons_of_mem _ h3)
        · exact Or.inr h3

/-- The value-storing tail of one `extract_exif_mappings` loop iteration:
store `v` under `k` unless `v` is empty or polluted. -/
def storeClean (m : List (Str × Str)) (k v : Str) : List (Str × Str) :=
  if v ≠ [] && !isPollution v then updMap m k v else m

theorem exifLineStep_cases (m : List (Str × Str)) (line : Str) :
    exifLineStep m line = m ∨
      ∃ k v, exifLineStep m line = storeClean m k v := by
  unfold exifLineStep
  simp only []
  split
  · exact Or.inl rfl
  · split
    · exact Or.inr ⟨_, _, rfl⟩
    · exact Or.inl rfl

theorem storeClean_mem (m : List (Str × Str)) (k v : Str) :
    ∀ kv ∈ storeClean m k v,
      kv ∈ m ∨ (kv.2 ≠ [] ∧ isPollution kv.2 = false) := by
  intro kv hkv
  unfold storeClean at hkv
  split at hkv
  · rcases updMap_mem _ _ m kv hkv with h | h
    · exact Or.inl h
    · right
      subst h
      rename_i hc
      simp only [Bool.and_eq_true, ne_eq, decide_eq_true_eq,
        Bool.not_eq_true'] at hc
      exact hc
  · exact Or.inl hkv

theorem exifLineStep_mem (m : List (Str × Str)) (line : Str) :
    ∀ kv ∈ exifLineStep m line,
      kv ∈ m ∨ (kv.2 ≠ [] ∧ isPollution kv.2 = false) := by
  intro kv hkv
  rcases exifLineStep_cases m line with h | ⟨k, v, h⟩
  · rw [h] at hkv
    exact Or.inl hkv
  · rw [h] at hkv
    exact storeClean_mem m k v kv hkv

theorem foldl_exifLineStep_clean :
    ∀ (lines : List Str) (m : List (Str × Str)),
      (∀ kv ∈ m, kv.2 ≠ [] ∧ isPollution kv.2 = false) →
      ∀ kv ∈ lines.foldl exifLineStep m, kv.2 ≠ [] ∧ isPollution kv.2 = false
  | [], _, hm => hm
  | l :: ls, m, hm => by
    intro kv hkv
    refine foldl_exifLineStep_clean ls (exifLineStep m l) ?_ kv hkv
    intro kv2 h2
    rcases exifLineStep_mem m l kv2 h2 with h | h
    · exact hm kv2 h
    · exact h

/-- C8 counterexample: the proposal text-parsing path applies no
pollution filter — parsing a proposal whose field line carries the
non-answer value `Blank - no text visible` returns an entry whose
`proposed_updates` contains that field with that literal string, although
`is_pollution` classifies the value as polluted. -/
theorem pollution_filter_counterexample :
    FFOcr.InteractiveProcessor.parseProposalContent
        (joinNl ["[0001] IMG_001.jpg".toList,
          "Caption-Abstract: Blank - no text visible".toList]) =
      [⟨"IMG_001.jpg".toList, false,
        [("Caption-Abstract".toList, "Blank - no text visible".toList)],
        none⟩] ∧
    isPollution "Blank - no text visible".toList = true := by
  decide

/-- C8 (amended): on the metadata-extraction path, every key/value pair
produced by the `extract_exif_mappings` field loop has a non-empty,
non-polluted value — a candidate whose value is a configured non-answer
phrase is dropped and its field stays absent — and in particular
extracting a section whose only line is
`Caption-Abstract: Blank - no text visible` yields an empty mapping.
(The proposal text-parsing path applies no such filter; see the
counterexample.) -/
theorem pollution_filter (lines : List Str) :
    (∀ kv ∈ lines.foldl exifLineStep ([] : List (Str × Str)),
      kv.2 ≠ [] ∧ isPollution kv.2 = false) ∧
    extractExifMappings
        ["Caption-Abstract: Blank - no text visible".toList] = [] := by
  constructor
  · refine foldl_exifLineStep_clean lines [] ?_
    intro kv h
    cases h
  · decide

theorem pollution_filter_witness :
    (("DateTimeOriginal".toList, "1999:06:07 11:32:00".toList) ∈
        (["DateTimeOriginal: 1999:06:07 11:32:00".toList,
          "Caption-Abstract: Blank - no text visible".toList].foldl
          exifLineStep ([] : List (Str × Str))) ∧
      ("1999:06:07 11:32:00".toList ≠ ([] : Str) ∧
        isPollution "1999:06:07 11:32:00".toList = false)) ∧
    extractExifMappings
        ["Caption-Abstract: Blank - no text visible".toList] = [] :=
  ⟨⟨by decide,
    (pollution_filter
        ["DateTimeOriginal: 1999:06:07 11:32:00".toList,
          "Caption-Abstract: Blank - no text visible".toList]).1
      ("DateTimeOriginal".toList, "1999:06:07 11:32:00".toList) (by decide)⟩,
    (pollution_filter
        ["DateTimeOriginal: 1999:06:07 11:32:00".toList,
          "Caption-Abstract: Blank - no text visible".toList]).2⟩

end ApplyExif

end FFOcr

namespace FFOcr

theorem joinNl_append_ne :
    ∀ (xs : List Str), xs ≠ [] → ∀ (ys : List Str), ys ≠ [] →
      joinNl (xs ++ ys) = joinNl xs ++ '\n' :: joinNl ys
  | [], h, _, _ => absurd rfl h
  | [a], _, ys, hy => by
    cases ys with
    | nil => exact absurd rfl hy
    | cons b t =>
      rw [List.singleton_append, joinNl_cons_cons, joinNl_single]
  | a :: b :: t, _, ys, hy => by
    have ih := joinNl_append_ne (b :: t) (by simp) ys hy
    rw [show (a :: b :: t) ++ ys = a :: (b :: (t ++ ys)) from by simp]
    rw [joinNl_cons_cons]
    rw [show (b :: (t ++ ys)) = (b :: t) ++ ys from by simp]
    rw [ih, joinNl_cons_cons]
    simp [List.append_assoc]

theorem joinNl_append_nil {xs : List Str} (h : xs ≠ []) :
    joinNl (xs ++ [[]]) = joinNl xs ++ ['\n'] := by
  rw [joinNl_append_ne xs h [[]] (by simp), joinNl_single]

theorem joinNl_chunk_concat {A B : List Str} (hA : A ≠ []) (hB : B ≠ []) :
    (joinNl A ++ ['\n']) ++ (joinNl B ++ ['\n']) = joinNl (A ++ B) ++ ['\n'] := by
  rw [joinNl_append_ne A hA B hB]
  simp [List.append_assoc]

theorem pyStrip_space_cons {c : Char} {s : Str} (hc : isPySpace c = true) :
    pyStrip (c :: s) = pyStrip s := by
  unfold pyStrip
  rw [List.dropWhile_cons_of_pos hc]

theorem stripInv_mk {s : Str}
    (h1 : ∀ c, s.head? = some c → isPySpace c = false)
    (h2 : ∀ c, s.getLast? = some c → isPySpace c = false) :
    pyStrip s = s := by
  unfold pyStrip
  have hd : s.dropWhile isPySpace = s := by
    cases s with
    | nil => rfl
    | cons a t => rw [List.dropWhile_cons_of_neg (by simp [h1 a rfl])]
  rw [hd]
  have hr : s.reverse.dropWhile isPySpace = s.reverse := by
    cases hs : s.reverse with
    | nil => rfl
    | cons a t =>
      have ha : s.getLast? = some a := by
        rw [← List.head?_reverse, hs]
        rfl
      rw [List.dropWhile_cons_of_neg (by simp [h2 a ha])]
  rw [hr, List.reverse_reverse]

theorem stripInv_getLast {s : Str} (h : pyStrip s = s) {c : Char}
    (hc : s.getLast? = some c) : isPySpace c = false := by
  have hrev := stripInv_reverse_dropWhile h
  have hhead : s.reverse.head? = some c := by rw [List.head?_reverse, hc]
  cases hs : s.reverse with
  | nil =>
    rw [hs] at hhead
    cases hhead
  | cons a t =>
    rw [hs] at hhead hrev
    have ha : a = c := Option.some.inj hhead
    subst ha
    by_contra hsp
    rw [List.dropWhile_cons_of_pos (by simpa using hsp)] at hrev
    have h1 := dropWhile_length_le isPySpace t
    have h2 := congrArg List.length hrev
    simp at h2
    omega

theorem pySub_false_of_head {p s : Str} {c : Char} (hp : p.head? = some c)
    (hc : c ∉ s) : pySub p s = false := by
  rw [Bool.eq_false_iff]
  intro h
  obtain ⟨t, u, hs⟩ := pySub_iff_infix.mp h
  apply hc
  have hcp : c ∈ p := by
    cases p with
    | nil => cases hp
    | cons a q =>
      have : a = c := Option.some.inj hp
      subst this
      exact List.mem_cons_self _ _
  rw [← hs]
  simp [hcp]

theorem pyStrip_shape_head {sp : Str} {c : Char} {t : Str}
    (hsp : ∀ x ∈ sp, isPySpace x = true) (hc : isPySpace c = false) :
    (pyStrip (sp ++ c :: t)).head? = some c := by
  induction sp with
  | nil =>
    rw [List.nil_append, pyStrip_cons hc]
    rfl
  | cons a sp ih =>
    rw [List.cons_append, pyStrip_space_cons (hsp a (by simp))]
    exact ih (fun x hx => hsp x (by simp [hx]))

theorem pyStrip_head_ne {sp : Str} {c : Char} {t : Str} {d : Char}
    (hsp : ∀ x ∈ sp, isPySpace x = true) (hc : isPySpace c = false)
    (hne : c ≠ d) : ¬ (pyStrip (sp ++ c :: t)).head? = some d := by
  rw [pyStrip_shape_head hsp hc]
  intro h
  exact hne (Option.some.inj h)

theorem pyStrip_lit_tail {sp lit v : Str} {c : Char}
    (hsp : ∀ x ∈ sp, isPySpace x = true)
    (hlit : lit.head? = some c) (hc : isPySpace c = false)
    (hv : v ≠ []) (hvlast : ∀ d, v.getLast? = some d → isPySpace d = false) :
    pyStrip (sp ++ (lit ++ v)) = lit ++ v := by
  refine pyStrip_spaces_body hsp (stripInv_mk ?_ ?_) ?_
  · intro d hd
    cases lit with
    | nil => cases hlit
    | cons a t =>
      rw [List.cons_append] at hd
      have h1 : a = d := Option.some.inj hd
      have h2 : a = c := Option.some.inj hlit
      rw [← h1, h2]
      exact hc
  · intro d hd
    rw [List.getLast?_append] at hd
    cases hv2 : v.getLast? with
    | none =>
      have hs := List.getLast?_isSome.mpr hv
      rw [hv2] at hs
      cases hs
    | some x =>
      rw [hv2] at hd
      have hx : x = d := Option.some.inj hd
      subst hx
      exact hvlast x hv2
  · cases lit with
    | nil => cases hlit
    | cons a t => simp

theorem pyStrip_lit_body {sp lit v : Str} {c : Char}
    (hsp : ∀ x ∈ sp, isPySpace x = true)
    (hlit : lit.head? = some c) (hc : isPySpace c = false)
    (hv : v ≠ []) (hvstrip : pyStrip v = v) :
    pyStrip (sp ++ (lit ++ v)) = lit ++ v :=
  pyStrip_lit_tail hsp hlit hc hv (fun d hd => stripInv_getLast hvstrip hd)

theorem natToStr_ne_nil (n : Nat) : natToStr n ≠ [] := by
  unfold natToStr
  cases n with
  | zero => simp [natToStrAux]
  | succ m =>
    show natToStrAux (m + 1) (m + 1) ≠ []
    unfold natToStrAux
    split_ifs <;> simp

theorem fmtFix_ne_nil (d : Nat) (q : ℚ) : fmtFix d q ≠ [] := by
  unfold fmtFix
  simp only []
  split_ifs <;> simp [natToStr_ne_nil]

theorem fmt04_digits (n : Nat) : ∀ c ∈ fmt04 n, isDig c = true := by
  unfold fmt04
  intro c hc
  rcases List.mem_append.mp hc with h | h
  · have := List.eq_of_mem_replicate h
    subst this
    decide
  · exact natToStr_digits n c h

theorem mem_of_getLast_opt : ∀ {l : Str} {c : Char}, l.getLast? = some c → c ∈ l
  | [], _, h => by cases h
  | [a], c, h => by
    have ha : a = c := by simpa using h
    simp [ha]
  | _ :: b :: t, c, h => by
    rw [List.getLast?_cons_cons] at h
    exact List.mem_cons_of_mem _ (mem_of_getLast_opt h)

theorem fmtFix_getLast_nonspace (d : Nat) (q : ℚ) {c : Char}
    (hc : (fmtFix d q).getLast? = some c) : isPySpace c = false := by
  have hmem : c ∈ fmtFix d q := mem_of_getLast_opt hc
  rcases fmtFix_chars d q c hmem with h | h | h
  · exact (isDig_props h).2.1
  · subst h; decide
  · subst h; decide

end FFOcr

namespace FFOcr

namespace InteractiveProcessor

theorem dictUpdS_fresh :
    ∀ {l : List (Str × Str)} {k : Str}, (∀ q ∈ l, q.1 ≠ k) →
      ∀ v, dictUpdS l k v = l ++ [(k, v)]
  | [], _, _, _ => rfl
  | (k0, v0) :: r, k, h, v => by
    rw [show dictUpdS ((k0, v0) :: r) k v =
      if k0 = k then (k, v) :: r else (k0, v0) :: dictUpdS r k v from rfl]
    rw [if_neg (h (k0, v0) (by simp))]
    rw [dictUpdS_fresh (fun q hq => h q (by simp [hq])) v]
    rfl

end InteractiveProcessor

end FFOcr

namespace FFOcr

namespace InteractiveProcessor

theorem nil_isPrefixOf (l : Str) : List.isPrefixOf ([] : Str) l = true := by
  cases l <;> rfl

/-- The flush of the final open entry at the end of
`_parse_proposal_content`. -/
def finish (st : ParseState) : List ParsedEntry :=
  st.2 ++ (match st.1 with | some c => [c] | none => [])

theorem parseProposalContent_eq (content : Str) :
    parseProposalContent content =
      finish (List.foldl parseStep (none, []) (splitLines content)) := rfl

theorem parseStep_blank (st : ParseState) : parseStep st [] = st := rfl

theorem parseStep_none_inert (l : Str) (acc : List ParsedEntry)
    (h : ¬ (pyStrip l).head? = some '[') :
    parseStep (none, acc) l = (none, acc) := by
  unfold parseStep
  simp only []
  split_ifs with h1 h2 h3
  · rfl
  · rfl
  · exfalso
    rw [Bool.and_eq_true] at h3
    have hstart := h3.1
    unfold pyStarts at hstart
    cases hps : pyStrip l with
    | nil =>
      rw [hps] at hstart
      cases hstart
    | cons a t =>
      rw [hps] at hstart
      have ha : '[' = a := by
        rw [show List.isPrefixOf "[".toList (a :: t) =
          (('[' : Char) == a && List.isPrefixOf ([] : Str) t) from rfl,
          nil_isPrefixOf, Bool.and_true, beq_iff_eq] at hstart
        exact hstart
      apply h
      rw [hps, ← ha]
      rfl
  · rfl

theorem parseStep_header (st : ParseState) (i : Nat) (nm : Str)
    (hne : nm ≠ []) (hnm : pyStrip nm = nm) :
    parseStep st ('[' :: (fmt04 i ++ "] ".toList ++ nm)) =
      (some ⟨nm, false, [], none⟩,
        st.2 ++ (match st.1 with | some c => [c] | none => [])) := by
  have hstrip : pyStrip ('[' :: (fmt04 i ++ "] ".toList ++ nm)) =
      '[' :: (fmt04 i ++ "] ".toList ++ nm) := by
    refine stripInv_mk ?_ ?_
    · intro c hc
      have hcc : '[' = c := Option.some.inj hc
      rw [← hcc]
      decide
    · intro c hc
      rw [show ('[' :: (fmt04 i ++ "] ".toList ++ nm)) =
        ('[' :: (fmt04 i ++ "] ".toList)) ++ nm from by simp] at hc
      rw [List.getLast?_append] at hc
      cases hv2 : nm.getLast? with
      | none =>
        have hs := List.getLast?_isSome.mpr hne
        rw [hv2] at hs
        cases hs
      | some x =>
        rw [hv2] at hc
        have hx : x = c := Option.some.inj hc
        subst hx
        exact stripInv_getLast hnm hv2
  have hsub : pySub "] ".toList ('[' :: (fmt04 i ++ "] ".toList ++ nm)) = true := by
    rw [ pySub_iff_infix]
    exact ⟨'[' :: fmt04 i, nm, by simp⟩
  have hsf : splitFirstStr "] ".toList ('[' :: (fmt04 i ++ "] ".toList ++ nm)) =
      some ('[' :: fmt04 i, nm) := by
    have hA : ']' ∉ '[' :: fmt04 i := by
      intro hmem
      rcases List.mem_cons.mp hmem with h | h
      · cases h
      · exact absurd (fmt04_digits i _ h) (by decide)
    have h1 : splitFirstStr "] ".toList
        (('[' :: fmt04 i) ++ ("] ".toList ++ nm)) = some ('[' :: fmt04 i, nm) :=
      splitFirstStr_exact (show ("] ".toList).head? = some ']' from rfl)
        ('[' :: fmt04 i) hA
    rw [show ('[' :: fmt04 i) ++ ("] ".toList ++ nm) =
      '[' :: (fmt04 i ++ "] ".toList ++ nm) from by simp] at h1
    exact h1
  have hlb : pyStarts ('[' :: (fmt04 i ++ "] ".toList ++ nm)) "[".toList = true := by
    show List.isPrefixOf "[".toList ('[' :: (fmt04 i ++ "] ".toList ++ nm)) = true
    rw [show List.isPrefixOf "[".toList ('[' :: (fmt04 i ++ "] ".toList ++ nm)) =
      (('[' : Char) == '[' && List.isPrefixOf ([] : Str)
        (fmt04 i ++ "] ".toList ++ nm)) from rfl, nil_isPrefixOf]
    rfl
  unfold parseStep
  simp only []
  rw [hstrip, hsub, hlb, hsf]
  show (some (⟨pyStrip nm, false, [], none⟩ : ParsedEntry),
    st.2 ++ (match st.1 with | some c => [c] | none => [])) = _
  rw [hnm]

theorem parseStep_backscan (cur : ParsedEntry) (acc : List ParsedEntry)
    (bn : Str) (hne : bn ≠ []) (hbn : pyStrip bn = bn) :
    parseStep (some cur, acc) ("  Back scan: ".toList ++ bn) =
      (some { cur with back_path := some bn }, acc) := by
  have hstrip : pyStrip ("  Back scan: ".toList ++ bn) = "Back scan: ".toList ++ bn :=
    show pyStrip ("  ".toList ++ ("Back scan: ".toList ++ bn)) =
        "Back scan: ".toList ++ bn from
      pyStrip_lit_body (by decide) rfl (by decide) hne hbn
  have hval : pyStrip ((splitFirst ':' ("Back scan: ".toList ++ bn)).2) = bn := by
    rw [show (splitFirst ':' ("Back scan: ".toList ++ bn)).2 = ' ' :: bn from rfl,
      pyStrip_space_cons (by decide), hbn]
  unfold parseStep
  simp only []
  rw [hstrip, hval]
  rfl

theorem parseStep_conf (cur : ParsedEntry) (acc : List ParsedEntry) (q : ℚ) :
    parseStep (some cur, acc) ("  Confidence: ".toList ++ fmtFix 2 q) =
      (some cur, acc) := by
  have hstrip : pyStrip ("  Confidence: ".toList ++ fmtFix 2 q) =
      "Confidence: ".toList ++ fmtFix 2 q :=
    show pyStrip ("  ".toList ++ ("Confidence: ".toList ++ fmtFix 2 q)) = _ from
      pyStrip_lit_tail (by decide) rfl (by decide) (fmtFix_ne_nil 2 q)
        (fun d hd => fmtFix_getLast_nonspace 2 q hd)
  have hE : pySub "EXIF".toList ("Confidence: ".toList ++ fmtFix 2 q) = false := by
    refine pySub_false_of_head rfl ?_
    intro hmem
    rcases List.mem_append.mp hmem with h | h
    · revert h
      decide
    · rcases fmtFix_chars 2 q _ h with hh | hh | hh
      · exact absurd hh (by decide)
      · exact absurd hh (by decide)
      · exact absurd hh (by decide)
  have hM : pySub "METADATA".toList ("Confidence: ".toList ++ fmtFix 2 q) = false := by
    refine pySub_false_of_head rfl ?_
    intro hmem
    rcases List.mem_append.mp hmem with h | h
    · revert h
      decide
    · rcases fmtFix_chars 2 q _ h with hh | hh | hh
      · exact absurd hh (by decide)
      · exact absurd hh (by decide)
      · exact absurd hh (by decide)
  unfold parseStep
  simp only []
  rw [hstrip, hE, hM]
  rfl

theorem parseStep_prop (cur : ParsedEntry) (acc : List ParsedEntry)
    (k rv : Str)
    (hkne : k ≠ []) (hkcolon : ':' ∉ k) (hkstrip : pyStrip k = k)
    (hrvstrip : pyStrip rv = rv) (hrvne : rv ≠ [])
    (hrvns : rv ≠ "<not set>".toList)
    (hb1 : pyStarts (k ++ ": ".toList ++ rv) "=".toList = false)
    (hb2 : pyStarts (k ++ ": ".toList ++ rv) "SUMMARY:".toList = false)
    (hb3 : pyStarts (k ++ ": ".toList ++ rv) "INSTRUCTIONS:".toList = false)
    (hb4 : pyStarts (k ++ ": ".toList ++ rv) "SKIP:".toList = false)
    (hb5 : pyStarts (k ++ ": ".toList ++ rv) "[".toList = false)
    (hb6 : pyStarts (k ++ ": ".toList ++ rv) "Back scan:".toList = false)
    (hb7 : pyStarts (k ++ ": ".toList ++ rv) "  ".toList = false)
    (hb8 : pySub "EXIF".toList (k ++ ": ".toList ++ rv) = false)
    (hb9 : pySub "METADATA".toList (k ++ ": ".toList ++ rv) = false)
    (hb10 : descriptiveFields.contains k = false) :
    parseStep (some cur, acc) ("    ".toList ++ (k ++ ": ".toList ++ rv)) =
      (some { cur with proposed_updates := dictUpdS cur.proposed_updates k rv },
        acc) := by
  have hklast : ∀ d, rv.getLast? = some d → isPySpace d = false :=
    fun d hd => stripInv_getLast hrvstrip hd
  have hstrip : pyStrip ("    ".toList ++ (k ++ ": ".toList ++ rv)) =
      k ++ ": ".toList ++ rv := by
    refine pyStrip_spaces_body (by decide) (stripInv_mk ?_ ?_) ?_
    · intro d hd
      cases hk : k with
      | nil => exact absurd hk hkne
      | cons a t =>
        rw [hk] at hd
        rw [show (a :: t) ++ ": ".toList ++ rv =
          a :: (t ++ ": ".toList ++ rv) from by simp] at hd
        have h1 : a = d := Option.some.inj hd
        rw [← h1]
        exact stripInv_head (hk ▸ hkstrip)
    · intro d hd
      rw [List.getLast?_append] at hd
      cases hv2 : rv.getLast? with
      | none =>
        have hs := List.getLast?_isSome.mpr hrvne
        rw [hv2] at hs
        cases hs
      | some x =>
        rw [hv2] at hd
        have hx : x = d := Option.some.inj hd
        subst hx
        exact hklast x hv2
    · cases hk : k with
      | nil => exact absurd hk hkne
      | cons a t => simp
  have hshape : k ++ ": ".toList ++ rv = k ++ ':' :: (' ' :: rv) := by
    rw [List.append_assoc]
    exact rfl
  have hcont : (k ++ ": ".toList ++ rv).contains ':' = true := by
    rw [hshape]
    exact contains_colon k (' ' :: rv)
  have hsplit1 : (splitFirst ':' (k ++ ": ".toList ++ rv)).1 = k := by
    rw [hshape, splitFirst_colon hkcolon]
  have hsplit2 : (splitFirst ':' (k ++ ": ".toList ++ rv)).2 = ' ' :: rv := by
    rw [hshape, splitFirst_colon hkcolon]
  have hblank : decide (k ++ ": ".toList ++ rv = []) = false := by
    simp [hkne]
  unfold parseStep
  simp only []
  rw [hstrip, hblank, hb1, hb2, hb3, hb4, hb5, hb6, hcont, hb7, hb8, hb9,
    hsplit1, hsplit2, hkstrip, pyStrip_space_cons (by decide), hrvstrip, hb10]
  rw [if_pos (show rv ≠ [] ∧ rv ≠ "<not set>".toList from ⟨hrvne, hrvns⟩)]
  rfl

theorem parseStep_skip_curexif (cur : ParsedEntry) (acc : List ParsedEntry) :
    parseStep (some cur, acc) "  CURRENT EXIF:".toList = (some cur, acc) := rfl

theorem parseStep_skip_proph (cur : ParsedEntry) (acc : List ParsedEntry) :
    parseStep (some cur, acc) "  PROPOSED UPDATES:".toList = (some cur, acc) := rfl

theorem parseStep_skip_metah (cur : ParsedEntry) (acc : List ParsedEntry) :
    parseStep (some cur, acc) "  EXTRACTION METADATA:".toList = (some cur, acc) := rfl

theorem parseStep_skip_eq80 (cur : ParsedEntry) (acc : List ParsedEntry) :
    parseStep (some cur, acc) eq80 = (some cur, acc) := rfl

theorem parseStep_skip_eop (cur : ParsedEntry) (acc : List ParsedEntry) :
    parseStep (some cur, acc) "END OF PROPOSAL".toList = (some cur, acc) := rfl

end InteractiveProcessor

end FFOcr

namespace FFOcr

namespace ProposalGenerator

/-- The back-scan file name of an entry (defaulting harmlessly for the
`none` case, which good entries exclude). -/
def bpName (e : ProposalEntry) : Str := (e.back_path.getD ⟨[], []⟩).name

/-- One `PROPOSED UPDATES` line as the writer renders it. -/
def propLine (kv : Str × PValue) : Str :=
  "    ".toList ++ (kv.1 ++ ": ".toList ++ renderValue kv.2)

/-- The individual text lines of one written entry (a good entry: back
scan present, updates present, no current-EXIF lines, no warnings, no
extraction-metadata lines). -/
def entryLines (i : Nat) (e : ProposalEntry) : List Str :=
  [[], '[' :: (fmt04 i ++ "] ".toList ++ e.original_path.name),
   "  Back scan: ".toList ++ bpName e,
   "  Confidence: ".toList ++ fmtFix 2 (entryConf e),
   [], "  CURRENT EXIF:".toList,
   [], "  PROPOSED UPDATES:".toList] ++
  (e.proposed_updates.insertionSort pairLe).map propLine ++
  [[], "  EXTRACTION METADATA:".toList]

/-- The text lines of the proposal header. -/
def headerLines (now outName : Str) (entries : List ProposalEntry) : List Str :=
  [eq80,
   "FastFoto OCR - EXIF Update Proposal".toList,
   "Generated: ".toList ++ now,
   eq80,
   [],
   "SUMMARY:".toList,
   "  Total files analyzed: ".toList ++ natToStr entries.length,
   "  Files with proposed updates: ".toList ++
     natToStr (entries.filter hasUpdates).length ++ " (".toList ++
     fmtFix 1 (qDivNat (mkRat (100 * (entries.filter hasUpdates).length) 1)
       entries.length) ++ "%)".toList,
   "  Files without updates: ".toList ++
     natToStr (entries.length - (entries.filter hasUpdates).length),
   [],
   "CONFIDENCE DISTRIBUTION:".toList,
   "  High (≥0.8): ".toList ++
     natToStr (entries.filter (fun e => qGe (entryConf e) (mkRat 8 10))).length ++
     " files".toList,
   "  Medium (0.6-0.8): ".toList ++
     natToStr (entries.filter (fun e =>
       qGe (entryConf e) (mkRat 6 10) && qLt (entryConf e) (mkRat 8 10))).length ++
     " files".toList,
   "  Low (<0.6): ".toList ++
     natToStr (entries.filter (fun e => qLt (entryConf e) (mkRat 6 10))).length ++
     " files".toList,
   "  Average confidence: ".toList ++
     fmtFix 2 (if entries.length > 0 then
       qDivNat (qSum (entries.map entryConf)) entries.length else 0),
   [],
   "INSTRUCTIONS:".toList,
   "  1. Review each proposed update below".toList,
   "  2. Check for accuracy of extracted dates, locations, and text".toList,
   "  3. To skip an update, add \"SKIP:\" at the start of that section".toList,
   "  4. To modify a value, edit it directly in this file".toList,
   "  5. Save and run with: fastfoto-ocr apply --proposal ".toList ++ outName,
   [],
   eq80,
   []]

/-- The text lines of the proposal footer. -/
def footerLines : List Str :=
  [[], eq80, "END OF PROPOSAL".toList, eq80]

/-- The lines of the sequential entry body. -/
def entriesLines : Nat → List ProposalEntry → List Str
  | _, [] => []
  | i, e :: r => entryLines i e ++ entriesLines (i + 1) r

set_option maxRecDepth 40000 in
theorem generateHeader_eq (now outName : Str) (es : List ProposalEntry) :
    generateHeader now outName es = joinNl (headerLines now outName es) ++ ['\n'] := by
  unfold generateHeader headerLines
  simp only []
  simp only [joinNl_cons_cons, joinNl_single]
  simp only [List.append_assoc, List.cons_append, List.nil_append]
  rfl

set_option maxRecDepth 40000 in
theorem footerStr_eq : footerStr = joinNl footerLines ++ ['\n'] := by
  decide

end ProposalGenerator

end FFOcr

namespace FFOcr

namespace ProposalGenerator

theorem append_ne_nil_left {P B : List Str} (hP : P ≠ []) : P ++ B ≠ [] :=
  fun h => hP (List.append_eq_nil.mp h).1

theorem joinNl_cons_append (a : Str) (P B : List Str) (hP : P ≠ []) (hB : B ≠ []) :
    joinNl (a :: (P ++ B)) = a ++ '\n' :: (joinNl P ++ '\n' :: joinNl B) := by
  rw [show a :: (P ++ B) = [a] ++ (P ++ B) from rfl,
    joinNl_append_ne [a] (by simp) _ (append_ne_nil_left hP),
    joinNl_append_ne P hP B hB, joinNl_single]

set_option maxRecDepth 40000 in
theorem formatEntry_eq (i : Nat) (e : ProposalEntry) (bp : PyPath)
    (hbp : e.back_path = some bp)
    (hup : e.proposed_updates ≠ [])
    (hce : currentExifLines e = [])
    (hw : entryWarnings e = [])
    (hs : e.metadata.source = none) (hl : e.metadata.language = none)
    (hz : e.metadata.zones_found = none) :
    formatEntry i e = joinNl (entryLines i e) ++ ['\n'] := by
  have hu : hasUpdates e = true := by
    unfold hasUpdates
    cases hpu : e.proposed_updates with
    | nil => exact absurd hpu hup
    | cons a t => simp [hpu]
  have hprops_ne : (e.proposed_updates.insertionSort pairLe).map propLine ≠ [] := by
    intro h
    rw [List.map_eq_nil_iff] at h
    apply hup
    have hlen := (List.perm_insertionSort pairLe e.proposed_updates).length_eq
    rw [h] at hlen
    exact List.length_eq_zero.mp hlen.symm
  have hbn : bpName e = bp.name := by
    unfold bpName
    rw [hbp]
    rfl
  unfold formatEntry
  rw [hbp]
  simp only []
  rw [if_neg (show ¬((!hasUpdates e) = true) from by
    rw [hu]
    exact fun h => nomatch h)]
  rw [if_neg (show ¬(entryWarnings e ≠ []) from fun h => h hw)]
  simp only [hs, hl, hz]
  rw [hce]
  rw [show proposedLines e =
    (e.proposed_updates.insertionSort pairLe).map propLine from rfl]
  unfold entryLines
  rw [hbn]
  simp only [List.append_assoc, List.cons_append, List.nil_append, List.append_nil]
  simp only [joinNl_cons_cons]
  rw [joinNl_cons_append _ _ _ hprops_ne (by simp)]
  rw [joinNl_cons_append _ _ _ hprops_ne (by simp)]
  simp only [List.append_assoc, List.cons_append, List.nil_append]
  rfl

end ProposalGenerator

end FFOcr

namespace FFOcr

namespace ProposalGenerator

/-- Conditions on one proposed-update pair under which the proposal
writer emits a field line that the proposal parser reads back verbatim:
clean key, clean rendered value, and a line that triggers none of the
parser\u2019s special-case branches. -/
structure GoodPair (kv : Str × PValue) : Prop where
  k_ne : kv.1 ≠ []
  k_colon : ':' ∉ kv.1
  k_strip : pyStrip kv.1 = kv.1
  k_nl : nlFree kv.1 = true
  v_strip : pyStrip (renderValue kv.2) = renderValue kv.2
  v_ne : renderValue kv.2 ≠ []
  v_notset : renderValue kv.2 ≠ "<not set>".toList
  v_nl : nlFree (renderValue kv.2) = true
  b_eq : pyStarts (kv.1 ++ ": ".toList ++ renderValue kv.2) "=".toList = false
  b_sum : pyStarts (kv.1 ++ ": ".toList ++ renderValue kv.2) "SUMMARY:".toList = false
  b_instr : pyStarts (kv.1 ++ ": ".toList ++ renderValue kv.2) "INSTRUCTIONS:".toList = false
  b_skip : pyStarts (kv.1 ++ ": ".toList ++ renderValue kv.2) "SKIP:".toList = false
  b_lbr : pyStarts (kv.1 ++ ": ".toList ++ renderValue kv.2) "[".toList = false
  b_back : pyStarts (kv.1 ++ ": ".toList ++ renderValue kv.2) "Back scan:".toList = false
  b_sp : pyStarts (kv.1 ++ ": ".toList ++ renderValue kv.2) "  ".toList = false
  b_exif : pySub "EXIF".toList (kv.1 ++ ": ".toList ++ renderValue kv.2) = false
  b_meta : pySub "METADATA".toList (kv.1 ++ ": ".toList ++ renderValue kv.2) = false
  k_desc : InteractiveProcessor.descriptiveFields.contains kv.1 = false

/-- Conditions on one proposal entry under which its written block is an
exact, parseable rendition: a clean file name, a back scan, at least one
update with pairwise distinct clean fields, nothing in the current-EXIF
block, no warnings, no extraction-metadata lines, and a name the
`add_entry` guard accepts. -/
structure GoodEntry (e : ProposalEntry) : Prop where
  nm_ne : e.original_path.name ≠ []
  nm_strip : pyStrip e.original_path.name = e.original_path.name
  nm_nl : nlFree e.original_path.name = true
  bp_some : e.back_path ≠ none
  bn_ne : bpName e ≠ []
  bn_strip : pyStrip (bpName e) = bpName e
  bn_nl : nlFree (bpName e) = true
  pu_ne : e.proposed_updates ≠ []
  pu_good : ∀ kv ∈ e.proposed_updates, GoodPair kv
  pu_nodup : (e.proposed_updates.map (fun kv => kv.1)).Nodup
  ce_nil : currentExifLines e = []
  warn_nil : entryWarnings e = []
  src_none : e.metadata.source = none
  lang_none : e.metadata.language = none
  zones_none : e.metadata.zones_found = none
  guard_aj : pyEnds e.original_path.name "_a.jpg".toList = false
  guard_ae : pyEnds e.original_path.name "_a.jpeg".toList = false
  guard_bj : pyEnds e.original_path.name "_b.jpg".toList = false
  guard_be : pyEnds e.original_path.name "_b.jpeg".toList = false

/-- The parsed-entry rendition of a written good entry: name, skip
false, the sorted field/value pairs with values as rendered, and the
back-scan file name. -/
def parsedOf (e : ProposalEntry) : InteractiveProcessor.ParsedEntry :=
  ⟨e.original_path.name, false,
    (e.proposed_updates.insertionSort pairLe).map
      (fun kv => (kv.1, renderValue kv.2)),
    some (bpName e)⟩

theorem entriesLines_ne_nil {i : Nat} {es : List ProposalEntry} (h : es ≠ []) :
    entriesLines i es ≠ [] := by
  cases es with
  | nil => exact absurd rfl h
  | cons e r =>
    show entryLines i e ++ entriesLines (i + 1) r ≠ []
    unfold entryLines
    simp

theorem entryLines_nlFree {i : Nat} {e : ProposalEntry} (hg : GoodEntry e) :
    ∀ l ∈ entryLines i e, nlFree l = true := by
  intro l hl
  unfold entryLines at hl
  simp only [List.mem_append, List.mem_cons] at hl
  rcases hl with ((h | h | h | h | h | h | h | h | h) | h) | (h | h | h)
  · subst h; decide
  · subst h
    refine nlFree_of_forall ?_
    intro c hc hcc
    subst hcc
    rcases List.mem_cons.mp hc with h0 | hc2
    · exact absurd h0 (by decide)
    · rcases List.mem_append.mp hc2 with h3 | h3
      · rcases List.mem_append.mp h3 with h4 | h4
        · exact absurd rfl (isDig_props (fmt04_digits i _ h4)).1
        · exact absurd h4 (by decide)
      · exact (nlFree_iff.mp hg.nm_nl) h3
  · subst h
    exact nlFree_append (by decide) hg.bn_nl
  · subst h
    exact nlFree_append (by decide) (nlFree_fmtFix 2 (entryConf e))
  · subst h; decide
  · subst h; decide
  · subst h; decide
  · subst h; decide
  · cases h
  · rcases List.mem_map.mp h with ⟨kv, hkv, rfl⟩
    have hgp := hg.pu_good kv
      ((List.perm_insertionSort pairLe e.proposed_updates).mem_iff.mp hkv)
    unfold propLine
    exact nlFree_append (by decide)
      (nlFree_append (nlFree_append hgp.k_nl (by decide)) hgp.v_nl)
  · subst h; decide
  · subst h; decide
  · cases h

theorem headerLines_nlFree {now outName : Str} {es : List ProposalEntry}
    (hnow : nlFree now = true) (hout : nlFree outName = true) :
    ∀ l ∈ headerLines now outName es, nlFree l = true := by
  intro l hl
  unfold headerLines at hl
  simp only [List.mem_cons] at hl
  rcases hl with h | h | h | h | h | h | h | h | h | h | h | h | h | h | h | h |
    h | h | h | h | h | h | h | h | h | h
  · subst h; decide
  · subst h; decide
  · subst h; exact nlFree_append (by decide) hnow
  · subst h; decide
  · subst h; decide
  · subst h; decide
  · subst h; exact nlFree_append (by decide) (nlFree_natToStr _)
  · subst h
    exact nlFree_append (nlFree_append (nlFree_append
      (nlFree_append (by decide) (nlFree_natToStr _)) (by decide))
      (nlFree_fmtFix 1 _)) (by decide)
  · subst h; exact nlFree_append (by decide) (nlFree_natToStr _)
  · subst h; decide
  · subst h; decide
  · subst h; exact nlFree_append (nlFree_append (by decide) (nlFree_natToStr _)) (by decide)
  · subst h; exact nlFree_append (nlFree_append (by decide) (nlFree_natToStr _)) (by decide)
  · subst h; exact nlFree_append (nlFree_append (by decide) (nlFree_natToStr _)) (by decide)
  · subst h; exact nlFree_append (by decide) (nlFree_fmtFix 2 _)
  · subst h; decide
  · subst h; decide
  · subst h; decide
  · subst h; decide
  · subst h; decide
  · subst h; decide
  · subst h; exact nlFree_append (by decide) hout
  · subst h; decide
  · subst h; decide
  · subst h; decide
  · cases h

theorem entriesLines_nlFree :
    ∀ {es : List ProposalEntry} {i : Nat}, (∀ e ∈ es, GoodEntry e) →
      ∀ l ∈ entriesLines i es, nlFree l = true := by
  intro es
  induction es with
  | nil =>
    intro i _ l hl
    cases hl
  | cons e r ih =>
    intro i hg l hl
    rcases List.mem_append.mp hl with h | h
    · exact entryLines_nlFree (hg e (by simp)) l h
    · exact ih (fun e2 h2 => hg e2 (by simp [h2])) l h

theorem entriesBody_eq :
    ∀ (es : List ProposalEntry), es ≠ [] → (∀ e ∈ es, GoodEntry e) → ∀ (i : Nat),
      entriesBody i es = joinNl (entriesLines i es) ++ ['\n']
  | [], h, _, _ => absurd rfl h
  | [e], _, hg, i => by
    have hge := hg e (by simp)
    obtain ⟨bp, hbp⟩ : ∃ bp, e.back_path = some bp := by
      cases hb : e.back_path with
      | none => exact absurd hb hge.bp_some
      | some b => exact ⟨b, rfl⟩
    show formatEntry i e ++ entriesBody (i + 1) [] =
      joinNl (entryLines i e ++ entriesLines (i + 1) []) ++ ['\n']
    rw [show entriesBody (i + 1) ([] : List ProposalEntry) = [] from rfl,
      show entriesLines (i + 1) ([] : List ProposalEntry) = [] from rfl,
      List.append_nil, List.append_nil,
      formatEntry_eq i e bp hbp hge.pu_ne hge.ce_nil hge.warn_nil
        hge.src_none hge.lang_none hge.zones_none]
  | e :: e2 :: r, _, hg, i => by
    have hge := hg e (by simp)
    obtain ⟨bp, hbp⟩ : ∃ bp, e.back_path = some bp := by
      cases hb : e.back_path with
      | none => exact absurd hb hge.bp_some
      | some b => exact ⟨b, rfl⟩
    show formatEntry i e ++ entriesBody (i + 1) (e2 :: r) =
      joinNl (entryLines i e ++ entriesLines (i + 1) (e2 :: r)) ++ ['\n']
    rw [formatEntry_eq i e bp hbp hge.pu_ne hge.ce_nil hge.warn_nil
      hge.src_none hge.lang_none hge.zones_none]
    rw [entriesBody_eq (e2 :: r) (by simp) (fun e3 h3 => hg e3 (by simp [h3])) (i + 1)]
    rw [joinNl_chunk_concat (by unfold entryLines; simp) (entriesLines_ne_nil (by simp))]

theorem writeContent_eq (now outName : Str) (es : List ProposalEntry)
    (hne : es ≠ []) (hg : ∀ e ∈ es, GoodEntry e) :
    writeContent false now outName es =
      joinNl (headerLines now outName es ++ entriesLines 1 es ++ footerLines)
        ++ ['\n'] := by
  unfold writeContent
  rw [if_neg (show ¬(false = true) from fun h => nomatch h)]
  rw [generateHeader_eq, entriesBody_eq es hne hg 1, footerStr_eq]
  rw [joinNl_chunk_concat (show headerLines now outName es ≠ [] from by
    unfold headerLines; simp) (entriesLines_ne_nil hne)]
  rw [joinNl_chunk_concat (show headerLines now outName es ++ entriesLines 1 es ≠ []
    from by unfold headerLines; simp) (show footerLines ≠ [] from by
    unfold footerLines; simp)]

theorem splitLines_writeContent (now outName : Str) (es : List ProposalEntry)
    (hnow : nlFree now = true) (hout : nlFree outName = true)
    (hne : es ≠ []) (hg : ∀ e ∈ es, GoodEntry e) :
    splitLines (writeContent false now outName es) =
      headerLines now outName es ++ entriesLines 1 es ++ footerLines ++ [[]] := by
  rw [writeContent_eq now outName es hne hg]
  rw [← joinNl_append_nil (show headerLines now outName es ++
    entriesLines 1 es ++ footerLines ≠ [] from by unfold headerLines; simp)]
  rw [splitLines_joinNl (by simp) ?_]
  intro l hl
  simp only [List.append_assoc, List.mem_append] at hl
  rcases hl with h | h | h | h
  · exact headerLines_nlFree hnow hout l h
  · exact entriesLines_nlFree hg l h
  · unfold footerLines at h
    simp only [List.mem_cons, List.mem_singleton] at h
    rcases h with rfl | rfl | rfl | (rfl | h)
    · decide
    · decide
    · decide
    · decide
    · cases h
  · rcases List.mem_singleton.mp h with rfl
    decide

end ProposalGenerator

end FFOcr

namespace FFOcr

theorem pyStrip_head_ne_cons {c : Char} {t : Str} {d : Char}
    (hc : isPySpace c = false) (hne : c ≠ d) :
    ¬ (pyStrip (c :: t)).head? = some d := by
  rw [pyStrip_cons hc]
  intro h
  exact hne (Option.some.inj h)

theorem pyStrip_head_ne_sp2 {c : Char} {t : Str} {d : Char}
    (hc : isPySpace c = false) (hne : c ≠ d) :
    ¬ (pyStrip (' ' :: (' ' :: (c :: t)))).head? = some d := by
  rw [pyStrip_space_cons (by decide), pyStrip_space_cons (by decide)]
  exact pyStrip_head_ne_cons hc hne

end FFOcr

namespace FFOcr

namespace ProposalGenerator

theorem headerFold (now outName : Str) (es : List ProposalEntry)
    (acc : List InteractiveProcessor.ParsedEntry) :
    List.foldl InteractiveProcessor.parseStep (none, acc)
      (headerLines now outName es) = (none, acc) := by
  unfold headerLines
  rw [List.foldl_cons, InteractiveProcessor.parseStep_none_inert _ _ (by decide)]
  rw [List.foldl_cons, InteractiveProcessor.parseStep_none_inert _ _ (by decide)]
  rw [List.foldl_cons, InteractiveProcessor.parseStep_none_inert _ _
    (show ¬ (pyStrip ("Generated: ".toList ++ now)).head? = some '[' from
      pyStrip_head_ne_cons (by decide) (by decide))]
  rw [List.foldl_cons, InteractiveProcessor.parseStep_none_inert _ _ (by decide)]
  rw [List.foldl_cons, InteractiveProcessor.parseStep_none_inert _ _ (by decide)]
  rw [List.foldl_cons, InteractiveProcessor.parseStep_none_inert _ _ (by decide)]
  rw [List.foldl_cons, InteractiveProcessor.parseStep_none_inert _ _
    (show ¬ (pyStrip ("  Total files analyzed: ".toList ++
        natToStr es.length)).head? = some '[' from
      pyStrip_head_ne_sp2 (by decide) (by decide))]
  rw [List.foldl_cons, InteractiveProcessor.parseStep_none_inert _ _
    (show ¬ (pyStrip ("  Files with proposed updates: ".toList ++
        natToStr (es.filter hasUpdates).length ++ " (".toList ++
        fmtFix 1 (qDivNat (mkRat (100 * (es.filter hasUpdates).length) 1)
          es.length) ++ "%)".toList)).head? = some '[' from by
      rw [show "  Files with proposed updates: ".toList ++
        natToStr (es.filter hasUpdates).length ++ " (".toList ++
        fmtFix 1 (qDivNat (mkRat (100 * (es.filter hasUpdates).length) 1)
          es.length) ++ "%)".toList =
        ' ' :: (' ' :: ("Files with proposed updates: ".toList ++
          (natToStr (es.filter hasUpdates).length ++ " (".toList ++
          fmtFix 1 (qDivNat (mkRat (100 * (es.filter hasUpdates).length) 1)
            es.length) ++ "%)".toList))) from by simp]
      exact pyStrip_head_ne_sp2 (by decide) (by decide))]
  rw [List.foldl_cons, InteractiveProcessor.parseStep_none_inert _ _
    (show ¬ (pyStrip ("  Files without updates: ".toList ++
        natToStr (es.length - (es.filter hasUpdates).length))).head? = some '[' from
      pyStrip_head_ne_sp2 (by decide) (by decide))]
  rw [List.foldl_cons, InteractiveProcessor.parseStep_none_inert _ _ (by decide)]
  rw [List.foldl_cons, InteractiveProcessor.parseStep_none_inert _ _ (by decide)]
  rw [List.foldl_cons, InteractiveProcessor.parseStep_none_inert _ _
    (show ¬ (pyStrip ("  High (≥0.8): ".toList ++
        natToStr (es.filter (fun e => qGe (entryConf e) (mkRat 8 10))).length ++
        " files".toList)).head? = some '[' from by
      rw [show "  High (≥0.8): ".toList ++
        natToStr (es.filter (fun e => qGe (entryConf e) (mkRat 8 10))).length ++
        " files".toList = ' ' :: (' ' :: ("High (≥0.8): ".toList ++
          (natToStr (es.filter (fun e =>
            qGe (entryConf e) (mkRat 8 10))).length ++ " files".toList)))
        from by simp]
      exact pyStrip_head_ne_sp2 (by decide) (by decide))]
  rw [List.foldl_cons, InteractiveProcessor.parseStep_none_inert _ _
    (show ¬ (pyStrip ("  Medium (0.6-0.8): ".toList ++
        natToStr (es.filter (fun e => qGe (entryConf e) (mkRat 6 10) &&
          qLt (entryConf e) (mkRat 8 10))).length ++
        " files".toList)).head? = some '[' from by
      rw [show "  Medium (0.6-0.8): ".toList ++
        natToStr (es.filter (fun e => qGe (entryConf e) (mkRat 6 10) &&
          qLt (entryConf e) (mkRat 8 10))).length ++ " files".toList =
        ' ' :: (' ' :: ("Medium (0.6-0.8): ".toList ++
          (natToStr (es.filter (fun e => qGe (entryConf e) (mkRat 6 10) &&
            qLt (entryConf e) (mkRat 8 10))).length ++ " files".toList)))
        from by simp]
      exact pyStrip_head_ne_sp2 (by decide) (by decide))]
  rw [List.foldl_cons, InteractiveProcessor.parseStep_none_inert _ _
    (show ¬ (pyStrip ("  Low (<0.6): ".toList ++
        natToStr (es.filter (fun e => qLt (entryConf e) (mkRat 6 10))).length ++
        " files".toList)).head? = some '[' from by
      rw [show "  Low (<0.6): ".toList ++
        natToStr (es.filter (fun e => qLt (entryConf e) (mkRat 6 10))).length ++
        " files".toList = ' ' :: (' ' :: ("Low (<0.6): ".toList ++
          (natToStr (es.filter (fun e =>
            qLt (entryConf e) (mkRat 6 10))).length ++ " files".toList)))
        from by simp]
      exact pyStrip_head_ne_sp2 (by decide) (by decide))]
  rw [List.foldl_cons, InteractiveProcessor.parseStep_none_inert _ _
    (show ¬ (pyStrip ("  Average confidence: ".toList ++
        fmtFix 2 (if es.length > 0 then
          qDivNat (qSum (es.map entryConf)) es.length else 0))).head? = some '['
      from pyStrip_head_ne_sp2 (by decide) (by decide))]
  rw [List.foldl_cons, InteractiveProcessor.parseStep_none_inert _ _ (by decide)]
  rw [List.foldl_cons, InteractiveProcessor.parseStep_none_inert _ _ (by decide)]
  rw [List.foldl_cons, InteractiveProcessor.parseStep_none_inert _ _ (by decide)]
  rw [List.foldl_cons, InteractiveProcessor.parseStep_none_inert _ _ (by decide)]
  rw [List.foldl_cons, InteractiveProcessor.parseStep_none_inert _ _ (by decide)]
  rw [List.foldl_cons, InteractiveProcessor.parseStep_none_inert _ _ (by decide)]
  rw [List.foldl_cons, InteractiveProcessor.parseStep_none_inert _ _
    (show ¬ (pyStrip
      ("  5. Save and run with: fastfoto-ocr apply --proposal ".toList ++
        outName)).head? = some '[' from
      pyStrip_head_ne_sp2 (by decide) (by decide))]
  rw [List.foldl_cons, InteractiveProcessor.parseStep_none_inert _ _ (by decide)]
  rw [List.foldl_cons, InteractiveProcessor.parseStep_none_inert _ _ (by decide)]
  rw [List.foldl_cons, InteractiveProcessor.parseStep_none_inert _ _ (by decide)]
  rw [List.foldl_nil]

/-- The rendered key/value pairs of a list of proposed updates. -/
def rendPairs (ps : List (Str × PValue)) : List (Str × Str) :=
  ps.map (fun kv => (kv.1, renderValue kv.2))

theorem propsFold :
    ∀ (ps : List (Str × PValue)) (cur : InteractiveProcessor.ParsedEntry)
      (acc : List InteractiveProcessor.ParsedEntry),
      (∀ kv ∈ ps, GoodPair kv) →
      (∀ kv ∈ ps, ∀ q ∈ cur.proposed_updates, q.1 ≠ kv.1) →
      (ps.map (fun kv => kv.1)).Nodup →
      List.foldl InteractiveProcessor.parseStep (some cur, acc)
          (ps.map propLine) =
        (some { cur with proposed_updates := cur.proposed_updates ++ rendPairs ps },
          acc)
  | [], cur, acc, _, _, _ => by
    simp [rendPairs]
  | kv :: ps, cur, acc, hg, hf, hnd => by
    have hgp := hg kv (by simp)
    have hnd2 : (kv.1 :: ps.map (fun kv => kv.1)).Nodup := by
      rw [List.map_cons] at hnd
      exact hnd
    rw [List.map_cons, List.foldl_cons]
    simp only [propLine]
    rw [InteractiveProcessor.parseStep_prop cur acc kv.1 (renderValue kv.2)
      hgp.k_ne hgp.k_colon hgp.k_strip hgp.v_strip hgp.v_ne hgp.v_notset
      hgp.b_eq hgp.b_sum hgp.b_instr hgp.b_skip hgp.b_lbr hgp.b_back hgp.b_sp
      hgp.b_exif hgp.b_meta hgp.k_desc]
    rw [InteractiveProcessor.dictUpdS_fresh
      (fun q hq => hf kv (by simp) q hq) (renderValue kv.2)]
    rw [propsFold ps
      { cur with proposed_updates := cur.proposed_updates ++ [(kv.1, renderValue kv.2)] }
      acc
      (fun kv2 h2 => hg kv2 (by simp [h2]))
      (fun kv2 h2 q hq => by
        rcases List.mem_append.mp hq with h | h
        · exact hf kv2 (by simp [h2]) q h
        · rcases List.mem_singleton.mp h with rfl
          intro hEq
          apply (List.nodup_cons.mp hnd2).1
          rw [hEq]
          exact List.mem_map.mpr ⟨kv2, h2, rfl⟩)
      (List.nodup_cons.mp hnd2).2]
    simp [List.append_assoc, rendPairs]

theorem entryChunk (i : Nat) (e : ProposalEntry) (hg : GoodEntry e)
    (st : InteractiveProcessor.ParseState) :
    List.foldl InteractiveProcessor.parseStep st (entryLines i e) =
      (some (parsedOf e),
        st.2 ++ (match st.1 with | some c => [c] | none => [])) := by
  unfold entryLines
  simp only [List.cons_append, List.nil_append]
  rw [List.foldl_cons, InteractiveProcessor.parseStep_blank]
  rw [List.foldl_cons, InteractiveProcessor.parseStep_header st i
    e.original_path.name hg.nm_ne hg.nm_strip]
  rw [List.foldl_cons, InteractiveProcessor.parseStep_backscan _ _ (bpName e)
    hg.bn_ne hg.bn_strip]
  rw [List.foldl_cons, InteractiveProcessor.parseStep_conf _ _ (entryConf e)]
  rw [List.foldl_cons, InteractiveProcessor.parseStep_blank]
  rw [List.foldl_cons, InteractiveProcessor.parseStep_skip_curexif]
  rw [List.foldl_cons, InteractiveProcessor.parseStep_blank]
  rw [List.foldl_cons, InteractiveProcessor.parseStep_skip_proph]
  rw [List.foldl_append]
  rw [propsFold (e.proposed_updates.insertionSort pairLe) _ _
    (fun kv h => hg.pu_good kv
      ((List.perm_insertionSort pairLe e.proposed_updates).mem_iff.mp h))
    (fun kv _ q hq => absurd hq (List.not_mem_nil q))
    (((List.perm_insertionSort pairLe e.proposed_updates).map
      (fun kv => kv.1)).nodup_iff.mpr hg.pu_nodup)]
  rw [List.foldl_cons, InteractiveProcessor.parseStep_blank]
  rw [List.foldl_cons, InteractiveProcessor.parseStep_skip_metah]
  rw [List.foldl_nil]
  rfl

set_option maxRecDepth 40000 in
theorem footerFold (cur : InteractiveProcessor.ParsedEntry)
    (acc : List InteractiveProcessor.ParsedEntry) :
    List.foldl InteractiveProcessor.parseStep (some cur, acc)
      (footerLines ++ [[]]) = (some cur, acc) := rfl

theorem tailFold :
    ∀ (r : List ProposalEntry), (∀ e ∈ r, GoodEntry e) →
      ∀ (i : Nat) (cur : InteractiveProcessor.ParsedEntry)
        (acc : List InteractiveProcessor.ParsedEntry),
      InteractiveProcessor.finish (List.foldl InteractiveProcessor.parseStep
          (some cur, acc) (entriesLines i r ++ (footerLines ++ [[]]))) =
        acc ++ cur :: r.map parsedOf
  | [], _, i, cur, acc => by
    show InteractiveProcessor.finish (List.foldl InteractiveProcessor.parseStep
      (some cur, acc) ([] ++ (footerLines ++ [[]]))) = _
    rw [List.nil_append, footerFold]
    rfl
  | e :: r, hg, i, cur, acc => by
    show InteractiveProcessor.finish (List.foldl InteractiveProcessor.parseStep
      (some cur, acc) ((entryLines i e ++ entriesLines (i + 1) r) ++
        (footerLines ++ [[]]))) = _
    rw [List.append_assoc, List.foldl_append]
    rw [entryChunk i e (hg e (by simp)) (some cur, acc)]
    rw [show ((some (parsedOf e) : Option InteractiveProcessor.ParsedEntry),
      ((some cur, acc) : InteractiveProcessor.ParseState).2 ++
        (match ((some cur, acc) : InteractiveProcessor.ParseState).1 with
          | some c => [c] | none => [])) =
      ((some (parsedOf e) : Option InteractiveProcessor.ParsedEntry),
        acc ++ [cur]) from rfl]
    rw [tailFold r (fun e2 h2 => hg e2 (by simp [h2])) (i + 1) (parsedOf e)
      (acc ++ [cur])]
    simp

theorem addEntries_ok_aux :
    ∀ (es : List ProposalEntry) (acc : List ProposalEntry),
      (∀ e ∈ es, GoodEntry e) →
      List.foldlM addEntry acc es = Except.ok (acc ++ es)
  | [], acc, _ => by
    show pure acc = Except.ok (acc ++ [])
    rw [List.append_nil]
    rfl
  | e :: r, acc, hg => by
    have hge := hg e (by simp)
    rw [List.foldlM_cons]
    rw [show addEntry acc e = Except.ok (acc ++ [e]) from by
      unfold addEntry
      rw [hge.guard_aj, hge.guard_ae, hge.guard_bj, hge.guard_be]
      rfl]
    show List.foldlM addEntry (acc ++ [e]) r = Except.ok (acc ++ e :: r)
    rw [addEntries_ok_aux r (acc ++ [e]) (fun e2 h2 => hg e2 (by simp [h2]))]
    simp

theorem addEntries_ok (es : List ProposalEntry)
    (hg : ∀ e ∈ es, GoodEntry e) : addEntries es = Except.ok es := by
  unfold addEntries
  rw [addEntries_ok_aux es [] hg]
  rfl

end ProposalGenerator

end FFOcr

namespace FFOcr

namespace ProposalGenerator

theorem goodPair_of {kv : Str × PValue}
    (h : (kv.1 ≠ [] ∧ ':' ∉ kv.1 ∧ pyStrip kv.1 = kv.1 ∧ nlFree kv.1 = true) ∧
      (pyStrip (renderValue kv.2) = renderValue kv.2 ∧ renderValue kv.2 ≠ [] ∧
        renderValue kv.2 ≠ "<not set>".toList ∧
        nlFree (renderValue kv.2) = true) ∧
      (pyStarts (kv.1 ++ ": ".toList ++ renderValue kv.2) "=".toList = false ∧
        pyStarts (kv.1 ++ ": ".toList ++ renderValue kv.2)
          "SUMMARY:".toList = false ∧
        pyStarts (kv.1 ++ ": ".toList ++ renderValue kv.2)
          "INSTRUCTIONS:".toList = false ∧
        pyStarts (kv.1 ++ ": ".toList ++ renderValue kv.2)
          "SKIP:".toList = false ∧
        pyStarts (kv.1 ++ ": ".toList ++ renderValue kv.2) "[".toList = false ∧
        pyStarts (kv.1 ++ ": ".toList ++ renderValue kv.2)
          "Back scan:".toList = false ∧
        pyStarts (kv.1 ++ ": ".toList ++ renderValue kv.2)
          "  ".toList = false ∧
        pySub "EXIF".toList (kv.1 ++ ": ".toList ++ renderValue kv.2) = false ∧
        pySub "METADATA".toList
          (kv.1 ++ ": ".toList ++ renderValue kv.2) = false) ∧
      InteractiveProcessor.descriptiveFields.contains kv.1 = false) :
    GoodPair kv :=
  ⟨h.1.1, h.1.2.1, h.1.2.2.1, h.1.2.2.2, h.2.1.1, h.2.1.2.1, h.2.1.2.2.1,
    h.2.1.2.2.2, h.2.2.1.1, h.2.2.1.2.1, h.2.2.1.2.2.1, h.2.2.1.2.2.2.1,
    h.2.2.1.2.2.2.2.1, h.2.2.1.2.2.2.2.2.1, h.2.2.1.2.2.2.2.2.2.1,
    h.2.2.1.2.2.2.2.2.2.2.1, h.2.2.1.2.2.2.2.2.2.2.2, h.2.2.2⟩

theorem goodEntry_of {e : ProposalEntry}
    (hpu : ∀ kv ∈ e.proposed_updates, GoodPair kv)
    (h : (e.original_path.name ≠ [] ∧
        pyStrip e.original_path.name = e.original_path.name ∧
        nlFree e.original_path.name = true) ∧
      (e.back_path ≠ none ∧ bpName e ≠ [] ∧ pyStrip (bpName e) = bpName e ∧
        nlFree (bpName e) = true) ∧
      (e.proposed_updates ≠ [] ∧
        (e.proposed_updates.map (fun kv => kv.1)).Nodup) ∧
      (currentExifLines e = [] ∧ entryWarnings e = []) ∧
      (e.metadata.source = none ∧ e.metadata.language = none ∧
        e.metadata.zones_found = none) ∧
      (pyEnds e.original_path.name "_a.jpg".toList = false ∧
        pyEnds e.original_path.name "_a.jpeg".toList = false ∧
        pyEnds e.original_path.name "_b.jpg".toList = false ∧
        pyEnds e.original_path.name "_b.jpeg".toList = false)) :
    GoodEntry e :=
  ⟨h.1.1, h.1.2.1, h.1.2.2, h.2.1.1, h.2.1.2.1, h.2.1.2.2.1, h.2.1.2.2.2,
    h.2.2.1.1, hpu, h.2.2.1.2, h.2.2.2.1.1, h.2.2.2.1.2, h.2.2.2.2.1.1,
    h.2.2.2.2.1.2.1, h.2.2.2.2.1.2.2, h.2.2.2.2.2.1, h.2.2.2.2.2.2.1,
    h.2.2.2.2.2.2.2.1, h.2.2.2.2.2.2.2.2⟩

/-- C1 (amended): for a sequential (non-grouped) proposal over good
entries — a clean file name accepted by the `add_entry` guard, a back
scan, at least one proposed update with clean, pairwise-distinct fields,
an empty current-EXIF block, no warnings and no extraction-metadata
lines — serializing and then parsing reproduces the entries exactly:
`add_entry` accepts them all, and the parse yields one entry per input
with the same name, `skip = false`, the same back-scan file name, and the
proposed pairs sorted by key with values as rendered.  (Without these
restrictions the round trip fails: see the counterexample, where an
entry with no updates comes back with a spurious `Status` field.) -/
theorem proposal_roundtrip (now outName : Str) (es : List ProposalEntry)
    (hnow : nlFree now = true) (hout : nlFree outName = true)
    (hne : es ≠ []) (hg : ∀ e ∈ es, GoodEntry e) :
    InteractiveProcessor.parseProposalContent
        (writeContent false now outName es) = es.map parsedOf ∧
    addEntries es = Except.ok es := by
  constructor
  · rw [InteractiveProcessor.parseProposalContent_eq]
    rw [splitLines_writeContent now outName es hnow hout hne hg]
    rw [show headerLines now outName es ++ entriesLines 1 es ++ footerLines
        ++ [[]] = headerLines now outName es ++
        (entriesLines 1 es ++ (footerLines ++ [[]])) from by
      simp [List.append_assoc]]
    rw [List.foldl_append, headerFold]
    cases es with
    | nil => exact absurd rfl hne
    | cons e r =>
      rw [show entriesLines 1 (e :: r) =
        entryLines 1 e ++ entriesLines 2 r from rfl]
      rw [List.append_assoc, List.foldl_append]
      rw [entryChunk 1 e (hg e (by simp)) (none, [])]
      rw [show ((some (parsedOf e) : Option InteractiveProcessor.ParsedEntry),
        (((none : Option InteractiveProcessor.ParsedEntry),
          ([] : List InteractiveProcessor.ParsedEntry)) :
            InteractiveProcessor.ParseState).2 ++
          (match (((none : Option InteractiveProcessor.ParsedEntry),
            ([] : List InteractiveProcessor.ParsedEntry)) :
              InteractiveProcessor.ParseState).1 with
            | some c => [c] | none => [])) =
        ((some (parsedOf e) : Option InteractiveProcessor.ParsedEntry),
          ([] : List InteractiveProcessor.ParsedEntry)) from rfl]
      rw [tailFold r (fun e2 h2 => hg e2 (by simp [h2])) 2 (parsedOf e) []]
      simp
  · exact addEntries_ok es hg

/-- The witness entry: one clean update behind a back scan. -/
def wEntry : ProposalEntry :=
  ⟨⟨"/t".toList, "IMG_002.jpg".toList⟩,
    some ⟨"/t".toList, "IMG_002_b.jpg".toList⟩,
    [], [("DateTimeOriginal".toList, PValue.s "1999:06:07 11:32:00".toList)],
    ⟨some (mkRat 9 10), none, none, none, none⟩⟩

theorem proposal_roundtrip_witness :
    InteractiveProcessor.parseProposalContent
        (writeContent false "2025-01-01 10:00:00".toList "proposal.txt".toList
          [wEntry]) = [wEntry].map parsedOf ∧
    addEntries [wEntry] = Except.ok [wEntry] :=
  proposal_roundtrip "2025-01-01 10:00:00".toList "proposal.txt".toList
    [wEntry] (by decide) (by decide) (by simp)
    (fun e he => by
      rcases List.mem_singleton.mp he with rfl
      refine goodEntry_of (fun kv hkv => ?_) (by decide)
      rcases List.mem_singleton.mp hkv with rfl
      exact goodPair_of (by decide))

/-- The counterexample entry: a back scan but no proposed updates. -/
def ceEntry : ProposalEntry :=
  ⟨⟨"/t".toList, "IMG_001.jpg".toList⟩,
    some ⟨"/t".toList, "IMG_001_b.jpg".toList⟩,
    [], [], ⟨some (mkRat 9 10), none, none, none, none⟩⟩

set_option maxRecDepth 100000 in
/-- C1 counterexample: an accepted entry with no proposed updates does
not round-trip — the writer emits a `Status: No useful metadata
extracted` line and the parser reads it back as a proposed field, so the
parsed entry\u2019s `proposed_updates` is not the serialized entry\u2019s empty
dictionary. -/
theorem proposal_roundtrip_counterexample :
    addEntries [ceEntry] = Except.ok [ceEntry] ∧
    ceEntry.proposed_updates = [] ∧
    (InteractiveProcessor.parseProposalContent
        (writeContent false "2025-01-01 10:00:00".toList "proposal.txt".toList
          [ceEntry])).map (fun p => p.proposed_updates) =
      [[("Status".toList, "No useful metadata extracted".toList)]] :=
  ⟨rfl, by decide, by decide⟩

end ProposalGenerator

end FFOcr
